import Mathlib

/-!
# go-highs: construction of the HiGHS input arrays and the solve call

A shallow embedding of `solver.go` (package `highs`): the column builder
`prepareColumns`, the row builder `prepareConstraintMatrix`, the Hessian
builder `prepareHessian` and their caller `newHighsInput`; the solution type
`highsSolution` with its predicates; the option translator `handleOptions`
with its setters; and `Solve` with `solve`.

Modelling conventions.

* Go slices are Lean lists. `make([]T, n)` is `List.replicate n 0`, `append`
  is `++`, and an indexed store `a[i] = x` is `setIdx`, which yields `none`
  where Go panics with an index out of range. Functions that can panic return
  `Option`.
* `float64` / `C.double` is an arbitrary type `F`. The builders only copy
  such values, negate the infinity sentinel and double a coefficient, so the
  operations of `F` that are used are `0`, unary minus and `* 2`.
* `int` / `C.int` values (indices, offsets, counts) are natural numbers. The
  conversions `C.int(..)` of sizes and indices are the identity: they are
  taken to fit a C `int`, as HiGHS itself requires. The value of an int
  control option is any Go `int`, and its conversion `C.int(value)` in
  `setIntOption` is the truncation to 32 bits, `cInt`.
* The accessors of the `mip` model library (`Index()`, `Terms()`, ...) become
  structure fields; a constraint sense is one of the three constants of `mip`.
* The time stamp `start` is a natural number.
* A Go `map[int]V` is an association list with unique keys (`GoMap`). Go
  leaves the order of `range` over a map unspecified: the order in which
  `prepareHessian` visits a grouped column is given by a parameter `ord`,
  constrained in the theorems only to enumerate the map's entries.
* The native engine is a parameter `Engine`: its answers may depend on the
  calls made so far. `Solve` and the option setters return, next to their
  result, the list of engine calls in the order they are made; a panic is the
  outcome `Outcome.panic`. The C string allocations (`C.CString`, `C.free`)
  and `runtime.KeepAlive` are not engine calls and are left out.
* A Go `error` is a value of the inductive type `SolveError`, `nil` is `none`.
* The method `Value` takes the result of `variable.Index()` as an integer: it
  is a Go `int` and the method is open to any implementation of `mip.Var`.
-/

namespace Highs

/-! ## The model library (`mip`), as consumed by the solver -/

/-- The three constraint senses `mip.LessThanOrEqual`, `mip.Equal`,
`mip.GreaterThanOrEqual`. -/
inductive Sense where
  | LessThanOrEqual
  | Equal
  | GreaterThanOrEqual
  deriving DecidableEq, Repr

/-- A `mip.Var`: `Index()`, `LowerBound()`, `UpperBound()`, `IsBool()`,
`IsInt()`. -/
structure Var (F : Type) where
  index : Nat
  lowerBound : F
  upperBound : F
  isBool : Bool
  isInt : Bool
  deriving DecidableEq, Repr

/-- A `mip.Term`: `Var()` and `Coefficient()`. -/
structure Term (F : Type) where
  var : Var F
  coefficient : F
  deriving DecidableEq, Repr

/-- A `mip.QuadraticTerm`: `Var1()`, `Var2()` and `Coefficient()`. -/
structure QuadraticTerm (F : Type) where
  var1 : Var F
  var2 : Var F
  coefficient : F
  deriving DecidableEq, Repr

/-- A `mip.Constraint`: `Terms()`, `Sense()` and `RightHandSide()`. -/
structure Constraint (F : Type) where
  terms : List (Term F)
  sense : Sense
  rightHandSide : F
  deriving DecidableEq, Repr

/-- A `mip.Objective`: `Terms()`, `QuadraticTerms()`, `IsMaximize()`. -/
structure Objective (F : Type) where
  terms : List (Term F)
  quadraticTerms : List (QuadraticTerm F)
  isMaximize : Bool
  deriving DecidableEq, Repr

/-- A `mip.Model`: `Vars()`, `Constraints()` and `Objective()`. -/
structure Model (F : Type) where
  vars : List (Var F)
  constraints : List (Constraint F)
  objective : Objective F
  deriving DecidableEq, Repr

/-- Constants of the HiGHS C header `interfaces/highs_c_api.h`, which is not
among the sources: they are taken as parameters. -/
structure HighsConstants where
  kHighsVarTypeContinuous : Int
  kHighsVarTypeInteger : Int
  kHighsObjSenseMinimize : Int
  kHighsObjSenseMaximize : Int
  deriving DecidableEq, Repr

/-! ## The assembled input -/

/-- The struct `highsInput`. `start` is the time stamp handed to
`newHighsInput`. -/
structure highsInput (F : Type) where
  start : Nat
  rowUpperBound : List F
  rowLowerBound : List F
  columnCosts : List F
  columnLowerBound : List F
  columnUpperBound : List F
  rowConstraintMatrixIndices : List Nat
  rowConstraintMatrixBegins : List Nat
  rowConstraintMatrixValues : List F
  hessianMatrixIndices : List Nat
  hessianMatrixBegins : List Nat
  hessianMatrixValues : List F
  columnIntegrality : List Int
  numNonZeros : Nat
  numQuadraticNonZeros : Nat
  numColumns : Nat
  numRows : Nat
  sense : Int
  isIntegerProblem : Bool
  isQuadraticProblem : Bool
  deriving DecidableEq, Repr

/-- The value of `new(highsInput)`: every field is its zero value. -/
def highsInput.new (F : Type) : highsInput F :=
  { start := 0, rowUpperBound := [], rowLowerBound := [], columnCosts := [],
    columnLowerBound := [], columnUpperBound := [],
    rowConstraintMatrixIndices := [], rowConstraintMatrixBegins := [],
    rowConstraintMatrixValues := [], hessianMatrixIndices := [],
    hessianMatrixBegins := [], hessianMatrixValues := [],
    columnIntegrality := [], numNonZeros := 0, numQuadraticNonZeros := 0,
    numColumns := 0, numRows := 0, sense := 0, isIntegerProblem := false,
    isQuadraticProblem := false }

/-! ## Slices and maps -/

/-- The store `a[i] = x` on a slice: `none` is the index-out-of-range panic. -/
def setIdx {α : Type} (a : List α) (i : Nat) (x : α) : Option (List α) :=
  if i < a.length then some (a.set i x) else none

/-- A Go `map[int]V`: an association list, one entry per key. -/
abbrev GoMap (V : Type) := List (Nat × V)

/-- The lookup `m[k]` with its `ok` flag. -/
def GoMap.get? {V : Type} : GoMap V → Nat → Option V
  | [], _ => none
  | (k', v) :: rest, k => if k' = k then some v else GoMap.get? rest k

/-- The store `m[k] = v`: replaces the entry of `k`, or adds one. -/
def GoMap.put {V : Type} : GoMap V → Nat → V → GoMap V
  | [], k, v => [(k, v)]
  | (k', v') :: rest, k, v =>
    if k' = k then (k, v) :: rest else (k', v') :: GoMap.put rest k v

/-! ## `mapVarTypeToIntegrality` and `prepareColumns` -/

section Builders

variable {F : Type}

/-- The function `mapVarTypeToIntegrality`. -/
def mapVarTypeToIntegrality (K : HighsConstants) (v : Var F) : Int :=
  if v.isBool || v.isInt then K.kHighsVarTypeInteger
  else K.kHighsVarTypeContinuous

/-- Body of the loop over `solver.model.Vars()` in `prepareColumns`. -/
def prepareColumnsVar [Zero F] (K : HighsConstants) (input : highsInput F)
    (v : Var F) : Option (highsInput F) := do
  let i := v.index
  let costs ← setIdx input.columnCosts i 0
  let lower ← setIdx input.columnLowerBound i v.lowerBound
  let upper ← setIdx input.columnUpperBound i v.upperBound
  let t := mapVarTypeToIntegrality K v
  let integrality ← setIdx input.columnIntegrality i t
  let input := { input with
    columnCosts := costs, columnLowerBound := lower,
    columnUpperBound := upper, columnIntegrality := integrality }
  if t = K.kHighsVarTypeInteger then
    pure { input with isIntegerProblem := true }
  else
    pure input

/-- Body of the loop over `solver.model.Objective().Terms()` in
`prepareColumns`. -/
def prepareColumnsTerm (input : highsInput F) (term : Term F) :
    Option (highsInput F) := do
  let costs ← setIdx input.columnCosts term.var.index term.coefficient
  pure { input with columnCosts := costs }

/-- The function `prepareColumns`. It reads `input.numColumns`, which
`newHighsInput` has set. -/
def prepareColumns [Zero F] (K : HighsConstants) (input : highsInput F)
    (model : Model F) (constraintsWithTerms : List (Constraint F))
    (_infinity : F) : Option (highsInput F) := do
  let input := { input with numNonZeros := 0 }
  let input := constraintsWithTerms.foldl
    (fun input c => { input with numNonZeros := input.numNonZeros + c.terms.length })
    input
  let input := { input with
    columnCosts := List.replicate input.numColumns 0,
    columnLowerBound := List.replicate input.numColumns 0,
    columnUpperBound := List.replicate input.numColumns 0,
    columnIntegrality := List.replicate input.numColumns 0 }
  let input := { input with isIntegerProblem := false }
  let input ← model.vars.foldlM (prepareColumnsVar K) input
  model.objective.terms.foldlM prepareColumnsTerm input

/-! ## `prepareConstraintMatrix` -/

/-- The inner loop of `prepareConstraintMatrix` over `c.Terms()`: the state is
the input and the cursor `rowConstraintMatrixBegin`. -/
def prepareConstraintMatrixTerms :
    highsInput F → Nat → List (Term F) → Option (highsInput F × Nat)
  | input, rowConstraintMatrixBegin, [] => some (input, rowConstraintMatrixBegin)
  | input, rowConstraintMatrixBegin, t :: ts => do
    let i := t.var.index
    let indices ← setIdx input.rowConstraintMatrixIndices rowConstraintMatrixBegin i
    let c := t.coefficient
    let values ← setIdx input.rowConstraintMatrixValues rowConstraintMatrixBegin c
    prepareConstraintMatrixTerms
      { input with rowConstraintMatrixIndices := indices,
                   rowConstraintMatrixValues := values }
      (rowConstraintMatrixBegin + 1) ts

/-- The `switch c.Sense()` of `prepareConstraintMatrix`: the stores into
`rowLowerBound[i]` and `rowUpperBound[i]`. -/
def prepareConstraintMatrixBounds [Neg F] (input : highsInput F) (i : Nat)
    (c : Constraint F) (infinity : F) : Option (highsInput F) :=
  let rhs := c.rightHandSide
  match c.sense with
  | Sense.LessThanOrEqual => do
    let lower ← setIdx input.rowLowerBound i (-infinity)
    let upper ← setIdx input.rowUpperBound i rhs
    pure { input with rowLowerBound := lower, rowUpperBound := upper }
  | Sense.Equal => do
    let lower ← setIdx input.rowLowerBound i rhs
    let upper ← setIdx input.rowUpperBound i rhs
    pure { input with rowLowerBound := lower, rowUpperBound := upper }
  | Sense.GreaterThanOrEqual => do
    let lower ← setIdx input.rowLowerBound i rhs
    let upper ← setIdx input.rowUpperBound i infinity
    pure { input with rowLowerBound := lower, rowUpperBound := upper }

/-- The outer loop `for i, c := range constraintsWithTerms` of
`prepareConstraintMatrix`, from row `i` on. -/
def prepareConstraintMatrixRows [Neg F] (infinity : F) :
    highsInput F → Nat → Nat → List (Constraint F) → Option (highsInput F × Nat)
  | input, rowConstraintMatrixBegin, _, [] => some (input, rowConstraintMatrixBegin)
  | input, rowConstraintMatrixBegin, i, c :: cs => do
    let begins ← setIdx input.rowConstraintMatrixBegins i rowConstraintMatrixBegin
    let input := { input with rowConstraintMatrixBegins := begins }
    let input ← prepareConstraintMatrixBounds input i c infinity
    let (input, rowConstraintMatrixBegin) ←
      prepareConstraintMatrixTerms input rowConstraintMatrixBegin c.terms
    prepareConstraintMatrixRows infinity input rowConstraintMatrixBegin (i + 1) cs

/-- The function `prepareConstraintMatrix`. It reads `input.numRows` and
`input.numNonZeros`. -/
def prepareConstraintMatrix [Zero F] [Neg F] (input : highsInput F)
    (constraintsWithTerms : List (Constraint F)) (infinity : F) :
    Option (highsInput F) := do
  let input := { input with
    rowConstraintMatrixBegins := List.replicate input.numRows 0,
    rowLowerBound := List.replicate input.numRows 0,
    rowUpperBound := List.replicate input.numRows 0 }
  let input := { input with
    rowConstraintMatrixIndices := List.replicate input.numNonZeros 0,
    rowConstraintMatrixValues := List.replicate input.numNonZeros 0 }
  let (input, _) ← prepareConstraintMatrixRows infinity input 0 0 constraintsWithTerms
  pure input

/-! ## `prepareHessian` -/

/-- One pass of the grouping loop of `prepareHessian`: makes the inner map of
`v.Var1().Index()` when it is absent and stores `v` under
`v.Var2().Index()`. -/
def groupQuadraticTerm (qMat : GoMap (GoMap (QuadraticTerm F)))
    (v : QuadraticTerm F) : GoMap (GoMap (QuadraticTerm F)) :=
  let qMat :=
    match qMat.get? v.var1.index with
    | some _ => qMat
    | none => qMat.put v.var1.index []
  let row := (qMat.get? v.var1.index).getD []
  qMat.put v.var1.index (row.put v.var2.index v)

/-- The map `qMat` of `prepareHessian` after the grouping loop. -/
def groupQuadraticTerms (qTerms : List (QuadraticTerm F)) :
    GoMap (GoMap (QuadraticTerm F)) :=
  qTerms.foldl groupQuadraticTerm []

/-- The call `sort.SliceStable(terms, less)` with
`less(a, b) = a.Var2().Index() < b.Var2().Index()`. -/
def sortSliceStable (terms : List (QuadraticTerm F)) : List (QuadraticTerm F) :=
  terms.insertionSort (fun a b => a.var2.index ≤ b.var2.index)

/-- Body of the loop `for _, v := range terms` of `prepareHessian`. -/
def prepareHessianTerm [Mul F] [OfNat F 2] (input : highsInput F)
    (v : QuadraticTerm F) : highsInput F :=
  let input := { input with
    hessianMatrixIndices := input.hessianMatrixIndices ++ [v.var2.index] }
  let coef := v.coefficient
  let coef := if v.var1.index = v.var2.index then coef * 2 else coef
  { input with hessianMatrixValues := input.hessianMatrixValues ++ [coef] }

/-- Body of the loop `for i := 0; i < input.numColumns; i++` of
`prepareHessian`; the state is the input and the counter `nonZeros`. `ord` is
the order in which `range row` visits the entries of the inner map. -/
def prepareHessianColumn [Mul F] [OfNat F 2]
    (ord : GoMap (QuadraticTerm F) → GoMap (QuadraticTerm F))
    (qMat : GoMap (GoMap (QuadraticTerm F)))
    (state : highsInput F × Nat) (i : Nat) : highsInput F × Nat :=
  let (input, nonZeros) := state
  let input := { input with
    hessianMatrixBegins := input.hessianMatrixBegins ++ [nonZeros] }
  match qMat.get? i with
  | none => (input, nonZeros)
  | some row =>
    let terms := (ord row).map Prod.snd
    let terms := sortSliceStable terms
    let input := terms.foldl prepareHessianTerm input
    (input, nonZeros + terms.length)

/-- The function `prepareHessian`. It reads `input.numColumns`. -/
def prepareHessian [Mul F] [OfNat F 2]
    (ord : GoMap (QuadraticTerm F) → GoMap (QuadraticTerm F))
    (input : highsInput F) (model : Model F) : highsInput F :=
  let qTerms := model.objective.quadraticTerms
  let qMat := groupQuadraticTerms qTerms
  let input := { input with numQuadraticNonZeros := qTerms.length }
  let input := { input with
    hessianMatrixBegins := [], hessianMatrixIndices := [],
    hessianMatrixValues := [] }
  let (input, _) :=
    (List.range input.numColumns).foldl (prepareHessianColumn ord qMat) (input, 0)
  { input with
    hessianMatrixBegins := input.hessianMatrixBegins ++ [input.numQuadraticNonZeros] }

/-! ## `newHighsInput` -/

/-- The constraints that `newHighsInput` keeps: those with at least one
term. -/
def constraintsWithTerms (allConstraints : List (Constraint F)) :
    List (Constraint F) :=
  allConstraints.filter (fun c => decide (c.terms.length > 0))

/-- The method `newHighsInput`. `infinity` is the value returned by
`Highs_getInfinity`. -/
def newHighsInput [Zero F] [Neg F] [Mul F] [OfNat F 2] (K : HighsConstants)
    (ord : GoMap (QuadraticTerm F) → GoMap (QuadraticTerm F))
    (model : Model F) (infinity : F) (start : Nat) : Option (highsInput F) := do
  let input := highsInput.new F
  let input := { input with start := start }
  let input := { input with numColumns := model.vars.length }
  let cwt := constraintsWithTerms model.constraints
  let input := { input with numRows := cwt.length }
  let input ← prepareColumns K input model cwt infinity
  let input ← prepareConstraintMatrix input cwt infinity
  let input := prepareHessian ord input model
  let input := { input with isQuadraticProblem := decide (input.numQuadraticNonZeros > 0) }
  let input := { input with sense := K.kHighsObjSenseMinimize }
  if model.objective.isMaximize then
    pure { input with sense := K.kHighsObjSenseMaximize }
  else
    pure input

/-! ## The solution: `highsSolution` and its methods -/

/-- The status code `optimal`. -/
def optimal : Int := 7

/-- The status code `infeasible`. -/
def infeasible : Int := 8

/-- The status code `unboundedOrInfeasible`. -/
def unboundedOrInfeasible : Int := 9

/-- The status code `unbounded`. -/
def unbounded : Int := 10

/-- The status code `timeLimit`. -/
def timeLimit : Int := 13

/-- The status code `statusUnknown`. -/
def statusUnknown : Int := 15

/-- The function `hasValues`. -/
def hasValues (solutionStatus : Int) : Bool :=
  decide (solutionStatus = optimal)

/-- The struct `highsSolution`; `solutionStatus` is a Go `int`, `runtime` a
`time.Duration`. -/
structure highsSolution (F : Type) where
  values : List F
  solutionStatus : Int
  objectiveValue : F
  runtime : Int
  deriving DecidableEq, Repr

/-- The composite literal `&highsSolution{solutionStatus: s}`: the other
fields are their zero values. -/
def highsSolution.ofStatus [Zero F] (s : Int) : highsSolution F :=
  { values := [], solutionStatus := s, objectiveValue := 0, runtime := 0 }

/-- The method `IsOptimal`. -/
def highsSolution.IsOptimal (l : highsSolution F) : Bool :=
  decide (l.solutionStatus = optimal)

/-- The method `HasValues`. -/
def highsSolution.HasValues (l : highsSolution F) : Bool :=
  hasValues l.solutionStatus

/-- The method `IsTimeOut`. -/
def highsSolution.IsTimeOut (l : highsSolution F) : Bool :=
  decide (l.solutionStatus = timeLimit)

/-- The method `IsUnbounded`. -/
def highsSolution.IsUnbounded (l : highsSolution F) : Bool :=
  decide (l.solutionStatus = unbounded) || decide (l.solutionStatus = unboundedOrInfeasible)

/-- The method `IsInfeasible`. -/
def highsSolution.IsInfeasible (l : highsSolution F) : Bool :=
  decide (l.solutionStatus = infeasible) || decide (l.solutionStatus = unboundedOrInfeasible)

/-- The index expression `a[i]` with a Go `int` index: `none` is the
index-out-of-range panic. -/
def indexSlice {α : Type} (a : List α) (i : Int) : Option α :=
  if i < 0 then none else a[i.toNat]?

/-- The method `Value`. It reads only `variable.Index()`, a Go `int`, which is
the argument `variableIndex`; `maxFloat64` is `math.MaxFloat64`; `none` is a
panic. -/
def highsSolution.Value (maxFloat64 : F) (l : highsSolution F) (variableIndex : Int) :
    Option F :=
  if variableIndex ≥ (l.values.length : Int) then some maxFloat64
  else indexSlice l.values variableIndex

/-! ## The engine, the options and the errors -/

/-- Status constants of the HiGHS C header `interfaces/highs_c_api.h`, which is
not among the sources: they are taken as parameters. -/
structure HighsStatus where
  kHighsStatusOk : Int
  kHighsStatusWarning : Int
  deriving DecidableEq, Repr

/-- Functions of the Go and `mip` libraries that the solver calls and that are
not among the sources, taken as parameters: `Objective().IsQuadratic()` and
`time.Duration.Seconds()`. -/
structure Library (F : Type) where
  isQuadratic : Objective F → Bool
  durationSeconds : Int → F

/-- The verbosity levels `mip.Off`, `mip.Low`, `mip.Medium`, `mip.High`. -/
inductive Verbosity where
  | Off
  | Low
  | Medium
  | High
  deriving DecidableEq, Repr

/-- The typed control options that `options.Control.ToTyped()` returns: four
lists of named values. -/
structure TypedControlOptions (F : Type) where
  bools : List (String × Bool)
  floats : List (String × F)
  ints : List (String × Int)
  strings : List (String × String)
  deriving DecidableEq, Repr

/-- The part of `mip.SolveOptions` that the solver reads: `Verbosity`,
`Duration` (a `time.Duration`, an integer), `MIP.Gap.Absolute`,
`MIP.Gap.Relative`, and the result of `Control.ToTyped()`, which is the typed
options or an error message. -/
structure SolveOptions (F : Type) where
  verbosity : Verbosity
  duration : Int
  mipGapAbsolute : F
  mipGapRelative : F
  controlToTyped : Except String (TypedControlOptions F)

/-- A pointer argument of an engine call: null, or the address of the first
element of a non-empty buffer. -/
inductive Ptr (α : Type) where
  | null
  | first (buffer : List α)
  deriving DecidableEq, Repr

/-- The expression `&a[0]`: `none` is the index-out-of-range panic on an empty
slice. -/
def addrOfFirst {α : Type} (a : List α) : Option (Ptr α) :=
  match a with
  | [] => none
  | _ :: _ => some (Ptr.first a)

/-- The arguments of `Highs_passModel` that vary: the counts, the objective
sense and the twelve array pointers. The matrix and Hessian format selectors
and the objective offset `0.0` are constants of the call. -/
structure PassModelArgs (F : Type) where
  numColumns : Nat
  numRows : Nat
  numNonZeros : Nat
  numQuadraticNonZeros : Nat
  sense : Int
  columnCosts : Ptr F
  columnLowerBound : Ptr F
  columnUpperBound : Ptr F
  rowLowerBound : Ptr F
  rowUpperBound : Ptr F
  rowConstraintMatrixBegins : Ptr Nat
  rowConstraintMatrixIndices : Ptr Nat
  rowConstraintMatrixValues : Ptr F
  hessianMatrixBegins : Ptr Nat
  hessianMatrixIndices : Ptr Nat
  hessianMatrixValues : Ptr F
  columnIntegrality : Ptr Int
  deriving DecidableEq, Repr

/-- The calls of the HiGHS C API that the solver makes, with their arguments
other than the handle. `getSolution` records whether the row buffers are
passed. -/
inductive EngineCall (F : Type) where
  | create
  | destroy
  | getInfinity
  | setBoolOptionValue (name : String) (value : Int)
  | setIntOptionValue (name : String) (value : Int)
  | setDoubleOptionValue (name : String) (value : F)
  | setStringOptionValue (name : String) (value : String)
  | passModel (args : PassModelArgs F)
  | run
  | getModelStatus
  | getSolution (rows : Bool)
  | getObjectiveValue
  deriving DecidableEq, Repr

/-- Whether a call is one of the four option setters. -/
def EngineCall.isSetter : EngineCall F → Bool
  | EngineCall.setBoolOptionValue _ _ => true
  | EngineCall.setIntOptionValue _ _ => true
  | EngineCall.setDoubleOptionValue _ _ => true
  | EngineCall.setStringOptionValue _ _ => true
  | _ => false

/-- The behaviour of the engine. Every answer may depend on the calls made so
far, the answered call being the last of the list: whether `Highs_create`
returns a handle, the value of `Highs_getInfinity`, the status returned by a
setter, by `Highs_passModel`, `Highs_run` or `Highs_getSolution`, the model
status, the column values that `Highs_getSolution` writes, and the objective
value. -/
structure Engine (F : Type) where
  createOk : Bool
  infinity : F
  status : List (EngineCall F) → Int
  modelStatus : List (EngineCall F) → Int
  columnValue : List (EngineCall F) → Nat → F
  objectiveValue : List (EngineCall F) → F

/-- The errors that the solver returns. The first two are the `errors.New`
values of `setOutputFlag`, the next four the `fmt.Errorf` values of the typed
setters with the option name and value, `controlToTyped` the error of
`Control.ToTyped()`, `handlingOptions` the wrapping `fmt.Errorf` of `Solve`,
and the last three the package variables. -/
inductive SolveError (F : Type) where
  | failedVerbosityLevel
  | failedReportLevel
  | failedBoolOption (name : String) (value : Bool)
  | failedDoubleOption (name : String) (value : F)
  | failedIntOption (name : String) (value : Int)
  | failedStringOption (name : String) (value : String)
  | controlToTyped (message : String)
  | handlingOptions (cause : SolveError F)
  | errPassing
  | errGetSolution
  | errMiqpNotSupported
  deriving DecidableEq, Repr

/-- What a call of the solver does: it panics, or it returns a solution
pointer (possibly nil) and an error (possibly nil). -/
inductive Outcome (F : Type) where
  | panic
  | returned (solution : Option (highsSolution F)) (err : Option (SolveError F))
  deriving DecidableEq, Repr

/-! ## `handleOptions` and the option setters -/

/-- The option name `output_flag`. -/
def optionOutputFlag : String := "output_flag"

/-- The option name `log_dev_level`. -/
def optionLogDevLevel : String := "log_dev_level"

/-- The option name `time_limit`. -/
def optionTimeLimit : String := "time_limit"

/-- The option name `mip_abs_gap`. -/
def optionMipAbsGap : String := "mip_abs_gap"

/-- The option name `mip_rel_gap`. -/
def optionMipRelGap : String := "mip_rel_gap"

/-- The result of a step that can fail: the error, if any, and the calls made
so far. -/
abbrev Step (F : Type) := Option (SolveError F) × List (EngineCall F)

/-- Sequencing with `if err != nil { return err }`: the next step runs only
when the first returned no error. -/
def Step.andThen (r : Step F) (next : List (EngineCall F) → Step F) : Step F :=
  match r with
  | (some err, log) => (some err, log)
  | (none, log) => next log

/-- The function `setOutputFlag`. -/
def setOutputFlag (S : HighsStatus) (E : Engine F) (log : List (EngineCall F))
    (options : SolveOptions F) : Step F :=
  let verbosityLevel : Int := if options.verbosity = Verbosity.Off then 0 else 1
  let log := log ++ [EngineCall.setBoolOptionValue optionOutputFlag verbosityLevel]
  let status := E.status log
  if status ≠ S.kHighsStatusOk then
    (some SolveError.failedVerbosityLevel, log)
  else
    let reportLevel : Int :=
      match options.verbosity with
      | Verbosity.Low => 0
      | Verbosity.Medium => 1
      | Verbosity.High => 2
      | Verbosity.Off => 0
    let log := log ++ [EngineCall.setIntOptionValue optionLogDevLevel reportLevel]
    let status := E.status log
    if status ≠ S.kHighsStatusOk then
      (some SolveError.failedReportLevel, log)
    else
      (none, log)

/-- The function `setBoolOption`. -/
def setBoolOption (S : HighsStatus) (E : Engine F) (log : List (EngineCall F))
    (name : String) (value : Bool) : Step F :=
  let cBool : Int := if value then 1 else 0
  let log := log ++ [EngineCall.setBoolOptionValue name cBool]
  if E.status log ≠ S.kHighsStatusOk then
    (some (SolveError.failedBoolOption name value), log)
  else
    (none, log)

/-- The function `setDoubleOption`. -/
def setDoubleOption (S : HighsStatus) (E : Engine F) (log : List (EngineCall F))
    (name : String) (value : F) : Step F :=
  let log := log ++ [EngineCall.setDoubleOptionValue name value]
  if E.status log ≠ S.kHighsStatusOk then
    (some (SolveError.failedDoubleOption name value), log)
  else
    (none, log)

/-- The conversion `C.int(value)` of a Go `int`: the value is truncated to 32
bits and read as a signed integer. -/
def cInt (value : Int) : Int :=
  (value + 2147483648) % 4294967296 - 2147483648

/-- The function `setIntOption`. The engine receives `C.int(value)`; the error
message names the value as given. -/
def setIntOption (S : HighsStatus) (E : Engine F) (log : List (EngineCall F))
    (name : String) (value : Int) : Step F :=
  let log := log ++ [EngineCall.setIntOptionValue name (cInt value)]
  if E.status log ≠ S.kHighsStatusOk then
    (some (SolveError.failedIntOption name value), log)
  else
    (none, log)

/-- The function `setStringOption`. -/
def setStringOption (S : HighsStatus) (E : Engine F) (log : List (EngineCall F))
    (name : String) (value : String) : Step F :=
  let log := log ++ [EngineCall.setStringOptionValue name value]
  if E.status log ≠ S.kHighsStatusOk then
    (some (SolveError.failedStringOption name value), log)
  else
    (none, log)

/-- A loop `for _, option := range list` whose body returns on the first
error. -/
def forEachOption {α : Type} (set : List (EngineCall F) → α → Step F) :
    List (EngineCall F) → List α → Step F
  | log, [] => (none, log)
  | log, o :: rest => (set log o).andThen (fun log => forEachOption set log rest)

/-- The second half of `handleOptions`: `options.Control.ToTyped()` and the
four loops over the typed control options. -/
def handleControlOptions (S : HighsStatus) (E : Engine F) (log : List (EngineCall F))
    (options : SolveOptions F) : Step F :=
  match options.controlToTyped with
  | Except.error message => (some (SolveError.controlToTyped message), log)
  | Except.ok controlOptions =>
    (forEachOption (fun log o => setBoolOption S E log o.1 o.2) log
      controlOptions.bools).andThen fun log =>
    (forEachOption (fun log o => setDoubleOption S E log o.1 o.2) log
      controlOptions.floats).andThen fun log =>
    (forEachOption (fun log o => setIntOption S E log o.1 o.2) log
      controlOptions.ints).andThen fun log =>
    forEachOption (fun log o => setStringOption S E log o.1 o.2) log
      controlOptions.strings

/-- The function `handleOptions`. -/
def handleOptions (S : HighsStatus) (L : Library F) (E : Engine F)
    (log : List (EngineCall F)) (input : highsInput F) (options : SolveOptions F) :
    Step F :=
  (setOutputFlag S E log options).andThen fun log =>
  (setDoubleOption S E log optionTimeLimit (L.durationSeconds options.duration)).andThen
    fun log =>
  (if input.isIntegerProblem then
    (setDoubleOption S E log optionMipAbsGap options.mipGapAbsolute).andThen fun log =>
    setDoubleOption S E log optionMipRelGap options.mipGapRelative
   else (none, log)).andThen fun log =>
  handleControlOptions S E log options

/-! ## `solve` and `Solve` -/

/-- The pointer arguments that `solve` prepares for `Highs_passModel`: every
pointer starts null and is set to the first element of its array under the
guard of the source; `none` is the panic of `&a[0]` on an empty array. -/
def passModelArgs (input : highsInput F) : Option (PassModelArgs F) := do
  let rows ←
    if input.numRows > 0 then do
      let pRowLowerBound ← addrOfFirst input.rowLowerBound
      let pRowUpperBound ← addrOfFirst input.rowUpperBound
      let b ← addrOfFirst input.rowConstraintMatrixBegins
      let i ← addrOfFirst input.rowConstraintMatrixIndices
      let v ← addrOfFirst input.rowConstraintMatrixValues
      pure (pRowLowerBound, pRowUpperBound, b, i, v)
    else
      pure (Ptr.null, Ptr.null, Ptr.null, Ptr.null, Ptr.null)
  let hessian ←
    if input.isQuadraticProblem then do
      let b ← addrOfFirst input.hessianMatrixBegins
      let i ← addrOfFirst input.hessianMatrixIndices
      let v ← addrOfFirst input.hessianMatrixValues
      pure (b, i, v)
    else
      pure (Ptr.null, Ptr.null, Ptr.null)
  let columns ←
    if input.numColumns > 0 then do
      let pColumnCosts ← addrOfFirst input.columnCosts
      let pColumnLowerBound ← addrOfFirst input.columnLowerBound
      let pColumnUpperBound ← addrOfFirst input.columnUpperBound
      pure (pColumnCosts, pColumnLowerBound, pColumnUpperBound)
    else
      pure (Ptr.null, Ptr.null, Ptr.null)
  let pColumnIntegrality ←
    if input.isIntegerProblem then addrOfFirst input.columnIntegrality
    else pure Ptr.null
  pure
    { numColumns := input.numColumns, numRows := input.numRows,
      numNonZeros := input.numNonZeros,
      numQuadraticNonZeros := input.numQuadraticNonZeros, sense := input.sense,
      columnCosts := columns.1, columnLowerBound := columns.2.1,
      columnUpperBound := columns.2.2,
      rowLowerBound := rows.1, rowUpperBound := rows.2.1,
      rowConstraintMatrixBegins := rows.2.2.1,
      rowConstraintMatrixIndices := rows.2.2.2.1,
      rowConstraintMatrixValues := rows.2.2.2.2,
      hessianMatrixBegins := hessian.1, hessianMatrixIndices := hessian.2.1,
      hessianMatrixValues := hessian.2.2,
      columnIntegrality := pColumnIntegrality }

/-- The function `solve`. `finish` is the clock reading of
`time.Since(input.start)`. -/
def solve [Zero F] (S : HighsStatus) (E : Engine F) (log : List (EngineCall F))
    (input : highsInput F) (finish : Nat) : Outcome F × List (EngineCall F) :=
  match passModelArgs input with
  | none => (Outcome.panic, log)
  | some args =>
    let log := log ++ [EngineCall.passModel args]
    let status := E.status log
    if status ≠ S.kHighsStatusOk then
      (Outcome.returned (some (highsSolution.ofStatus statusUnknown))
        (some SolveError.errPassing), log)
    else
      let log := log ++ [EngineCall.run]
      let runStatus := E.status log
      if ¬ (runStatus = S.kHighsStatusOk ∨ runStatus = S.kHighsStatusWarning) then
        (Outcome.returned (some (highsSolution.ofStatus statusUnknown)) none, log)
      else
        let log := log ++ [EngineCall.getModelStatus]
        let modelStatus := E.modelStatus log
        let columnValues : List F := List.replicate input.numColumns 0
        let columnDuals : List F := List.replicate input.numColumns 0
        match addrOfFirst columnValues, addrOfFirst columnDuals with
        | some _, some _ =>
          let log := log ++ [EngineCall.getSolution (decide (input.numRows > 0))]
          let status := E.status log
          let columnValues := (List.range input.numColumns).map (E.columnValue log)
          if status ≠ S.kHighsStatusOk then
            (Outcome.returned (some (highsSolution.ofStatus statusUnknown))
              (some SolveError.errGetSolution), log)
          else
            let log := log ++ [EngineCall.getObjectiveValue]
            let objectiveValue := E.objectiveValue log
            (Outcome.returned
              (some { objectiveValue := objectiveValue,
                      runtime := (finish : Int) - (input.start : Int),
                      solutionStatus := modelStatus,
                      values := columnValues }) none, log)
        | _, _ => (Outcome.panic, log)

/-- The body of `Solve` after the handle is created and its release deferred:
`newHighsInput`, which first asks the engine for its infinity, then
`handleOptions`, the check for a mixed-integer quadratic program, and
`solve`. -/
def solveWithHandle [Zero F] [Neg F] [Mul F] [OfNat F 2] (K : HighsConstants)
    (S : HighsStatus) (L : Library F)
    (ord : GoMap (QuadraticTerm F) → GoMap (QuadraticTerm F)) (E : Engine F)
    (log : List (EngineCall F)) (model : Model F) (options : SolveOptions F)
    (start finish : Nat) : Outcome F × List (EngineCall F) :=
  let log := log ++ [EngineCall.getInfinity]
  match newHighsInput K ord model E.infinity start with
  | none => (Outcome.panic, log)
  | some input =>
    match handleOptions S L E log input options with
    | (some err, log) =>
      (Outcome.returned none (some (SolveError.handlingOptions err)), log)
    | (none, log) =>
      let isMiqp := L.isQuadratic model.objective && input.isIntegerProblem
      if isMiqp then
        (Outcome.returned none (some SolveError.errMiqpNotSupported), log)
      else
        solve S E log input finish

/-- The method `Solve`: the outcome and the engine calls made, in order.
`start` is the clock reading of `time.Now()`. The deferred `Highs_destroy`
runs at every exit after the handle is created. -/
def Solve [Zero F] [Neg F] [Mul F] [OfNat F 2] (K : HighsConstants)
    (S : HighsStatus) (L : Library F)
    (ord : GoMap (QuadraticTerm F) → GoMap (QuadraticTerm F)) (E : Engine F)
    (model : Model F) (options : SolveOptions F) (start finish : Nat) :
    Outcome F × List (EngineCall F) :=
  if model.vars.length = 0 then
    (Outcome.returned (some (highsSolution.ofStatus optimal)) none, [])
  else
    let log := [EngineCall.create]
    if E.createOk = false then
      (Outcome.returned (some (highsSolution.ofStatus statusUnknown)) none, log)
    else
      let result := solveWithHandle K S L ord E log model options start finish
      (result.1, result.2 ++ [EngineCall.destroy])

/-! ## Reference definitions used in the statements -/

/-- The slice `a` with the block starting at `cur` overwritten by `xs`. -/
def splice {α : Type} (a : List α) (cur : Nat) (xs : List α) : List α :=
  a.take cur ++ xs ++ a.drop (cur + xs.length)

/-- The slice `a` after the stores `a[w.1] = w.2` for `w` in `ws`, in order. -/
def scatter {α : Type} (a : List α) (ws : List (Nat × α)) : List α :=
  ws.foldl (fun a w => a.set w.1 w.2) a

/-- Begin offsets of consecutive blocks of the given lengths, the first block
starting at `cur`. -/
def beginOffsets (cur : Nat) : List Nat → List Nat
  | [] => []
  | n :: ns => cur :: beginOffsets (cur + n) ns

/-- Total number of terms of a list of constraints. -/
def termCount (cs : List (Constraint F)) : Nat :=
  (cs.map (fun c => c.terms.length)).sum

/-- Reference CSR begin offsets: the running count of terms, starting at `cur`. -/
def csrBegins (cur : Nat) (cs : List (Constraint F)) : List Nat :=
  beginOffsets cur (cs.map (fun c => c.terms.length))

/-- Reference flat index array: the variable indices of all terms, row after row. -/
def flatIndices (cs : List (Constraint F)) : List Nat :=
  cs.flatMap (fun c => c.terms.map (fun t => t.var.index))

/-- Reference flat value array: the coefficients of all terms, row after row. -/
def flatValues (cs : List (Constraint F)) : List F :=
  cs.flatMap (fun c => c.terms.map (fun t => t.coefficient))

/-- Reference row lower bound of a constraint: `-infinity` for `≤`, the right-hand
side otherwise. -/
def rowLowerOf [Neg F] (infinity : F) (c : Constraint F) : F :=
  match c.sense with
  | Sense.LessThanOrEqual => -infinity
  | Sense.Equal => c.rightHandSide
  | Sense.GreaterThanOrEqual => c.rightHandSide

/-- Reference row upper bound of a constraint: `infinity` for `≥`, the right-hand
side otherwise. -/
def rowUpperOf (infinity : F) (c : Constraint F) : F :=
  match c.sense with
  | Sense.LessThanOrEqual => c.rightHandSide
  | Sense.Equal => c.rightHandSide
  | Sense.GreaterThanOrEqual => infinity

/-- Whether some variable is mapped to the integer type. -/
def anyInteger (K : HighsConstants) (vars : List (Var F)) : Bool :=
  vars.any (fun v => decide (mapVarTypeToIntegrality K v = K.kHighsVarTypeInteger))

/-- The variable indices of the model are exactly `0 .. n-1`, `n` the number of
variables. -/
def DenseIndices (model : Model F) : Prop :=
  (model.vars.map (fun v => v.index)).Perm (List.range model.vars.length)

/-- The coefficient of the last term, in term order, that references variable
`i`; `0` when no term does. -/
def lastCoefficient [Zero F] (terms : List (Term F)) (i : Nat) : F :=
  match (terms.filter (fun t => decide (t.var.index = i))).getLast? with
  | some t => t.coefficient
  | none => 0

/-! ### The Hessian -/

/-- The entry of the nested map `qMat` for column `c` and row `r`. -/
def lookupPair (qMat : GoMap (GoMap (QuadraticTerm F))) (c r : Nat) :
    Option (QuadraticTerm F) :=
  (qMat.get? c).bind (fun row => row.get? r)

/-- The last term, in input order, whose ordered index pair
`(Var1 index, Var2 index)` is `(c, r)`. -/
def lastQuadraticTerm (qTerms : List (QuadraticTerm F)) (c r : Nat) :
    Option (QuadraticTerm F) :=
  (qTerms.filter (fun t => decide (t.var1.index = c ∧ t.var2.index = r))).getLast?

/-- The ordered index pair `(Var1 index, Var2 index)` of a quadratic term. -/
def indexPair (t : QuadraticTerm F) : Nat × Nat := (t.var1.index, t.var2.index)

/-- The stored value of a quadratic term: the coefficient, doubled on the
diagonal. -/
def hessianValue [Mul F] [OfNat F 2] (v : QuadraticTerm F) : F :=
  if v.var1.index = v.var2.index then v.coefficient * 2 else v.coefficient

/-- The terms that `prepareHessian` emits for column `i`, in emission order. -/
def columnTerms (ord : GoMap (QuadraticTerm F) → GoMap (QuadraticTerm F))
    (qMat : GoMap (GoMap (QuadraticTerm F))) (i : Nat) : List (QuadraticTerm F) :=
  match qMat.get? i with
  | none => []
  | some row => sortSliceStable ((ord row).map Prod.snd)

/-- The index pairs of all emitted terms, column after column. -/
def emittedPairs (ord : GoMap (QuadraticTerm F) → GoMap (QuadraticTerm F))
    (qTerms : List (QuadraticTerm F)) (n : Nat) : List (Nat × Nat) :=
  (List.range n).flatMap (fun c =>
    (columnTerms ord (groupQuadraticTerms qTerms) c).map indexPair)

/-- Column `c` as the Hessian arrays store it: the pairs (row index, value) at
the positions from `hessianMatrixBegins[c]` up to the next begin offset. -/
def hessianColumn (input : highsInput F) (c : Nat) : List (Nat × F) :=
  ((input.hessianMatrixIndices.zip input.hessianMatrixValues).drop
      (input.hessianMatrixBegins.getD c 0)).take
    (input.hessianMatrixBegins.getD (c + 1) 0 - input.hessianMatrixBegins.getD c 0)

/-- The row indices of column `c` as `hessianMatrixIndices` stores them: the
entries from `hessianMatrixBegins[c]` up to the next begin offset. -/
def hessianColumnRows (input : highsInput F) (c : Nat) : List Nat :=
  (input.hessianMatrixIndices.drop (input.hessianMatrixBegins.getD c 0)).take
    (input.hessianMatrixBegins.getD (c + 1) 0 - input.hessianMatrixBegins.getD c 0)

/-! ### The solver -/

/-- The fifth condition of the status partition: no predicate is set and the
solution has no values. -/
def highsSolution.unknownNoValues (l : highsSolution F) : Bool :=
  !l.IsOptimal && !l.IsInfeasible && !l.IsUnbounded && !l.IsTimeOut && !l.HasValues

/-- The five conditions that characterise a solution. -/
def highsSolution.conditions (l : highsSolution F) : List Bool :=
  [l.IsOptimal, l.IsInfeasible, l.IsUnbounded, l.IsTimeOut, l.unknownNoValues]

/-- The log `after` continues the log `before` with option setter calls
only. -/
def SetterCalls (before after : List (EngineCall F)) : Prop :=
  ∃ added, after = before ++ added ∧ ∀ c ∈ added, c.isSetter = true

/-- The input with its time stamp replaced. -/
def withStart (start : Nat) (input : highsInput F) : highsInput F :=
  { input with start := start }

/-! ## Example data -/

/-- Example constants: the values of the HiGHS header. -/
def exConstants : HighsConstants :=
  { kHighsVarTypeContinuous := 0, kHighsVarTypeInteger := 1,
    kHighsObjSenseMinimize := 1, kHighsObjSenseMaximize := -1 }

/-- Example variable 0: a boolean. -/
def exX : Var Int :=
  { index := 0, lowerBound := 0, upperBound := 1, isBool := true, isInt := false }

/-- Example variable 1: a continuous variable on `[-5, 7]`. -/
def exY : Var Int :=
  { index := 1, lowerBound := -5, upperBound := 7, isBool := false, isInt := false }

/-- Example constraints: `0 x + 4 y ≤ 9` and `2 y ≥ 1`. -/
def exConstraints : List (Constraint Int) :=
  [ { terms := [⟨exX, 0⟩, ⟨exY, 4⟩], sense := Sense.LessThanOrEqual, rightHandSide := 9 },
    { terms := [⟨exY, 2⟩], sense := Sense.GreaterThanOrEqual, rightHandSide := 1 } ]

/-- Example model: the two variables, a constraint without terms followed by
the example constraints, and an objective that names `y` twice. -/
def exModel : Model Int :=
  { vars := [exX, exY],
    constraints :=
      { terms := [], sense := Sense.Equal, rightHandSide := 3 } :: exConstraints,
    objective :=
      { terms := [⟨exY, 3⟩, ⟨exY, 8⟩],
        quadraticTerms := [⟨exY, exY, 5⟩, ⟨exX, exY, 2⟩, ⟨exX, exX, 1⟩],
        isMaximize := true } }

/-- Example input, as `newHighsInput` hands it to the builders for the example
model. -/
def exInput : highsInput Int :=
  { highsInput.new Int with numColumns := 2, numRows := 2, numNonZeros := 3 }

/-- Example input for a single constraint with a single term. -/
def exInputOneRow : highsInput Int :=
  { highsInput.new Int with numColumns := 2, numRows := 1, numNonZeros := 1 }

/-- Example model with a repeated quadratic term: one variable `x` and the
terms `1 x x` and `2 x x`. -/
def exDupModel : Model Int :=
  { vars := [exX], constraints := [],
    objective :=
      { terms := [], quadraticTerms := [⟨exX, exX, 1⟩, ⟨exX, exX, 2⟩], isMaximize := false } }

/-- Example input for the model with one variable. -/
def exInputOneColumn : highsInput Int :=
  { highsInput.new Int with numColumns := 1 }

/-- Example status constants: the values of the HiGHS header. -/
def exStatus : HighsStatus := { kHighsStatusOk := 0, kHighsStatusWarning := 1 }

/-- Example library functions: an objective is quadratic when it has a
quadratic term; a duration in nanoseconds is converted to whole seconds. -/
def exLibrary : Library Int :=
  { isQuadratic := fun o => decide (o.quadraticTerms.length > 0),
    durationSeconds := fun d => d / 1000000000 }

/-- Example options: verbosity off, ten seconds, no control options. -/
def exOptions : SolveOptions Int :=
  { verbosity := Verbosity.Off, duration := 10000000000, mipGapAbsolute := 3,
    mipGapRelative := 4,
    controlToTyped := Except.ok { bools := [], floats := [], ints := [], strings := [] } }

/-- Example engine: it creates a handle, accepts every call and reports the
status `optimal`. -/
def exEngine : Engine Int :=
  { createOk := true, infinity := 1000, status := fun _ => 0, modelStatus := fun _ => 7,
    columnValue := fun _ i => 10 + i, objectiveValue := fun _ => 42 }

/-- Example engine that cannot create a handle. -/
def exEngineNoHandle : Engine Int :=
  { exEngine with createOk := false }

/-- Example integer variable, as in `TestHighsMIQP`. -/
def exIntVar : Var Int :=
  { index := 0, lowerBound := 4, upperBound := 9223372036854775807, isBool := false,
    isInt := true }

/-- Example mixed-integer quadratic model, as in `TestHighsMIQP`: one integer
variable `x` and the objective `x * x`. -/
def exMiqpModel : Model Int :=
  { vars := [exIntVar], constraints := [],
    objective :=
      { terms := [], quadraticTerms := [⟨exIntVar, exIntVar, 1⟩], isMaximize := false } }

/-- Example model without variables. -/
def exEmptyModel : Model Int :=
  { vars := [], constraints := [],
    objective := { terms := [], quadraticTerms := [], isMaximize := false } }

/-- Example model with one continuous variable `y` and the objective `3 y`. -/
def exLpModel : Model Int :=
  { vars := [{ exY with index := 0 }], constraints := [],
    objective :=
      { terms := [⟨{ exY with index := 0 }, 3⟩], quadraticTerms := [], isMaximize := false } }

/-! ## The application order of the options, the guarded pointers and further
example data -/

/-- The setter calls of `setOutputFlag`, of the time limit and, for an integer
problem, of the two gaps, in the order of the source, each paired with the
error that `handleOptions` returns when the engine rejects it. -/
def plannedSetters (L : Library F) (input : highsInput F) (options : SolveOptions F) :
    List (EngineCall F × SolveError F) :=
  [(EngineCall.setBoolOptionValue optionOutputFlag
      (if options.verbosity = Verbosity.Off then 0 else 1),
    SolveError.failedVerbosityLevel),
   (EngineCall.setIntOptionValue optionLogDevLevel
      (match options.verbosity with
       | Verbosity.Low => 0
       | Verbosity.Medium => 1
       | Verbosity.High => 2
       | Verbosity.Off => 0),
    SolveError.failedReportLevel),
   (EngineCall.setDoubleOptionValue optionTimeLimit (L.durationSeconds options.duration),
    SolveError.failedDoubleOption optionTimeLimit (L.durationSeconds options.duration))] ++
  (if input.isIntegerProblem then
    [(EngineCall.setDoubleOptionValue optionMipAbsGap options.mipGapAbsolute,
      SolveError.failedDoubleOption optionMipAbsGap options.mipGapAbsolute),
     (EngineCall.setDoubleOptionValue optionMipRelGap options.mipGapRelative,
      SolveError.failedDoubleOption optionMipRelGap options.mipGapRelative)]
   else [])

/-- The setter calls of the typed control options: the bool, float, int and
string options, each list in its own order, each call paired with the error
returned when the engine rejects it. An int option reaches the engine as
`C.int(value)`. -/
def plannedControlSetters (c : TypedControlOptions F) :
    List (EngineCall F × SolveError F) :=
  c.bools.map (fun o =>
    (EngineCall.setBoolOptionValue o.1 (if o.2 then 1 else 0),
     SolveError.failedBoolOption o.1 o.2)) ++
  c.floats.map (fun o =>
    (EngineCall.setDoubleOptionValue o.1 o.2, SolveError.failedDoubleOption o.1 o.2)) ++
  c.ints.map (fun o =>
    (EngineCall.setIntOptionValue o.1 (cInt o.2), SolveError.failedIntOption o.1 o.2)) ++
  c.strings.map (fun o =>
    (EngineCall.setStringOptionValue o.1 o.2, SolveError.failedStringOption o.1 o.2))

/-- The application order of `handleOptions`: `output_flag`, `log_dev_level`,
`time_limit`, the two gaps of an integer problem, then the control options;
none of the control options when `ToTyped` fails. -/
def plannedCalls (L : Library F) (input : highsInput F) (options : SolveOptions F) :
    List (EngineCall F × SolveError F) :=
  plannedSetters L input options ++
  match options.controlToTyped with
  | Except.error _ => []
  | Except.ok c => plannedControlSetters c

/-- Making the calls of a list one after the other, stopping at the first one
that the engine rejects, with the error paired with it. -/
def applyUntilRejected (S : HighsStatus) (E : Engine F) :
    List (EngineCall F) → List (EngineCall F × SolveError F) → Step F
  | log, [] => (none, log)
  | log, (c, err) :: rest =>
    if E.status (log ++ [c]) ≠ S.kHighsStatusOk then (some err, log ++ [c])
    else applyUntilRejected S E (log ++ [c]) rest

/-- The arguments that `solve` passes to `Highs_passModel` when none of its
first-element accesses panics: under its guard a pointer is the address of the
first element of its array, and it is null otherwise. -/
def guardedArgs (input : highsInput F) : PassModelArgs F :=
  { numColumns := input.numColumns, numRows := input.numRows,
    numNonZeros := input.numNonZeros,
    numQuadraticNonZeros := input.numQuadraticNonZeros, sense := input.sense,
    columnCosts :=
      if input.numColumns > 0 then Ptr.first input.columnCosts else Ptr.null,
    columnLowerBound :=
      if input.numColumns > 0 then Ptr.first input.columnLowerBound else Ptr.null,
    columnUpperBound :=
      if input.numColumns > 0 then Ptr.first input.columnUpperBound else Ptr.null,
    rowLowerBound :=
      if input.numRows > 0 then Ptr.first input.rowLowerBound else Ptr.null,
    rowUpperBound :=
      if input.numRows > 0 then Ptr.first input.rowUpperBound else Ptr.null,
    rowConstraintMatrixBegins :=
      if input.numRows > 0 then Ptr.first input.rowConstraintMatrixBegins else Ptr.null,
    rowConstraintMatrixIndices :=
      if input.numRows > 0 then Ptr.first input.rowConstraintMatrixIndices else Ptr.null,
    rowConstraintMatrixValues :=
      if input.numRows > 0 then Ptr.first input.rowConstraintMatrixValues else Ptr.null,
    hessianMatrixBegins :=
      if input.isQuadraticProblem then Ptr.first input.hessianMatrixBegins else Ptr.null,
    hessianMatrixIndices :=
      if input.isQuadraticProblem then Ptr.first input.hessianMatrixIndices else Ptr.null,
    hessianMatrixValues :=
      if input.isQuadraticProblem then Ptr.first input.hessianMatrixValues else Ptr.null,
    columnIntegrality :=
      if input.isIntegerProblem then Ptr.first input.columnIntegrality else Ptr.null }

/-- The calls that `Solve` has made when `Highs_passModel` returns, for options
that are accepted: the handle creation, the infinity query, the option
setters of `handleOptions` and the model load with the guarded arguments. -/
def loadLog (S : HighsStatus) (L : Library F) (E : Engine F) (input : highsInput F)
    (options : SolveOptions F) : List (EngineCall F) :=
  (handleOptions S L E [EngineCall.create, EngineCall.getInfinity] input options).2 ++
    [EngineCall.passModel (guardedArgs input)]

/-- Example input: the one that `newHighsInput` builds for the example model
with one continuous variable. -/
def exLpInput : highsInput Int :=
  { highsInput.new Int with
    columnCosts := [3], columnLowerBound := [-5], columnUpperBound := [7],
    hessianMatrixBegins := [0, 0], columnIntegrality := [0], numColumns := 1,
    sense := 1 }

/-- Example engine that rejects the model load and accepts every other call. -/
def exEnginePassRejected : Engine Int :=
  { exEngine with
    status := fun log =>
      match log.getLast? with
      | some (EngineCall.passModel _) => 2
      | _ => 0 }

/-- Example model whose only quadratic term is over a variable that is not one
of its variables: one continuous variable with index 0 and the term `5 y y`
for a variable `y` with index 1. -/
def exForeignModel : Model Int :=
  { vars := [{ exY with index := 0 }], constraints := [],
    objective := { terms := [], quadraticTerms := [⟨exY, exY, 5⟩], isMaximize := false } }

/-- Example options with control options: a bool option, then an int option
whose value does not fit 32 bits, then a string option. -/
def exControlOptions : SolveOptions Int :=
  { exOptions with
    controlToTyped := Except.ok
      { bools := [("mip_detect_symmetry", true)], floats := [],
        ints := [("threads", 4294967301)], strings := [("solver", "simplex")] } }

/-- Example engine that rejects an int option set to 5 and accepts every other
call. -/
def exEngineRejectFive : Engine Int :=
  { exEngine with
    status := fun log =>
      match log.getLast? with
      | some (EngineCall.setIntOptionValue _ value) => if value = 5 then 2 else 0
      | _ => 0 }

end Builders

/-! ## Slices: block and scattered stores -/

section Lemmas

variable {F : Type}

theorem splice_nil {α : Type} (a : List α) (cur : Nat) : splice a cur [] = a := by
  simp [splice]

theorem length_splice {α : Type} (a : List α) (cur : Nat) (xs : List α)
    (h : cur + xs.length ≤ a.length) : (splice a cur xs).length = a.length := by
  simp [splice]; omega

theorem splice_set {α : Type} (a : List α) (cur : Nat) (x : α) (xs : List α)
    (h : cur < a.length) :
    splice (a.set cur x) (cur + 1) xs = splice a cur (x :: xs) := by
  unfold splice
  rw [List.drop_set_of_lt _ _ (by omega), List.set_eq_take_append_cons_drop]
  simp only [h, if_true]
  rw [List.take_append_eq_append_take]
  have e : cur + 1 + xs.length = cur + (xs.length + 1) := by omega
  simp [List.length_take, Nat.min_eq_left (Nat.le_of_lt h), List.take_take, e]

theorem splice_splice {α : Type} (a : List α) (cur : Nat) (xs ys : List α)
    (h : cur + xs.length ≤ a.length) :
    splice (splice a cur xs) (cur + xs.length) ys = splice a cur (xs ++ ys) := by
  have hl : (a.take cur ++ xs).length = cur + xs.length := by
    simp [List.length_take]; omega
  unfold splice
  rw [List.take_left' hl]
  have e : cur + xs.length + ys.length = (a.take cur ++ xs).length + ys.length := by omega
  have e2 : cur + xs.length + ys.length = cur + (xs.length + ys.length) := by omega
  rw [e, List.drop_append, List.drop_drop]
  simp [List.append_assoc, e2]

theorem splice_splice_len {α : Type} (a : List α) (cur n : Nat) (xs ys : List α)
    (hn : n = xs.length) (h : cur + xs.length ≤ a.length) :
    splice (splice a cur xs) (cur + n) ys = splice a cur (xs ++ ys) := by
  subst hn
  exact splice_splice a cur xs ys h

theorem splice_zero_full {α : Type} (a xs : List α) (h : xs.length = a.length) :
    splice a 0 xs = xs := by
  simp [splice, h]

theorem length_scatter {α : Type} (ws : List (Nat × α)) :
    ∀ a : List α, (scatter a ws).length = a.length := by
  induction ws with
  | nil => intro a; rfl
  | cons w ws ih => intro a; simp [scatter, List.foldl_cons] at ih ⊢; rw [ih]; simp

theorem scatter_cons {α : Type} (a : List α) (w : Nat × α) (ws : List (Nat × α)) :
    scatter a (w :: ws) = scatter (a.set w.1 w.2) ws := rfl

/-- Reading a slice after a sequence of stores: the last store to the position
wins, and a position that is never stored to keeps its value. -/
theorem scatter_getElem? {α : Type} (ws : List (Nat × α)) (i : Nat) :
    ∀ a : List α, (scatter a ws)[i]? =
      match (ws.filter (fun w => decide (w.1 = i))).getLast? with
      | some w => if i < a.length then some w.2 else none
      | none => a[i]? := by
  induction ws with
  | nil => intro a; simp [scatter]
  | cons w ws ih =>
    intro a
    have hs : scatter a (w :: ws) = scatter (a.set w.1 w.2) ws := rfl
    rw [hs, ih]
    by_cases hw : w.1 = i
    · have hf : (w :: ws).filter (fun w => decide (w.1 = i))
          = w :: ws.filter (fun w => decide (w.1 = i)) := by simp [hw]
      rw [hf, List.getLast?_cons]
      cases (ws.filter (fun w => decide (w.1 = i))).getLast? with
      | none => simp [List.getElem?_set, ← hw]
      | some x => simp
    · have hf : (w :: ws).filter (fun w => decide (w.1 = i))
          = ws.filter (fun w => decide (w.1 = i)) := by simp [hw]
      rw [hf]
      cases (ws.filter (fun w => decide (w.1 = i))).getLast? with
      | none => simp [List.getElem?_set, hw]
      | some x => simp

theorem filter_getLast?_of_nodup {α β : Type} (key : α → Nat) (g : α → β) (l : List α)
    (hnd : (l.map key).Nodup) (v : α) (hv : v ∈ l) :
    ((l.map (fun x => (key x, g x))).filter (fun w => decide (w.1 = key v))).getLast?
      = some (key v, g v) := by
  induction l with
  | nil => simp at hv
  | cons u us ih =>
    simp only [List.map_cons, List.nodup_cons] at hnd
    obtain ⟨hu, hnd'⟩ := hnd
    by_cases huv : key u = key v
    · have hnone : (us.map (fun x => (key x, g x))).filter (fun w => decide (w.1 = key v)) = [] := by
        rw [List.filter_eq_nil_iff]
        intro w hw
        simp only [List.mem_map] at hw
        obtain ⟨x, hx, rfl⟩ := hw
        simp only [decide_eq_true_eq]
        intro hxv
        exact hu (List.mem_map.mpr ⟨x, hx, by rw [hxv, huv]⟩)
      have hvu : v = u := by
        rcases List.mem_cons.mp hv with h | h
        · exact h
        · exact absurd (List.mem_map.mpr ⟨v, h, huv.symm⟩) hu
      subst hvu
      simp [hnone]
    · have hv' : v ∈ us := by
        rcases List.mem_cons.mp hv with h | h
        · exact absurd (by rw [h]) huv
        · exact h
      simp [huv, ih hnd' hv']

theorem scatter_getElem?_of_nodup {α β : Type} (key : α → Nat) (g : α → β) (l : List α)
    (hnd : (l.map key).Nodup) (v : α) (hv : v ∈ l) (a : List β) (hlt : key v < a.length) :
    (scatter a (l.map (fun x => (key x, g x))))[key v]? = some (g v) := by
  rw [scatter_getElem?, filter_getLast?_of_nodup key g l hnd v hv]
  simp [hlt]

theorem scatter_const_getElem? {α β : Type} (key : α → Nat) (z : β) (l : List α) (n i : Nat)
    (hi : i < n) :
    (scatter (List.replicate n z) (l.map (fun x => (key x, z))))[i]? = some z := by
  rw [scatter_getElem?]
  cases h : ((l.map (fun x => (key x, z))).filter (fun w => decide (w.1 = i))).getLast? with
  | none => simp [hi]
  | some w =>
    have hw : w ∈ (l.map (fun x => (key x, z))).filter (fun w => decide (w.1 = i)) :=
      List.mem_of_getLast?_eq_some h
    have hw' := (List.mem_filter.mp hw).1
    simp only [List.mem_map] at hw'
    obtain ⟨x, _, rfl⟩ := hw'
    simp [hi]

/-! ## Begin offsets and flattened blocks -/

theorem length_beginOffsets (ns : List Nat) :
    ∀ cur, (beginOffsets cur ns).length = ns.length := by
  induction ns with
  | nil => intro cur; rfl
  | cons n ns ih => intro cur; simp [beginOffsets, ih]

theorem beginOffsets_getElem? (ns : List Nat) :
    ∀ (cur i : Nat), i < ns.length →
      (beginOffsets cur ns)[i]? = some (cur + (ns.take i).sum) := by
  induction ns with
  | nil => intro cur i h; simp at h
  | cons n ns ih =>
    intro cur i h
    cases i with
    | zero => simp [beginOffsets]
    | succ i =>
      simp only [List.length_cons, Nat.add_lt_add_iff_right] at h
      simp [beginOffsets, ih _ _ h, Nat.add_assoc]

theorem beginOffsets_append (ns ms : List Nat) :
    ∀ cur, beginOffsets cur (ns ++ ms)
      = beginOffsets cur ns ++ beginOffsets (cur + ns.sum) ms := by
  induction ns with
  | nil => intro cur; simp [beginOffsets]
  | cons n ns ih => intro cur; simp [beginOffsets, ih, Nat.add_assoc]

theorem beginOffsets_ge (ns : List Nat) :
    ∀ cur, ∀ b ∈ beginOffsets cur ns, cur ≤ b := by
  induction ns with
  | nil => intro cur b hb; simp [beginOffsets] at hb
  | cons n ns ih =>
    intro cur b hb
    simp only [beginOffsets, List.mem_cons] at hb
    rcases hb with rfl | hb
    · exact Nat.le_refl _
    · exact Nat.le_trans (Nat.le_add_right _ _) (ih _ _ hb)

theorem beginOffsets_le (ns : List Nat) :
    ∀ cur, ∀ b ∈ beginOffsets cur ns, b ≤ cur + ns.sum := by
  induction ns with
  | nil => intro cur b hb; simp [beginOffsets] at hb
  | cons n ns ih =>
    intro cur b hb
    simp only [beginOffsets, List.mem_cons] at hb
    rcases hb with rfl | hb
    · exact Nat.le_add_right _ _
    · have := ih _ _ hb
      simp only [List.sum_cons]
      omega

theorem beginOffsets_pairwise (ns : List Nat) :
    ∀ cur, (beginOffsets cur ns).Pairwise (fun a b => a ≤ b) := by
  induction ns with
  | nil => intro cur; simp [beginOffsets]
  | cons n ns ih =>
    intro cur
    simp only [beginOffsets, List.pairwise_cons]
    refine ⟨fun b hb => ?_, ih _⟩
    exact Nat.le_trans (Nat.le_add_right _ _) (beginOffsets_ge _ _ _ hb)

theorem flatMap_getElem? {α β : Type} (f : α → List β) (l : List α) :
    ∀ (i k : Nat) (x : α), l[i]? = some x → k < (f x).length →
      (l.flatMap f)[((l.take i).map (fun y => (f y).length)).sum + k]? = (f x)[k]? := by
  induction l with
  | nil => intro i k x h; simp at h
  | cons y l ih =>
    intro i k x h hk
    cases i with
    | zero =>
      simp only [List.getElem?_cons_zero, Option.some.injEq] at h
      subst h
      simp [List.getElem?_append_left hk]
    | succ i =>
      simp only [List.getElem?_cons_succ] at h
      have := ih i k x h hk
      simp only [List.take_succ_cons, List.map_cons, List.sum_cons, List.flatMap_cons]
      rw [Nat.add_assoc, List.getElem?_append_right (Nat.le_add_right _ _)]
      simpa using this

theorem flatMap_congr_mem {α β : Type} (l : List α) (f g : α → List β)
    (h : ∀ x ∈ l, f x = g x) : l.flatMap f = l.flatMap g := by
  induction l with
  | nil => rfl
  | cons x l ih =>
    simp only [List.flatMap_cons]
    rw [h x (List.mem_cons_self _ _), ih (fun y hy => h y (List.mem_cons_of_mem _ hy))]

theorem zip_flatMap_map {α β γ : Type} (l : List α) (k : α → List β) (f : β → γ) (g : β → F) :
    (l.flatMap (fun i => (k i).map f)).zip (l.flatMap (fun i => (k i).map g)) =
      l.flatMap (fun i => (k i).map (fun t => (f t, g t))) := by
  induction l with
  | nil => rfl
  | cons x l ih =>
    simp only [List.flatMap_cons]
    rw [List.zip_append (by simp), ih, List.zip_map']

theorem flatMap_drop_block {α β : Type} (f : α → List β) (l₁ l₂ : List α) (x : α) :
    ((l₁ ++ x :: l₂).flatMap f).drop ((l₁.map (fun y => (f y).length)).sum)
      = f x ++ l₂.flatMap f := by
  have hl : (l₁.flatMap f).length = (l₁.map (fun y => (f y).length)).sum := by
    induction l₁ with
    | nil => rfl
    | cons y l ih => simp [List.flatMap_cons, ih]
  rw [List.flatMap_append, List.flatMap_cons, List.drop_left' hl]

theorem range_split (n c : Nat) (hc : c < n) :
    List.range n = (List.range n).take c ++ c :: (List.range n).drop (c + 1) := by
  have h : c < (List.range n).length := by simpa using hc
  conv_lhs => rw [← List.take_append_drop c (List.range n), List.drop_eq_getElem_cons h]
  simp

theorem sum_take_succ_map (f : Nat → Nat) (n c : Nat) (hc : c < n) :
    ((((List.range n).map f).take (c + 1))).sum
      = (((List.range n).map f).take c).sum + f c := by
  have h : c < ((List.range n).map f).length := by simpa using hc
  rw [List.sum_take_succ _ _ h]
  simp

/-! ## Closed form of `prepareConstraintMatrix` -/

theorem csrBegins_nil (cur : Nat) : csrBegins cur ([] : List (Constraint F)) = [] := rfl

theorem csrBegins_cons (cur : Nat) (c : Constraint F) (cs : List (Constraint F)) :
    csrBegins cur (c :: cs) = cur :: csrBegins (cur + c.terms.length) cs := rfl

theorem length_csrBegins (cs : List (Constraint F)) (cur : Nat) :
    (csrBegins cur cs).length = cs.length := by
  simp [csrBegins, length_beginOffsets]

theorem length_flatIndices (cs : List (Constraint F)) :
    (flatIndices cs).length = termCount cs := by
  induction cs with
  | nil => rfl
  | cons c cs ih =>
    simp only [flatIndices, termCount, List.flatMap_cons, List.length_append, List.length_map,
      List.map_cons, List.sum_cons] at ih ⊢
    rw [ih]

theorem length_flatValues (cs : List (Constraint F)) :
    (flatValues cs).length = termCount cs := by
  induction cs with
  | nil => rfl
  | cons c cs ih =>
    simp only [flatValues, termCount, List.flatMap_cons, List.length_append, List.length_map,
      List.map_cons, List.sum_cons] at ih ⊢
    rw [ih]

/-- The inner loop over the terms of one constraint overwrites the block of both
flat arrays that starts at the cursor, and advances the cursor by the number of
terms. -/
theorem prepareConstraintMatrixTerms_eq (ts : List (Term F)) :
    ∀ (input : highsInput F) (cur : Nat),
      cur + ts.length ≤ input.rowConstraintMatrixIndices.length →
      cur + ts.length ≤ input.rowConstraintMatrixValues.length →
      prepareConstraintMatrixTerms input cur ts =
        some ({ input with
          rowConstraintMatrixIndices :=
            splice input.rowConstraintMatrixIndices cur (ts.map (fun t => t.var.index)),
          rowConstraintMatrixValues :=
            splice input.rowConstraintMatrixValues cur (ts.map (fun t => t.coefficient)) },
          cur + ts.length) := by
  induction ts with
  | nil =>
    intro input cur _ _
    simp [prepareConstraintMatrixTerms, splice_nil]
  | cons t ts ih =>
    intro input cur h1 h2
    simp only [List.length_cons] at h1 h2
    have h1' : cur < input.rowConstraintMatrixIndices.length := by omega
    have h2' : cur < input.rowConstraintMatrixValues.length := by omega
    simp only [prepareConstraintMatrixTerms, setIdx, h1', h2', if_true, Option.bind_eq_bind,
      Option.some_bind]
    rw [ih _ _ (by simp; omega) (by simp; omega)]
    simp only [List.map_cons, List.length_cons, splice_set _ _ _ _ h1', splice_set _ _ _ _ h2']
    congr 2
    omega

theorem prepareConstraintMatrixBounds_eq [Neg F] (input : highsInput F) (i : Nat)
    (c : Constraint F) (infinity : F)
    (h1 : i < input.rowLowerBound.length) (h2 : i < input.rowUpperBound.length) :
    prepareConstraintMatrixBounds input i c infinity =
      some { input with
        rowLowerBound := input.rowLowerBound.set i (rowLowerOf infinity c),
        rowUpperBound := input.rowUpperBound.set i (rowUpperOf infinity c) } := by
  unfold prepareConstraintMatrixBounds rowLowerOf rowUpperOf
  cases c.sense <;> simp [setIdx, h1, h2]

/-- The loop over the constraints, from row `i` and cursor `cur` on, overwrites
the three row arrays from `i` and the two flat arrays from `cur`, provided the
arrays are long enough. -/
theorem prepareConstraintMatrixRows_eq [Neg F] (infinity : F) (cs : List (Constraint F)) :
    ∀ (input : highsInput F) (cur i : Nat),
      i + cs.length ≤ input.rowConstraintMatrixBegins.length →
      i + cs.length ≤ input.rowLowerBound.length →
      i + cs.length ≤ input.rowUpperBound.length →
      cur + termCount cs ≤ input.rowConstraintMatrixIndices.length →
      cur + termCount cs ≤ input.rowConstraintMatrixValues.length →
      prepareConstraintMatrixRows infinity input cur i cs =
        some ({ input with
          rowConstraintMatrixBegins :=
            splice input.rowConstraintMatrixBegins i (csrBegins cur cs),
          rowLowerBound := splice input.rowLowerBound i (cs.map (rowLowerOf infinity)),
          rowUpperBound := splice input.rowUpperBound i (cs.map (rowUpperOf infinity)),
          rowConstraintMatrixIndices :=
            splice input.rowConstraintMatrixIndices cur (flatIndices cs),
          rowConstraintMatrixValues :=
            splice input.rowConstraintMatrixValues cur (flatValues cs) },
          cur + termCount cs) := by
  induction cs with
  | nil =>
    intro input cur i _ _ _ _ _
    simp [prepareConstraintMatrixRows, splice_nil, csrBegins_nil, flatIndices, flatValues, termCount]
  | cons c cs ih =>
    intro input cur i hb hl hu hi hv
    simp only [List.length_cons] at hb hl hu
    have ht : termCount (c :: cs) = c.terms.length + termCount cs := by
      simp [termCount]
    rw [ht] at hi hv
    have hb' : i < input.rowConstraintMatrixBegins.length := by omega
    have hl' : i < input.rowLowerBound.length := by omega
    have hu' : i < input.rowUpperBound.length := by omega
    simp only [prepareConstraintMatrixRows, setIdx, hb', if_true, Option.bind_eq_bind,
      Option.some_bind]
    rw [prepareConstraintMatrixBounds_eq _ _ _ _ (by simpa using hl') (by simpa using hu')]
    simp only [Option.some_bind]
    rw [prepareConstraintMatrixTerms_eq _ _ _ (by simp; omega) (by simp; omega)]
    simp only [Option.some_bind]
    rw [ih _ _ _ (by simp; omega) (by simp; omega) (by simp; omega)
      (by simp [length_splice, hi]; rw [length_splice _ _ _ (by simp; omega)]; omega)
      (by simp [length_splice, hv]; rw [length_splice _ _ _ (by simp; omega)]; omega)]
    have e1 : cur + c.terms.length
        = cur + (c.terms.map (fun t => t.var.index)).length := by simp
    have e2 : cur + c.terms.length
        = cur + (c.terms.map (fun t => t.coefficient)).length := by simp
    simp only [splice_set _ _ _ _ hb', splice_set _ _ _ _ hl', splice_set _ _ _ _ hu',
      csrBegins_cons, List.map_cons, flatIndices, flatValues, List.flatMap_cons, ht]
    rw [splice_splice_len _ _ _ _ _ (by simp) (by simp; omega),
      splice_splice_len _ _ _ _ _ (by simp) (by simp; omega), Nat.add_assoc]

/-- Closed form of `prepareConstraintMatrix`: when `numRows` is the number of
constraints and `numNonZeros` their number of terms, it returns, and the five
arrays are the reference arrays. -/
theorem prepareConstraintMatrix_eq [Zero F] [Neg F] (input : highsInput F)
    (cs : List (Constraint F)) (infinity : F)
    (hrows : input.numRows = cs.length) (hnz : input.numNonZeros = termCount cs) :
    prepareConstraintMatrix input cs infinity =
      some { input with
        rowConstraintMatrixBegins := csrBegins 0 cs,
        rowLowerBound := cs.map (rowLowerOf infinity),
        rowUpperBound := cs.map (rowUpperOf infinity),
        rowConstraintMatrixIndices := flatIndices cs,
        rowConstraintMatrixValues := flatValues cs } := by
  unfold prepareConstraintMatrix
  simp only [Option.bind_eq_bind, Option.pure_def]
  rw [prepareConstraintMatrixRows_eq infinity cs _ 0 0 (by simp [hrows]) (by simp [hrows])
    (by simp [hrows]) (by simp [hnz]) (by simp [hnz])]
  simp only [Option.some_bind]
  have hz : ∀ {α : Type} (a xs : List α), xs.length = a.length → splice a 0 xs = xs :=
    fun a xs h => splice_zero_full a xs h
  simp only [hz _ _ (show (csrBegins 0 cs).length = (List.replicate input.numRows 0).length by
      simp [hrows, length_csrBegins]),
    hz _ _ (show (cs.map (rowLowerOf infinity)).length
      = (List.replicate input.numRows (0 : F)).length by simp [hrows]),
    hz _ _ (show (cs.map (rowUpperOf infinity)).length
      = (List.replicate input.numRows (0 : F)).length by simp [hrows]),
    hz _ _ (show (flatIndices cs).length = (List.replicate input.numNonZeros 0).length by
      simp [hnz, length_flatIndices]),
    hz _ _ (show (flatValues cs).length = (List.replicate input.numNonZeros (0 : F)).length by
      simp [hnz, length_flatValues])]

/-! ## Closed form of `prepareColumns` -/

theorem termCount_eq_foldl (cs : List (Constraint F)) (input : highsInput F) :
    (cs.foldl (fun input c =>
        { input with numNonZeros := input.numNonZeros + c.terms.length }) input)
      = { input with numNonZeros := input.numNonZeros + termCount cs } := by
  induction cs generalizing input with
  | nil => simp [termCount]
  | cons c cs ih => simp [ih, termCount, Nat.add_assoc]

theorem DenseIndices.nodup {model : Model F} (h : DenseIndices model) :
    (model.vars.map (fun v => v.index)).Nodup :=
  (List.Perm.nodup_iff h).mpr (List.nodup_range _)

theorem DenseIndices.lt {model : Model F} (h : DenseIndices model) :
    ∀ v ∈ model.vars, v.index < model.vars.length := by
  intro v hv
  have : v.index ∈ model.vars.map (fun v => v.index) := List.mem_map_of_mem _ hv
  exact List.mem_range.mp ((List.Perm.mem_iff h).mp this)

theorem prepareColumnsVars_eq [Zero F] (K : HighsConstants) (vars : List (Var F)) :
    ∀ input : highsInput F,
      (∀ v ∈ vars, v.index < input.columnCosts.length ∧
        v.index < input.columnLowerBound.length ∧
        v.index < input.columnUpperBound.length ∧
        v.index < input.columnIntegrality.length) →
      vars.foldlM (prepareColumnsVar K) input = some { input with
        columnCosts := scatter input.columnCosts (vars.map (fun v => (v.index, (0 : F)))),
        columnLowerBound :=
          scatter input.columnLowerBound (vars.map (fun v => (v.index, v.lowerBound))),
        columnUpperBound :=
          scatter input.columnUpperBound (vars.map (fun v => (v.index, v.upperBound))),
        columnIntegrality :=
          scatter input.columnIntegrality
            (vars.map (fun v => (v.index, mapVarTypeToIntegrality K v))),
        isIntegerProblem := input.isIntegerProblem || anyInteger K vars } := by
  induction vars with
  | nil => intro input _; simp [scatter, anyInteger]
  | cons v vs ih =>
    intro input h
    obtain ⟨h1, h2, h3, h4⟩ := h v (List.mem_cons_self _ _)
    have hrest : ∀ u ∈ vs, u.index < input.columnCosts.length ∧
        u.index < input.columnLowerBound.length ∧
        u.index < input.columnUpperBound.length ∧
        u.index < input.columnIntegrality.length :=
      fun u hu => h u (List.mem_cons_of_mem _ hu)
    simp only [List.foldlM_cons, prepareColumnsVar, setIdx, h1, h2, h3, h4, if_true,
      Option.bind_eq_bind, Option.some_bind, Option.pure_def]
    by_cases ht : mapVarTypeToIntegrality K v = K.kHighsVarTypeInteger
    · simp only [ht, if_true, Option.some_bind]
      rw [ih _ (by simpa using hrest)]
      simp [scatter_cons, anyInteger, ht]
    · simp only [ht, if_false, Option.some_bind]
      rw [ih _ (by simpa using hrest)]
      simp [scatter_cons, anyInteger, ht]

theorem prepareColumnsTerms_eq (ts : List (Term F)) :
    ∀ input : highsInput F,
      (∀ t ∈ ts, t.var.index < input.columnCosts.length) →
      ts.foldlM prepareColumnsTerm input = some { input with
        columnCosts :=
          scatter input.columnCosts (ts.map (fun t => (t.var.index, t.coefficient))) } := by
  induction ts with
  | nil => intro input _; simp [scatter]
  | cons t ts ih =>
    intro input h
    have h1 := h t (List.mem_cons_self _ _)
    have hrest : ∀ u ∈ ts, u.var.index < input.columnCosts.length :=
      fun u hu => h u (List.mem_cons_of_mem _ hu)
    simp only [List.foldlM_cons, prepareColumnsTerm, setIdx, h1, if_true,
      Option.bind_eq_bind, Option.some_bind, Option.pure_def]
    rw [ih _ (by simpa using hrest)]
    simp [scatter_cons]

/-- Closed form of `prepareColumns`: when every variable and every objective term
has an index below `numColumns`, it returns, and the column arrays are the
zeroed arrays after the stores of the two loops. -/
theorem prepareColumns_eq [Zero F] (K : HighsConstants) (input : highsInput F)
    (model : Model F) (cs : List (Constraint F)) (infinity : F)
    (hv : ∀ v ∈ model.vars, v.index < input.numColumns)
    (ht : ∀ t ∈ model.objective.terms, t.var.index < input.numColumns) :
    prepareColumns K input model cs infinity = some { input with
      numNonZeros := termCount cs,
      columnCosts :=
        scatter (scatter (List.replicate input.numColumns 0)
            (model.vars.map (fun v => (v.index, (0 : F)))))
          (model.objective.terms.map (fun t => (t.var.index, t.coefficient))),
      columnLowerBound :=
        scatter (List.replicate input.numColumns 0)
          (model.vars.map (fun v => (v.index, v.lowerBound))),
      columnUpperBound :=
        scatter (List.replicate input.numColumns 0)
          (model.vars.map (fun v => (v.index, v.upperBound))),
      columnIntegrality :=
        scatter (List.replicate input.numColumns 0)
          (model.vars.map (fun v => (v.index, mapVarTypeToIntegrality K v))),
      isIntegerProblem := anyInteger K model.vars } := by
  unfold prepareColumns
  simp only [termCount_eq_foldl, Option.bind_eq_bind]
  rw [prepareColumnsVars_eq K model.vars _ (by simpa using hv)]
  simp only [Option.some_bind]
  rw [prepareColumnsTerms_eq _ _ (by simpa [length_scatter] using ht)]
  simp

/-! ## The grouping map of `prepareHessian` -/

theorem GoMap.get?_put_self {V : Type} (m : GoMap V) (k : Nat) (v : V) :
    (m.put k v).get? k = some v := by
  induction m with
  | nil => simp [GoMap.put, GoMap.get?]
  | cons e m ih =>
    obtain ⟨k', v'⟩ := e
    by_cases h : k' = k
    · simp [GoMap.put, GoMap.get?, h]
    · simp [GoMap.put, GoMap.get?, h, ih]

theorem GoMap.get?_put_ne {V : Type} (m : GoMap V) (k j : Nat) (v : V) (hne : k ≠ j) :
    (m.put k v).get? j = m.get? j := by
  induction m with
  | nil => simp [GoMap.put, GoMap.get?, hne]
  | cons e m ih =>
    obtain ⟨k', v'⟩ := e
    by_cases h : k' = k
    · subst h; simp [GoMap.put, GoMap.get?, hne]
    · by_cases h2 : k' = j
      · subst h2; simp [GoMap.put, GoMap.get?, h]
      · simp [GoMap.put, GoMap.get?, h, h2, ih]

theorem GoMap.put_put {V : Type} (m : GoMap V) (k : Nat) (v w : V) :
    (m.put k v).put k w = m.put k w := by
  induction m with
  | nil => simp [GoMap.put]
  | cons e m ih =>
    obtain ⟨k', v'⟩ := e
    by_cases h : k' = k
    · simp [GoMap.put, h]
    · simp [GoMap.put, h, ih]

theorem GoMap.keys_put {V : Type} (m : GoMap V) (k : Nat) (v : V) :
    ∀ j, j ∈ (m.put k v).map Prod.fst ↔ j = k ∨ j ∈ m.map Prod.fst := by
  induction m with
  | nil => intro j; simp [GoMap.put]
  | cons e m ih =>
    obtain ⟨k', v'⟩ := e
    intro j
    by_cases h : k' = k
    · subst h; simp [GoMap.put]
    · simp only [GoMap.put, h, if_false, List.map_cons, List.mem_cons, ih]
      tauto

theorem GoMap.nodup_put {V : Type} (m : GoMap V) (k : Nat) (v : V)
    (h : (m.map Prod.fst).Nodup) : ((m.put k v).map Prod.fst).Nodup := by
  induction m with
  | nil => simp [GoMap.put]
  | cons e m ih =>
    obtain ⟨k', v'⟩ := e
    simp only [List.map_cons, List.nodup_cons] at h
    by_cases hk : k' = k
    · subst hk; simpa [GoMap.put] using h
    · simp only [GoMap.put, hk, if_false, List.map_cons, List.nodup_cons]
      refine ⟨?_, ih h.2⟩
      rw [GoMap.keys_put]
      rintro (h1 | h1)
      · exact hk h1
      · exact h.1 h1

theorem GoMap.mem_iff_get? {V : Type} (m : GoMap V) (h : (m.map Prod.fst).Nodup)
    (k : Nat) (v : V) : (k, v) ∈ m ↔ m.get? k = some v := by
  induction m with
  | nil => simp [GoMap.get?]
  | cons e m ih =>
    obtain ⟨k', v'⟩ := e
    simp only [List.map_cons, List.nodup_cons] at h
    by_cases hk : k' = k
    · subst hk
      simp only [List.mem_cons, Prod.mk.injEq, true_and, GoMap.get?, if_true, Option.some.injEq]
      constructor
      · rintro (h1 | h1)
        · exact h1.symm
        · exact absurd (List.mem_map.mpr ⟨(k', v), h1, rfl⟩) h.1
      · intro h1; exact Or.inl h1.symm
    · simp only [List.mem_cons, Prod.mk.injEq, GoMap.get?, hk, if_false, ih h.2]
      constructor
      · rintro (h1 | h1)
        · exact absurd h1.1.symm hk
        · exact h1
      · intro h1; exact Or.inr h1

theorem groupQuadraticTerm_eq (qMat : GoMap (GoMap (QuadraticTerm F)))
    (v : QuadraticTerm F) :
    groupQuadraticTerm qMat v =
      qMat.put v.var1.index (((qMat.get? v.var1.index).getD []).put v.var2.index v) := by
  unfold groupQuadraticTerm
  cases h : qMat.get? v.var1.index with
  | none => simp [GoMap.get?_put_self, GoMap.put_put]
  | some row => simp [h]

theorem get?_groupQuadraticTerm (qMat : GoMap (GoMap (QuadraticTerm F)))
    (v : QuadraticTerm F) (c : Nat) :
    (groupQuadraticTerm qMat v).get? c =
      if v.var1.index = c then
        some (((qMat.get? v.var1.index).getD []).put v.var2.index v)
      else qMat.get? c := by
  rw [groupQuadraticTerm_eq]
  by_cases hc : v.var1.index = c
  · subst hc; simp [GoMap.get?_put_self]
  · simp [GoMap.get?_put_ne _ _ _ _ hc, hc]

theorem lookupPair_groupQuadraticTerm (qMat : GoMap (GoMap (QuadraticTerm F)))
    (v : QuadraticTerm F) (c r : Nat) :
    lookupPair (groupQuadraticTerm qMat v) c r =
      if v.var1.index = c ∧ v.var2.index = r then some v else lookupPair qMat c r := by
  rw [groupQuadraticTerm_eq]
  unfold lookupPair
  by_cases hc : v.var1.index = c
  · subst hc
    rw [GoMap.get?_put_self]
    by_cases hr : v.var2.index = r
    · subst hr
      simp [GoMap.get?_put_self]
    · simp only [Option.some_bind, hr, and_false, if_false]
      rw [GoMap.get?_put_ne _ _ _ _ hr]
      cases qMat.get? v.var1.index <;> simp [GoMap.get?]
  · rw [GoMap.get?_put_ne _ _ _ _ hc]
    simp [hc]

theorem lookupPair_foldl (qTerms : List (QuadraticTerm F)) (c r : Nat) :
    ∀ qMat : GoMap (GoMap (QuadraticTerm F)),
      lookupPair (qTerms.foldl groupQuadraticTerm qMat) c r =
        (lastQuadraticTerm qTerms c r).or (lookupPair qMat c r) := by
  induction qTerms with
  | nil => intro qMat; simp [lastQuadraticTerm]
  | cons v vs ih =>
    intro qMat
    rw [List.foldl_cons, ih, lookupPair_groupQuadraticTerm]
    unfold lastQuadraticTerm
    by_cases h : v.var1.index = c ∧ v.var2.index = r
    · have hf : (v :: vs).filter (fun t => decide (t.var1.index = c ∧ t.var2.index = r))
          = v :: vs.filter (fun t => decide (t.var1.index = c ∧ t.var2.index = r)) := by
        simp [h]
      rw [hf, List.getLast?_cons, if_pos h]
      cases (vs.filter (fun t => decide (t.var1.index = c ∧ t.var2.index = r))).getLast? <;> simp
    · have hf : (v :: vs).filter (fun t => decide (t.var1.index = c ∧ t.var2.index = r))
          = vs.filter (fun t => decide (t.var1.index = c ∧ t.var2.index = r)) := by
        simp [h]
      rw [hf, if_neg h]

/-- The grouping map holds, for the pair `(c, r)`, the last term of the input with
that index pair. -/
theorem lookupPair_groupQuadraticTerms (qTerms : List (QuadraticTerm F)) (c r : Nat) :
    lookupPair (groupQuadraticTerms qTerms) c r = lastQuadraticTerm qTerms c r := by
  unfold groupQuadraticTerms
  rw [lookupPair_foldl]
  simp [lookupPair, GoMap.get?]

theorem lastQuadraticTerm_spec {qTerms : List (QuadraticTerm F)} {c r : Nat}
    {t : QuadraticTerm F} (h : lastQuadraticTerm qTerms c r = some t) :
    t ∈ qTerms ∧ t.var1.index = c ∧ t.var2.index = r := by
  have hm := List.mem_of_getLast?_eq_some h
  rw [List.mem_filter] at hm
  simpa using hm

theorem lastQuadraticTerm_isSome {qTerms : List (QuadraticTerm F)} {t : QuadraticTerm F}
    (h : t ∈ qTerms) :
    ∃ u, lastQuadraticTerm qTerms t.var1.index t.var2.index = some u := by
  unfold lastQuadraticTerm
  have hm : t ∈ qTerms.filter
      (fun u => decide (u.var1.index = t.var1.index ∧ u.var2.index = t.var2.index)) := by
    simp [List.mem_filter, h]
  cases hl : (qTerms.filter
      (fun u => decide (u.var1.index = t.var1.index ∧ u.var2.index = t.var2.index))).getLast? with
  | none =>
    rw [List.getLast?_eq_none_iff] at hl
    rw [hl] at hm
    simp at hm
  | some u => exact ⟨u, rfl⟩

theorem rows_nodup_foldl (qTerms : List (QuadraticTerm F)) :
    ∀ qMat : GoMap (GoMap (QuadraticTerm F)),
      (∀ c row, qMat.get? c = some row → (row.map Prod.fst).Nodup) →
      ∀ c row, (qTerms.foldl groupQuadraticTerm qMat).get? c = some row →
        (row.map Prod.fst).Nodup := by
  induction qTerms with
  | nil => intro qMat h; simpa using h
  | cons v vs ih =>
    intro qMat h
    rw [List.foldl_cons]
    apply ih
    intro c row hrow
    rw [get?_groupQuadraticTerm] at hrow
    by_cases hc : v.var1.index = c
    · rw [if_pos hc] at hrow
      simp only [Option.some.injEq] at hrow
      subst hrow
      apply GoMap.nodup_put
      cases hq : qMat.get? v.var1.index with
      | none => simp
      | some row0 => simpa using h _ _ hq
    · rw [if_neg hc] at hrow
      exact h c row hrow

theorem rows_nodup_groupQuadraticTerms (qTerms : List (QuadraticTerm F)) (c : Nat)
    (row : GoMap (QuadraticTerm F)) (h : (groupQuadraticTerms qTerms).get? c = some row) :
    (row.map Prod.fst).Nodup :=
  rows_nodup_foldl qTerms [] (fun c row h => by simp [GoMap.get?] at h) c row h

/-! ## The emitted columns -/

theorem mem_sortSliceStable (terms : List (QuadraticTerm F)) (t : QuadraticTerm F) :
    t ∈ sortSliceStable terms ↔ t ∈ terms :=
  (List.perm_insertionSort _ terms).mem_iff

theorem length_sortSliceStable (terms : List (QuadraticTerm F)) :
    (sortSliceStable terms).length = terms.length :=
  List.length_insertionSort _ terms

/-- The terms emitted for column `c` are the last terms of the pairs `(c, r)`,
whatever the order in which the inner map is enumerated. -/
theorem mem_columnTerms (ord : GoMap (QuadraticTerm F) → GoMap (QuadraticTerm F))
    (hord : ∀ m, (ord m).Perm m) (qTerms : List (QuadraticTerm F)) (c : Nat)
    (t : QuadraticTerm F) :
    t ∈ columnTerms ord (groupQuadraticTerms qTerms) c ↔
      ∃ r, lastQuadraticTerm qTerms c r = some t := by
  unfold columnTerms
  cases hq : (groupQuadraticTerms qTerms).get? c with
  | none =>
    simp only [List.not_mem_nil, false_iff, not_exists]
    intro r hr
    rw [← lookupPair_groupQuadraticTerms, lookupPair, hq] at hr
    simp at hr
  | some row =>
    have hnd := rows_nodup_groupQuadraticTerms qTerms c row hq
    simp only [mem_sortSliceStable, List.mem_map]
    constructor
    · rintro ⟨⟨r, t'⟩, hmem, rfl⟩
      refine ⟨r, ?_⟩
      rw [← lookupPair_groupQuadraticTerms, lookupPair, hq]
      simp only [Option.some_bind]
      exact (GoMap.mem_iff_get? row hnd r t').mp ((hord row).mem_iff.mp hmem)
    · rintro ⟨r, hr⟩
      rw [← lookupPair_groupQuadraticTerms, lookupPair, hq] at hr
      simp only [Option.some_bind] at hr
      exact ⟨(r, t), (hord row).mem_iff.mpr ((GoMap.mem_iff_get? row hnd r t).mpr hr), rfl⟩

theorem columnTerms_var1 (ord : GoMap (QuadraticTerm F) → GoMap (QuadraticTerm F))
    (hord : ∀ m, (ord m).Perm m) (qTerms : List (QuadraticTerm F)) (c : Nat)
    (t : QuadraticTerm F) (h : t ∈ columnTerms ord (groupQuadraticTerms qTerms) c) :
    t ∈ qTerms ∧ t.var1.index = c := by
  obtain ⟨r, hr⟩ := (mem_columnTerms ord hord qTerms c t).mp h
  exact ⟨(lastQuadraticTerm_spec hr).1, (lastQuadraticTerm_spec hr).2.1⟩

theorem columnTerms_rows_nodup (ord : GoMap (QuadraticTerm F) → GoMap (QuadraticTerm F))
    (hord : ∀ m, (ord m).Perm m) (qTerms : List (QuadraticTerm F)) (c : Nat) :
    ((columnTerms ord (groupQuadraticTerms qTerms) c).map (fun t => t.var2.index)).Nodup := by
  unfold columnTerms
  cases hq : (groupQuadraticTerms qTerms).get? c with
  | none => simp
  | some row =>
    have hnd := rows_nodup_groupQuadraticTerms qTerms c row hq
    have hp : (sortSliceStable ((ord row).map Prod.snd)).Perm (row.map Prod.snd) :=
      (List.perm_insertionSort _ _).trans ((hord row).map _)
    have hkeys : (row.map Prod.snd).map (fun t => t.var2.index) = row.map Prod.fst := by
      rw [List.map_map]
      apply List.map_congr_left
      rintro ⟨r, t⟩ hmem
      have hget := (GoMap.mem_iff_get? row hnd r t).mp hmem
      have hl : lastQuadraticTerm qTerms c r = some t := by
        rw [← lookupPair_groupQuadraticTerms, lookupPair, hq]
        simpa using hget
      simpa using (lastQuadraticTerm_spec hl).2.2
    exact ((hp.map _).nodup_iff).mpr (hkeys ▸ hnd)

theorem columnTerms_sorted (ord : GoMap (QuadraticTerm F) → GoMap (QuadraticTerm F))
    (qMat : GoMap (GoMap (QuadraticTerm F))) (c : Nat) :
    ((columnTerms ord qMat c).map (fun t => t.var2.index)).Pairwise (fun a b => a ≤ b) := by
  unfold columnTerms
  cases qMat.get? c with
  | none => simp
  | some row =>
    haveI : IsTotal (QuadraticTerm F) (fun a b => a.var2.index ≤ b.var2.index) :=
      ⟨fun a b => Nat.le_total _ _⟩
    haveI : IsTrans (QuadraticTerm F) (fun a b => a.var2.index ≤ b.var2.index) :=
      ⟨fun a b c hab hbc => Nat.le_trans hab hbc⟩
    have hs := List.sorted_insertionSort (fun a b : QuadraticTerm F => a.var2.index ≤ b.var2.index)
      ((ord row).map Prod.snd)
    rw [List.pairwise_map]
    exact hs

theorem columnTerms_strictly_sorted
    (ord : GoMap (QuadraticTerm F) → GoMap (QuadraticTerm F))
    (hord : ∀ m, (ord m).Perm m) (qTerms : List (QuadraticTerm F)) (c : Nat) :
    ((columnTerms ord (groupQuadraticTerms qTerms) c).map
      (fun t => t.var2.index)).Pairwise (fun a b => a < b) := by
  have h1 := columnTerms_sorted ord (groupQuadraticTerms qTerms) c
  have h2 : ((columnTerms ord (groupQuadraticTerms qTerms) c).map
      (fun t => t.var2.index)).Pairwise (fun a b => a ≠ b) :=
    columnTerms_rows_nodup ord hord qTerms c
  exact (h1.and h2).imp (fun h => Nat.lt_of_le_of_ne h.1 h.2)

theorem length_emittedPairs (ord : GoMap (QuadraticTerm F) → GoMap (QuadraticTerm F))
    (qTerms : List (QuadraticTerm F)) (n : Nat) :
    (emittedPairs ord qTerms n).length =
      ((List.range n).map (fun c =>
        (columnTerms ord (groupQuadraticTerms qTerms) c).length)).sum := by
  unfold emittedPairs
  generalize List.range n = cols
  induction cols with
  | nil => rfl
  | cons c cols ih => simp [List.flatMap_cons, ih]

theorem nodup_emittedPairs (ord : GoMap (QuadraticTerm F) → GoMap (QuadraticTerm F))
    (hord : ∀ m, (ord m).Perm m) (qTerms : List (QuadraticTerm F)) (n : Nat) :
    (emittedPairs ord qTerms n).Nodup := by
  unfold emittedPairs
  rw [List.nodup_flatMap]
  constructor
  · intro c _
    apply List.Nodup.of_map Prod.snd
    rw [List.map_map]
    exact columnTerms_rows_nodup ord hord qTerms c
  · apply (List.nodup_range n).imp
    intro a b hab
    intro p hpa hpb
    simp only [List.mem_map] at hpa hpb
    obtain ⟨t, ht, rfl⟩ := hpa
    obtain ⟨u, hu, hue⟩ := hpb
    have h1 := (columnTerms_var1 ord hord qTerms a t ht).2
    have h2 := (columnTerms_var1 ord hord qTerms b u hu).2
    apply hab
    have : u.var1.index = t.var1.index := congrArg Prod.fst hue
    omega

theorem emittedPairs_subset (ord : GoMap (QuadraticTerm F) → GoMap (QuadraticTerm F))
    (hord : ∀ m, (ord m).Perm m) (qTerms : List (QuadraticTerm F)) (n : Nat) :
    emittedPairs ord qTerms n ⊆ qTerms.map indexPair := by
  intro p hp
  simp only [emittedPairs, List.mem_flatMap, List.mem_map] at hp
  obtain ⟨c, _, t, ht, rfl⟩ := hp
  exact List.mem_map_of_mem _ (columnTerms_var1 ord hord qTerms c t ht).1

/-- No more entries are emitted than there are quadratic terms. -/
theorem length_emittedPairs_le (ord : GoMap (QuadraticTerm F) → GoMap (QuadraticTerm F))
    (hord : ∀ m, (ord m).Perm m) (qTerms : List (QuadraticTerm F)) (n : Nat) :
    (emittedPairs ord qTerms n).length ≤ qTerms.length := by
  have h := (List.subperm_of_subset (nodup_emittedPairs ord hord qTerms n)
    (emittedPairs_subset ord hord qTerms n)).length_le
  simpa using h

theorem subset_emittedPairs (ord : GoMap (QuadraticTerm F) → GoMap (QuadraticTerm F))
    (hord : ∀ m, (ord m).Perm m) (qTerms : List (QuadraticTerm F)) (n : Nat)
    (hrange : ∀ t ∈ qTerms, t.var1.index < n) :
    qTerms.map indexPair ⊆ emittedPairs ord qTerms n := by
  intro p hp
  simp only [List.mem_map] at hp
  obtain ⟨t, ht, rfl⟩ := hp
  obtain ⟨u, hu⟩ := lastQuadraticTerm_isSome ht
  have hspec := lastQuadraticTerm_spec hu
  simp only [emittedPairs, List.mem_flatMap, List.mem_map, List.mem_range]
  refine ⟨t.var1.index, hrange t ht, u, ?_, ?_⟩
  · exact (mem_columnTerms ord hord qTerms _ u).mpr ⟨_, hu⟩
  · simp [indexPair, hspec.2.1, hspec.2.2]

/-- When no index pair is repeated and every first index is a column, one entry is
emitted per quadratic term. -/
theorem length_emittedPairs_eq (ord : GoMap (QuadraticTerm F) → GoMap (QuadraticTerm F))
    (hord : ∀ m, (ord m).Perm m) (qTerms : List (QuadraticTerm F)) (n : Nat)
    (hrange : ∀ t ∈ qTerms, t.var1.index < n)
    (hnodup : (qTerms.map indexPair).Nodup) :
    (emittedPairs ord qTerms n).length = qTerms.length := by
  apply Nat.le_antisymm (length_emittedPairs_le ord hord qTerms n)
  have h := (List.subperm_of_subset hnodup
    (subset_emittedPairs ord hord qTerms n hrange)).length_le
  simpa using h

/-! ## Closed form of `prepareHessian` and of `newHighsInput` -/

theorem prepareHessianTerms_eq [Mul F] [OfNat F 2] (terms : List (QuadraticTerm F)) :
    ∀ input : highsInput F,
      terms.foldl prepareHessianTerm input = { input with
        hessianMatrixIndices :=
          input.hessianMatrixIndices ++ terms.map (fun t => t.var2.index),
        hessianMatrixValues := input.hessianMatrixValues ++ terms.map hessianValue } := by
  induction terms with
  | nil => intro input; simp
  | cons t ts ih =>
    intro input
    rw [List.foldl_cons, ih]
    simp [prepareHessianTerm, hessianValue]

theorem prepareHessianColumn_eq [Mul F] [OfNat F 2]
    (ord : GoMap (QuadraticTerm F) → GoMap (QuadraticTerm F))
    (qMat : GoMap (GoMap (QuadraticTerm F))) (input : highsInput F) (nonZeros i : Nat) :
    prepareHessianColumn ord qMat (input, nonZeros) i =
      ({ input with
          hessianMatrixBegins := input.hessianMatrixBegins ++ [nonZeros],
          hessianMatrixIndices :=
            input.hessianMatrixIndices ++ (columnTerms ord qMat i).map (fun t => t.var2.index),
          hessianMatrixValues :=
            input.hessianMatrixValues ++ (columnTerms ord qMat i).map hessianValue },
        nonZeros + (columnTerms ord qMat i).length) := by
  unfold prepareHessianColumn columnTerms
  cases qMat.get? i with
  | none => simp
  | some row => simp [prepareHessianTerms_eq]

theorem prepareHessianColumns_eq [Mul F] [OfNat F 2]
    (ord : GoMap (QuadraticTerm F) → GoMap (QuadraticTerm F))
    (qMat : GoMap (GoMap (QuadraticTerm F))) (cols : List Nat) :
    ∀ (input : highsInput F) (nonZeros : Nat),
      cols.foldl (prepareHessianColumn ord qMat) (input, nonZeros) =
        ({ input with
            hessianMatrixBegins := input.hessianMatrixBegins ++
              beginOffsets nonZeros (cols.map (fun i => (columnTerms ord qMat i).length)),
            hessianMatrixIndices := input.hessianMatrixIndices ++
              cols.flatMap (fun i => (columnTerms ord qMat i).map (fun t => t.var2.index)),
            hessianMatrixValues := input.hessianMatrixValues ++
              cols.flatMap (fun i => (columnTerms ord qMat i).map hessianValue) },
          nonZeros + (cols.map (fun i => (columnTerms ord qMat i).length)).sum) := by
  induction cols with
  | nil => intro input nonZeros; simp [beginOffsets]
  | cons i cols ih =>
    intro input nonZeros
    rw [List.foldl_cons, prepareHessianColumn_eq, ih]
    simp [beginOffsets, Nat.add_assoc]

/-- Closed form of `prepareHessian`: only the Hessian fields change; the begin
offsets are those of the emitted columns followed by the sentinel
`len(qTerms)`. -/
theorem prepareHessian_eq [Mul F] [OfNat F 2]
    (ord : GoMap (QuadraticTerm F) → GoMap (QuadraticTerm F))
    (input : highsInput F) (model : Model F) :
    prepareHessian ord input model = { input with
      numQuadraticNonZeros := model.objective.quadraticTerms.length,
      hessianMatrixBegins :=
        beginOffsets 0 ((List.range input.numColumns).map (fun i =>
          (columnTerms ord (groupQuadraticTerms model.objective.quadraticTerms) i).length))
        ++ [model.objective.quadraticTerms.length],
      hessianMatrixIndices :=
        (List.range input.numColumns).flatMap (fun i =>
          (columnTerms ord (groupQuadraticTerms model.objective.quadraticTerms) i).map
            (fun t => t.var2.index)),
      hessianMatrixValues :=
        (List.range input.numColumns).flatMap (fun i =>
          (columnTerms ord (groupQuadraticTerms model.objective.quadraticTerms) i).map
            hessianValue) } := by
  unfold prepareHessian
  simp only [prepareHessianColumns_eq]
  simp

theorem length_hessianMatrixIndices [Mul F] [OfNat F 2]
    (ord : GoMap (QuadraticTerm F) → GoMap (QuadraticTerm F))
    (input : highsInput F) (model : Model F) :
    (prepareHessian ord input model).hessianMatrixIndices.length =
      (emittedPairs ord model.objective.quadraticTerms input.numColumns).length := by
  rw [prepareHessian_eq, length_emittedPairs]
  show (List.flatMap _ _).length = _
  generalize List.range input.numColumns = cols
  induction cols with
  | nil => rfl
  | cons c cols ih => simp [List.flatMap_cons, ih]

theorem length_hessianMatrixValues [Mul F] [OfNat F 2]
    (ord : GoMap (QuadraticTerm F) → GoMap (QuadraticTerm F))
    (input : highsInput F) (model : Model F) :
    (prepareHessian ord input model).hessianMatrixValues.length =
      (emittedPairs ord model.objective.quadraticTerms input.numColumns).length := by
  rw [prepareHessian_eq, length_emittedPairs]
  show (List.flatMap _ _).length = _
  generalize List.range input.numColumns = cols
  induction cols with
  | nil => rfl
  | cons c cols ih => simp [List.flatMap_cons, ih]

/-- Reading column `c` back from the arrays, between its begin offset and the next
one, gives the entries emitted for it. -/
theorem hessianColumn_prepareHessian [Mul F] [OfNat F 2]
    (ord : GoMap (QuadraticTerm F) → GoMap (QuadraticTerm F))
    (hord : ∀ m, (ord m).Perm m) (input : highsInput F) (model : Model F)
    (c : Nat) (hc : c < input.numColumns) :
    hessianColumn (prepareHessian ord input model) c =
      (columnTerms ord (groupQuadraticTerms model.objective.quadraticTerms) c).map
        (fun t => (t.var2.index, hessianValue t)) := by
  rw [prepareHessian_eq]
  unfold hessianColumn
  simp only [zip_flatMap_map]
  set qs := model.objective.quadraticTerms with hqs
  set len := fun i => (columnTerms ord (groupQuadraticTerms qs) i).length with hlen
  set n := input.numColumns with hn
  have hle : (((List.range n).map len)).sum ≤ qs.length := by
    rw [← length_emittedPairs]
    exact length_emittedPairs_le ord hord qs n
  have hb : (beginOffsets 0 ((List.range n).map len) ++ [qs.length]).getD c 0
      = (((List.range n).map len).take c).sum := by
    rw [List.getD_eq_getElem?_getD, List.getElem?_append_left
      (by simpa [length_beginOffsets] using hc),
      beginOffsets_getElem? _ _ _ (by simpa using hc)]
    simp
  have he : (((List.range n).map len).take c).sum + len c
      ≤ (beginOffsets 0 ((List.range n).map len) ++ [qs.length]).getD (c + 1) 0 ∧
      ((List.range n).drop (c + 1) ≠ [] →
        (beginOffsets 0 ((List.range n).map len) ++ [qs.length]).getD (c + 1) 0
          = (((List.range n).map len).take c).sum + len c) := by
    rw [← sum_take_succ_map len n c hc]
    by_cases hlt : c + 1 < n
    · have : (beginOffsets 0 ((List.range n).map len) ++ [qs.length]).getD (c + 1) 0
          = (((List.range n).map len).take (c + 1)).sum := by
        rw [List.getD_eq_getElem?_getD, List.getElem?_append_left
          (by simpa [length_beginOffsets] using hlt),
          beginOffsets_getElem? _ _ _ (by simpa using hlt)]
        simp
      rw [this]
      exact ⟨Nat.le_refl _, fun _ => rfl⟩
    · have hcn : c + 1 = n := by omega
      have : (beginOffsets 0 ((List.range n).map len) ++ [qs.length]).getD (c + 1) 0
          = qs.length := by
        rw [List.getD_eq_getElem?_getD, List.getElem?_append_right
          (by simp [length_beginOffsets, hcn])]
        simp [length_beginOffsets, hcn]
      rw [this]
      refine ⟨?_, fun hne => absurd ?_ hne⟩
      · rw [List.take_of_length_le (by simp [hcn])]
        exact hle
      · simp [hcn]
  rw [hb]
  have hsplit := range_split n c hc
  have hdrop : ((List.range n).flatMap (fun i =>
        (columnTerms ord (groupQuadraticTerms qs) i).map
          (fun t => (t.var2.index, hessianValue t)))).drop
        ((((List.range n).map len).take c).sum)
      = (columnTerms ord (groupQuadraticTerms qs) c).map
          (fun t => (t.var2.index, hessianValue t)) ++
        ((List.range n).drop (c + 1)).flatMap (fun i =>
          (columnTerms ord (groupQuadraticTerms qs) i).map
            (fun t => (t.var2.index, hessianValue t))) := by
    have := flatMap_drop_block (fun i =>
        (columnTerms ord (groupQuadraticTerms qs) i).map
          (fun t => (t.var2.index, hessianValue t)))
      ((List.range n).take c) ((List.range n).drop (c + 1)) c
    rw [← hsplit] at this
    simp only [List.length_map] at this
    rw [← List.map_take]
    exact this
  rw [hdrop]
  by_cases hrest : (List.range n).drop (c + 1) = []
  · rw [hrest]
    simp only [List.flatMap_nil, List.append_nil]
    apply List.take_of_length_le
    simp only [List.length_map]
    exact Nat.le_sub_of_add_le (Nat.add_comm _ _ ▸ he.1)
  · rw [he.2 hrest]
    apply List.take_left'
    simp [hlen]

theorem hessianColumnRows_eq [Mul F] [OfNat F 2]
    (ord : GoMap (QuadraticTerm F) → GoMap (QuadraticTerm F))
    (input : highsInput F) (model : Model F) (c : Nat) :
    hessianColumnRows (prepareHessian ord input model) c =
      (hessianColumn (prepareHessian ord input model) c).map Prod.fst := by
  unfold hessianColumnRows hessianColumn
  rw [List.map_take, List.map_drop, List.map_fst_zip]
  rw [length_hessianMatrixIndices, length_hessianMatrixValues]

/-- Closed form of `newHighsInput`, for a model whose variables and objective terms
have an index below the number of variables. -/
theorem newHighsInput_eq [Zero F] [Neg F] [Mul F] [OfNat F 2] (K : HighsConstants)
    (ord : GoMap (QuadraticTerm F) → GoMap (QuadraticTerm F))
    (model : Model F) (infinity : F) (start : Nat)
    (hv : ∀ v ∈ model.vars, v.index < model.vars.length)
    (ht : ∀ t ∈ model.objective.terms, t.var.index < model.vars.length) :
    newHighsInput K ord model infinity start = some
      { start := start,
        rowUpperBound := (constraintsWithTerms model.constraints).map (rowUpperOf infinity),
        rowLowerBound := (constraintsWithTerms model.constraints).map (rowLowerOf infinity),
        columnCosts :=
          scatter (scatter (List.replicate model.vars.length 0)
              (model.vars.map (fun v => (v.index, (0 : F)))))
            (model.objective.terms.map (fun t => (t.var.index, t.coefficient))),
        columnLowerBound :=
          scatter (List.replicate model.vars.length 0)
            (model.vars.map (fun v => (v.index, v.lowerBound))),
        columnUpperBound :=
          scatter (List.replicate model.vars.length 0)
            (model.vars.map (fun v => (v.index, v.upperBound))),
        rowConstraintMatrixIndices := flatIndices (constraintsWithTerms model.constraints),
        rowConstraintMatrixBegins := csrBegins 0 (constraintsWithTerms model.constraints),
        rowConstraintMatrixValues := flatValues (constraintsWithTerms model.constraints),
        hessianMatrixIndices :=
          (List.range model.vars.length).flatMap (fun i =>
            (columnTerms ord (groupQuadraticTerms model.objective.quadraticTerms) i).map
              (fun t => t.var2.index)),
        hessianMatrixBegins :=
          beginOffsets 0 ((List.range model.vars.length).map (fun i =>
            (columnTerms ord (groupQuadraticTerms model.objective.quadraticTerms) i).length))
          ++ [model.objective.quadraticTerms.length],
        hessianMatrixValues :=
          (List.range model.vars.length).flatMap (fun i =>
            (columnTerms ord (groupQuadraticTerms model.objective.quadraticTerms) i).map
              hessianValue),
        columnIntegrality :=
          scatter (List.replicate model.vars.length 0)
            (model.vars.map (fun v => (v.index, mapVarTypeToIntegrality K v))),
        numNonZeros := termCount (constraintsWithTerms model.constraints),
        numQuadraticNonZeros := model.objective.quadraticTerms.length,
        numColumns := model.vars.length,
        numRows := (constraintsWithTerms model.constraints).length,
        sense := if model.objective.isMaximize then K.kHighsObjSenseMaximize
                 else K.kHighsObjSenseMinimize,
        isIntegerProblem := anyInteger K model.vars,
        isQuadraticProblem := decide (model.objective.quadraticTerms.length > 0) } := by
  unfold newHighsInput
  simp only [Option.bind_eq_bind, Option.pure_def]
  rw [prepareColumns_eq K _ model _ infinity (by simpa using hv) (by simpa using ht)]
  simp only [Option.some_bind]
  rw [prepareConstraintMatrix_eq _ _ infinity (by simp) (by simp)]
  simp only [Option.some_bind, prepareHessian_eq]
  cases model.objective.isMaximize <;> simp [highsInput.new]

/-! ## Independence of the enumeration order and of the time stamp -/

/-- A column is determined by the grouping map, whatever the order in which the
inner map is enumerated: two sorted enumerations of entries with pairwise
distinct row indices coincide. -/
theorem columnTerms_ord_irrelevant
    (ord₁ ord₂ : GoMap (QuadraticTerm F) → GoMap (QuadraticTerm F))
    (h₁ : ∀ m, (ord₁ m).Perm m) (h₂ : ∀ m, (ord₂ m).Perm m)
    (qTerms : List (QuadraticTerm F)) (c : Nat) :
    columnTerms ord₁ (groupQuadraticTerms qTerms) c
      = columnTerms ord₂ (groupQuadraticTerms qTerms) c := by
  haveI : IsAntisymm (QuadraticTerm F) (fun a b => a.var2.index < b.var2.index) :=
    ⟨fun a b hab hba => absurd hab (Nat.lt_asymm hba)⟩
  have hs₁ := columnTerms_strictly_sorted ord₁ h₁ qTerms c
  have hs₂ := columnTerms_strictly_sorted ord₂ h₂ qTerms c
  rw [List.pairwise_map] at hs₁ hs₂
  refine List.eq_of_perm_of_sorted ?_ hs₁ hs₂
  unfold columnTerms
  cases (groupQuadraticTerms qTerms).get? c with
  | none => exact List.Perm.refl _
  | some row =>
    exact (List.perm_insertionSort _ _).trans
      (((h₁ row).trans (h₂ row).symm).map _ |>.trans (List.perm_insertionSort _ _).symm)

theorem prepareHessian_ord_irrelevant [Mul F] [OfNat F 2]
    (ord₁ ord₂ : GoMap (QuadraticTerm F) → GoMap (QuadraticTerm F))
    (h₁ : ∀ m, (ord₁ m).Perm m) (h₂ : ∀ m, (ord₂ m).Perm m)
    (input : highsInput F) (model : Model F) :
    prepareHessian ord₁ input model = prepareHessian ord₂ input model := by
  rw [prepareHessian_eq, prepareHessian_eq]
  simp only [columnTerms_ord_irrelevant ord₁ ord₂ h₁ h₂]

theorem newHighsInput_ord_irrelevant [Zero F] [Neg F] [Mul F] [OfNat F 2]
    (K : HighsConstants)
    (ord₁ ord₂ : GoMap (QuadraticTerm F) → GoMap (QuadraticTerm F))
    (h₁ : ∀ m, (ord₁ m).Perm m) (h₂ : ∀ m, (ord₂ m).Perm m)
    (model : Model F) (infinity : F) (start : Nat) :
    newHighsInput K ord₁ model infinity start = newHighsInput K ord₂ model infinity start := by
  unfold newHighsInput
  simp only [prepareHessian_ord_irrelevant ord₁ ord₂ h₁ h₂]

/-- For a model whose variables and objective terms have an index below the
number of variables, `newHighsInput` returns, with `isIntegerProblem` set when
some variable is mapped to the integer type and `numColumns` the number of
variables. -/
theorem newHighsInput_some [Zero F] [Neg F] [Mul F] [OfNat F 2] (K : HighsConstants)
    (ord : GoMap (QuadraticTerm F) → GoMap (QuadraticTerm F))
    (model : Model F) (infinity : F) (start : Nat)
    (hv : ∀ v ∈ model.vars, v.index < model.vars.length)
    (ht : ∀ t ∈ model.objective.terms, t.var.index < model.vars.length) :
    ∃ input, newHighsInput K ord model infinity start = some input ∧
      input.isIntegerProblem = anyInteger K model.vars ∧
      input.numColumns = model.vars.length :=
  ⟨_, newHighsInput_eq K ord model infinity start hv ht, rfl, rfl⟩

theorem newHighsInput_withStart [Zero F] [Neg F] [Mul F] [OfNat F 2]
    (K : HighsConstants) (ord : GoMap (QuadraticTerm F) → GoMap (QuadraticTerm F))
    (model : Model F) (infinity : F) (start : Nat)
    (hv : ∀ v ∈ model.vars, v.index < model.vars.length)
    (ht : ∀ t ∈ model.objective.terms, t.var.index < model.vars.length) :
    newHighsInput K ord model infinity start
      = (newHighsInput K ord model infinity 0).map (withStart start) := by
  rw [newHighsInput_eq K ord model infinity start hv ht,
    newHighsInput_eq K ord model infinity 0 hv ht]
  rfl

theorem mem_hessianColumn_term [Mul F] [OfNat F 2]
    (ord : GoMap (QuadraticTerm F) → GoMap (QuadraticTerm F))
    (hord : ∀ m, (ord m).Perm m) (input : highsInput F) (model : Model F)
    (c r : Nat) (v : F) (hc : c < input.numColumns)
    (h : (r, v) ∈ hessianColumn (prepareHessian ord input model) c) :
    ∃ t ∈ model.objective.quadraticTerms, t.var1.index = c ∧ t.var2.index = r := by
  rw [hessianColumn_prepareHessian ord hord input model c hc] at h
  simp only [List.mem_map, Prod.mk.injEq] at h
  obtain ⟨t, ht, hr, _⟩ := h
  have := columnTerms_var1 ord hord _ c t ht
  exact ⟨t, this.1, this.2, hr⟩

/-! ## The calls made by `handleOptions` -/

theorem Step.andThen_none (log : List (EngineCall F))
    (next : List (EngineCall F) → Step F) :
    Step.andThen (none, log) next = next log := rfl

theorem Step.andThen_some (err : SolveError F) (log : List (EngineCall F))
    (next : List (EngineCall F) → Step F) :
    Step.andThen (some err, log) next = (some err, log) := rfl

theorem Step.snd_ite (c : Prop) [Decidable c] (err : SolveError F)
    (log : List (EngineCall F)) :
    (if c then (some err, log) else (none, log) : Step F).2 = log := by
  split <;> rfl

theorem SetterCalls.refl (log : List (EngineCall F)) : SetterCalls log log :=
  ⟨[], by simp, by simp⟩

theorem SetterCalls.trans {a b c : List (EngineCall F)} (h₁ : SetterCalls a b)
    (h₂ : SetterCalls b c) : SetterCalls a c := by
  obtain ⟨x, rfl, hx⟩ := h₁
  obtain ⟨y, rfl, hy⟩ := h₂
  refine ⟨x ++ y, by simp, ?_⟩
  intro d hd
  rcases List.mem_append.mp hd with h | h
  · exact hx d h
  · exact hy d h

theorem SetterCalls.single (log : List (EngineCall F)) (c : EngineCall F)
    (hc : c.isSetter = true) : SetterCalls log (log ++ [c]) :=
  ⟨[c], rfl, by simpa using hc⟩

theorem SetterCalls.andThen {log : List (EngineCall F)} {r : Step F}
    {next : List (EngineCall F) → Step F} (h₁ : SetterCalls log r.2)
    (h₂ : ∀ mid, SetterCalls mid (next mid).2) : SetterCalls log (r.andThen next).2 := by
  obtain ⟨e, mid⟩ := r
  cases e with
  | none => exact h₁.trans (h₂ mid)
  | some err => exact h₁

theorem Step.andThen_extends (log : List (EngineCall F)) (r : Step F)
    (next : List (EngineCall F) → Step F) (h₁ : SetterCalls log r.2)
    (h₂ : ∀ mid, SetterCalls mid (next mid).2) :
    ∃ e rest, r.andThen next = (e, log ++ rest) := by
  obtain ⟨rest, hrest, _⟩ := SetterCalls.andThen h₁ h₂
  exact ⟨(r.andThen next).1, rest, Prod.ext rfl hrest⟩

theorem setDoubleOption_eq (S : HighsStatus) (E : Engine F) (log : List (EngineCall F))
    (name : String) (value : F) :
    setDoubleOption S E log name value =
      (if E.status (log ++ [EngineCall.setDoubleOptionValue name value]) ≠ S.kHighsStatusOk
        then some (SolveError.failedDoubleOption name value) else none,
       log ++ [EngineCall.setDoubleOptionValue name value]) := by
  unfold setDoubleOption
  simp only
  split <;> rfl

theorem setterCalls_setOutputFlag (S : HighsStatus) (E : Engine F)
    (log : List (EngineCall F)) (options : SolveOptions F) :
    SetterCalls log (setOutputFlag S E log options).2 := by
  unfold setOutputFlag
  simp only
  generalize (if options.verbosity = Verbosity.Off then (0 : Int) else 1) = flag
  split
  · exact SetterCalls.single log (EngineCall.setBoolOptionValue optionOutputFlag flag) rfl
  · rw [Step.snd_ite]
    exact (SetterCalls.single log (EngineCall.setBoolOptionValue optionOutputFlag flag) rfl).trans
      (SetterCalls.single _ (EngineCall.setIntOptionValue optionLogDevLevel _) rfl)

theorem setterCalls_setBoolOption (S : HighsStatus) (E : Engine F)
    (log : List (EngineCall F)) (name : String) (value : Bool) :
    SetterCalls log (setBoolOption S E log name value).2 := by
  unfold setBoolOption
  simp only [Step.snd_ite]
  exact SetterCalls.single log _ rfl

theorem setterCalls_setDoubleOption (S : HighsStatus) (E : Engine F)
    (log : List (EngineCall F)) (name : String) (value : F) :
    SetterCalls log (setDoubleOption S E log name value).2 := by
  unfold setDoubleOption
  simp only [Step.snd_ite]
  exact SetterCalls.single log _ rfl

theorem setterCalls_setIntOption (S : HighsStatus) (E : Engine F)
    (log : List (EngineCall F)) (name : String) (value : Int) :
    SetterCalls log (setIntOption S E log name value).2 := by
  unfold setIntOption
  simp only [Step.snd_ite]
  exact SetterCalls.single log _ rfl

theorem setterCalls_setStringOption (S : HighsStatus) (E : Engine F)
    (log : List (EngineCall F)) (name : String) (value : String) :
    SetterCalls log (setStringOption S E log name value).2 := by
  unfold setStringOption
  simp only [Step.snd_ite]
  exact SetterCalls.single log _ rfl

theorem setterCalls_forEachOption {α : Type} (set : List (EngineCall F) → α → Step F)
    (hset : ∀ log o, SetterCalls log (set log o).2) (l : List α) :
    ∀ log, SetterCalls log (forEachOption set log l).2 := by
  induction l with
  | nil => intro log; exact SetterCalls.refl log
  | cons o rest ih =>
    intro log
    exact SetterCalls.andThen (hset log o) ih

theorem setterCalls_handleControlOptions (S : HighsStatus) (E : Engine F)
    (log : List (EngineCall F)) (options : SolveOptions F) :
    SetterCalls log (handleControlOptions S E log options).2 := by
  unfold handleControlOptions
  cases options.controlToTyped with
  | error message => exact SetterCalls.refl log
  | ok controlOptions =>
    refine SetterCalls.andThen
      (setterCalls_forEachOption _ (fun _ _ => setterCalls_setBoolOption _ _ _ _ _) _ _) ?_
    intro mid
    refine SetterCalls.andThen
      (setterCalls_forEachOption _ (fun _ _ => setterCalls_setDoubleOption _ _ _ _ _) _ _) ?_
    intro mid
    refine SetterCalls.andThen
      (setterCalls_forEachOption _ (fun _ _ => setterCalls_setIntOption _ _ _ _ _) _ _) ?_
    intro mid
    exact setterCalls_forEachOption _ (fun _ _ => setterCalls_setStringOption _ _ _ _ _) _ _

theorem setterCalls_handleOptions (S : HighsStatus) (L : Library F) (E : Engine F)
    (log : List (EngineCall F)) (input : highsInput F) (options : SolveOptions F) :
    SetterCalls log (handleOptions S L E log input options).2 := by
  unfold handleOptions
  refine SetterCalls.andThen (setterCalls_setOutputFlag _ _ _ _) ?_
  intro mid
  refine SetterCalls.andThen (setterCalls_setDoubleOption _ _ _ _ _) ?_
  intro mid
  refine SetterCalls.andThen ?_ (fun mid => setterCalls_handleControlOptions _ _ _ _)
  split
  · exact SetterCalls.andThen (setterCalls_setDoubleOption _ _ _ _ _)
      (fun mid => setterCalls_setDoubleOption _ _ _ _ _)
  · exact SetterCalls.refl _

theorem setterCalls_after_time_limit (S : HighsStatus) (E : Engine F)
    (input : highsInput F) (options : SolveOptions F) (mid : List (EngineCall F)) :
    SetterCalls mid
      (Step.andThen
        (if input.isIntegerProblem then
          (setDoubleOption S E mid optionMipAbsGap options.mipGapAbsolute).andThen fun log =>
          setDoubleOption S E log optionMipRelGap options.mipGapRelative
         else (none, mid))
        (fun log => handleControlOptions S E log options)).2 := by
  refine SetterCalls.andThen ?_ (fun mid => setterCalls_handleControlOptions _ _ _ _)
  split
  · exact SetterCalls.andThen (setterCalls_setDoubleOption _ _ _ _ _)
      (fun mid => setterCalls_setDoubleOption _ _ _ _ _)
  · exact SetterCalls.refl _

/-- The part of `handleOptions` after `time_limit`: the two gap options when
the problem is integer, then the control options. Its log continues the given
one. -/
theorem handleOptions_after_time_limit (S : HighsStatus) (L : Library F) (E : Engine F)
    (log log1 : List (EngineCall F)) (input : highsInput F) (options : SolveOptions F)
    (hflag : setOutputFlag S E log options = (none, log1))
    (htime : E.status (log1 ++ [EngineCall.setDoubleOptionValue optionTimeLimit
      (L.durationSeconds options.duration)]) = S.kHighsStatusOk) :
    handleOptions S L E log input options =
      Step.andThen
        (if input.isIntegerProblem then
          (setDoubleOption S E
            (log1 ++ [EngineCall.setDoubleOptionValue optionTimeLimit
              (L.durationSeconds options.duration)])
            optionMipAbsGap options.mipGapAbsolute).andThen fun log =>
          setDoubleOption S E log optionMipRelGap options.mipGapRelative
         else (none, log1 ++ [EngineCall.setDoubleOptionValue optionTimeLimit
              (L.durationSeconds options.duration)]))
        (fun log => handleControlOptions S E log options) := by
  unfold handleOptions
  rw [hflag, Step.andThen_none, setDoubleOption_eq, htime]
  simp only [ne_eq, not_true_eq_false, if_false, Step.andThen_none]

/-! ## `Solve` on a mixed-integer quadratic program -/

theorem anyInteger_of_mem (K : HighsConstants) (vars : List (Var F)) (v : Var F)
    (hv : v ∈ vars) (h : v.isBool = true ∨ v.isInt = true) :
    anyInteger K vars = true := by
  unfold anyInteger
  rw [List.any_eq_true]
  refine ⟨v, hv, ?_⟩
  have : (v.isBool || v.isInt) = true := by
    rcases h with h | h <;> simp [h]
  simp [mapVarTypeToIntegrality, this]

theorem anyInteger_iff (K : HighsConstants)
    (hK : K.kHighsVarTypeContinuous ≠ K.kHighsVarTypeInteger) (vars : List (Var F)) :
    anyInteger K vars = true ↔ ∃ v ∈ vars, v.isBool = true ∨ v.isInt = true := by
  constructor
  · intro h
    unfold anyInteger at h
    rw [List.any_eq_true] at h
    obtain ⟨v, hv, hm⟩ := h
    refine ⟨v, hv, ?_⟩
    by_cases hb : (v.isBool || v.isInt) = true
    · simpa using hb
    · simp [mapVarTypeToIntegrality, hb, hK] at hm
  · rintro ⟨v, hv, h⟩
    exact anyInteger_of_mem K vars v hv h

/-- What `Solve` does for a model with a quadratic objective and an integer or
boolean variable once the handle is created: the input is built, the options
are applied by setter calls only, and the result is an error, the wrapped
option error or `errMiqpNotSupported`; the handle is then released. -/
theorem Solve_miqp [Zero F] [Neg F] [Mul F] [OfNat F 2] (K : HighsConstants)
    (S : HighsStatus) (L : Library F)
    (ord : GoMap (QuadraticTerm F) → GoMap (QuadraticTerm F)) (E : Engine F)
    (model : Model F) (options : SolveOptions F) (start finish : Nat)
    (hv : ∀ v ∈ model.vars, v.index < model.vars.length)
    (ht : ∀ t ∈ model.objective.terms, t.var.index < model.vars.length)
    (hq : L.isQuadratic model.objective = true)
    (hint : ∃ v ∈ model.vars, v.isBool = true ∨ v.isInt = true)
    (hcreate : E.createOk = true) :
    ∃ input added r,
      newHighsInput K ord model E.infinity start = some input ∧
      handleOptions S L E [EngineCall.create, EngineCall.getInfinity] input options
        = (r, [EngineCall.create, EngineCall.getInfinity] ++ added) ∧
      (∀ c ∈ added, c.isSetter = true) ∧
      Solve K S L ord E model options start finish =
        (Outcome.returned none
          (some (match r with
            | some err => SolveError.handlingOptions err
            | none => SolveError.errMiqpNotSupported)),
         [EngineCall.create, EngineCall.getInfinity] ++ added ++ [EngineCall.destroy]) := by
  obtain ⟨v, hvm, hvi⟩ := hint
  have hne : model.vars.length ≠ 0 := by
    intro h0
    rw [List.length_eq_zero] at h0
    rw [h0] at hvm
    simp at hvm
  obtain ⟨input, hin, hip, -⟩ := newHighsInput_some K ord model E.infinity start hv ht
  rw [anyInteger_of_mem K model.vars v hvm hvi] at hip
  obtain ⟨added, hadd, hset⟩ :=
    setterCalls_handleOptions S L E [EngineCall.create, EngineCall.getInfinity] input options
  refine ⟨input, added, (handleOptions S L E [EngineCall.create, EngineCall.getInfinity]
    input options).1, hin, Prod.ext rfl hadd, hset, ?_⟩
  have hsw : solveWithHandle K S L ord E [EngineCall.create] model options start finish =
      (Outcome.returned none
        (some (match (handleOptions S L E [EngineCall.create, EngineCall.getInfinity]
            input options).1 with
          | some err => SolveError.handlingOptions err
          | none => SolveError.errMiqpNotSupported)),
       [EngineCall.create, EngineCall.getInfinity] ++ added) := by
    unfold solveWithHandle
    simp only [List.singleton_append, hin]
    rcases hr : handleOptions S L E [EngineCall.create, EngineCall.getInfinity]
      input options with ⟨r, log⟩
    rw [hr] at hadd
    simp only at hadd
    cases r with
    | some err => simp [hadd]
    | none => simp [hq, hip, hadd]
  unfold Solve
  simp only [hne, if_false, hcreate, hsw]
  simp

theorem applyUntilRejected_append (S : HighsStatus) (E : Engine F)
    (log : List (EngineCall F)) (a b : List (EngineCall F × SolveError F)) :
    applyUntilRejected S E log (a ++ b) =
      (applyUntilRejected S E log a).andThen fun log => applyUntilRejected S E log b := by
  induction a generalizing log with
  | nil => rfl
  | cons p rest ih =>
    obtain ⟨c, err⟩ := p
    simp only [List.cons_append, applyUntilRejected]
    split
    · rfl
    · exact ih _

theorem setOutputFlag_eq_apply (S : HighsStatus) (E : Engine F)
    (log : List (EngineCall F)) (options : SolveOptions F) :
    setOutputFlag S E log options =
      applyUntilRejected S E log
        [(EngineCall.setBoolOptionValue optionOutputFlag
            (if options.verbosity = Verbosity.Off then 0 else 1),
          SolveError.failedVerbosityLevel),
         (EngineCall.setIntOptionValue optionLogDevLevel
            (match options.verbosity with
             | Verbosity.Low => 0
             | Verbosity.Medium => 1
             | Verbosity.High => 2
             | Verbosity.Off => 0),
          SolveError.failedReportLevel)] := by
  obtain ⟨v, d, a, r, c⟩ := options
  cases v <;> simp only [setOutputFlag, applyUntilRejected]

theorem setDoubleOption_eq_apply (S : HighsStatus) (E : Engine F)
    (log : List (EngineCall F)) (name : String) (value : F) :
    setDoubleOption S E log name value =
      applyUntilRejected S E log
        [(EngineCall.setDoubleOptionValue name value,
          SolveError.failedDoubleOption name value)] := by
  simp only [setDoubleOption, applyUntilRejected]

theorem forEachOption_eq_apply {α : Type} (S : HighsStatus) (E : Engine F)
    (set : List (EngineCall F) → α → Step F) (plan : α → EngineCall F × SolveError F)
    (h : ∀ log o, set log o = applyUntilRejected S E log [plan o])
    (log : List (EngineCall F)) (l : List α) :
    forEachOption set log l = applyUntilRejected S E log (l.map plan) := by
  induction l generalizing log with
  | nil => rfl
  | cons o rest ih =>
    have hfun : (fun log => forEachOption set log rest) =
        fun log => applyUntilRejected S E log (rest.map plan) := funext fun log => ih log
    rw [forEachOption, h, hfun, List.map_cons]
    exact (applyUntilRejected_append S E log [plan o] (rest.map plan)).symm

theorem Step.andThen_assoc (r : Step F) (f g : List (EngineCall F) → Step F) :
    (r.andThen f).andThen g = r.andThen fun log => (f log).andThen g := by
  obtain ⟨e, log⟩ := r
  cases e <;> rfl

theorem handleControlOptions_eq_apply (S : HighsStatus) (E : Engine F)
    (log : List (EngineCall F)) (options : SolveOptions F) (c : TypedControlOptions F)
    (hc : options.controlToTyped = Except.ok c) :
    handleControlOptions S E log options =
      applyUntilRejected S E log (plannedControlSetters c) := by
  have hb := forEachOption_eq_apply S E (fun log (o : String × Bool) =>
      setBoolOption S E log o.1 o.2)
    (fun o => (EngineCall.setBoolOptionValue o.1 (if o.2 then 1 else 0),
      SolveError.failedBoolOption o.1 o.2))
    (fun log o => by simp only [setBoolOption, applyUntilRejected])
  have hf := forEachOption_eq_apply S E (fun log (o : String × F) =>
      setDoubleOption S E log o.1 o.2)
    (fun o => (EngineCall.setDoubleOptionValue o.1 o.2,
      SolveError.failedDoubleOption o.1 o.2))
    (fun log o => by simp only [setDoubleOption, applyUntilRejected])
  have hi := forEachOption_eq_apply S E (fun log (o : String × Int) =>
      setIntOption S E log o.1 o.2)
    (fun o => (EngineCall.setIntOptionValue o.1 (cInt o.2),
      SolveError.failedIntOption o.1 o.2))
    (fun log o => by simp only [setIntOption, applyUntilRejected])
  have hs := forEachOption_eq_apply S E (fun log (o : String × String) =>
      setStringOption S E log o.1 o.2)
    (fun o => (EngineCall.setStringOptionValue o.1 o.2,
      SolveError.failedStringOption o.1 o.2))
    (fun log o => by simp only [setStringOption, applyUntilRejected])
  simp only [handleControlOptions, hc, plannedControlSetters, applyUntilRejected_append,
    hb, hf, hi, hs, Step.andThen_assoc]

theorem handleOptions_eq_apply (S : HighsStatus) (L : Library F) (E : Engine F)
    (log : List (EngineCall F)) (input : highsInput F) (options : SolveOptions F) :
    handleOptions S L E log input options =
      (applyUntilRejected S E log (plannedSetters L input options)).andThen fun log =>
        handleControlOptions S E log options := by
  unfold handleOptions plannedSetters
  rw [applyUntilRejected_append, setOutputFlag_eq_apply,
    show ∀ a b c : EngineCall F × SolveError F, [a, b, c] = [a, b] ++ [c] from
      fun _ _ _ => rfl,
    applyUntilRejected_append, Step.andThen_assoc, Step.andThen_assoc]
  congr 1
  funext log
  rw [setDoubleOption_eq_apply]
  congr 1
  funext log
  congr 1
  split
  · rw [show ∀ a b : EngineCall F × SolveError F, [a, b] = [a] ++ [b] from fun _ _ => rfl,
      applyUntilRejected_append, setDoubleOption_eq_apply]
    congr 1
  · rfl

theorem applyUntilRejected_first_rejected (S : HighsStatus) (E : Engine F)
    (calls : List (EngineCall F × SolveError F)) (log : List (EngineCall F))
    (i : Nat) (c : EngineCall F) (err : SolveError F)
    (hi : calls[i]? = some (c, err))
    (hbefore : ∀ j < i,
      E.status (log ++ (calls.take (j + 1)).map Prod.fst) = S.kHighsStatusOk)
    (hrej : E.status (log ++ (calls.take (i + 1)).map Prod.fst) ≠ S.kHighsStatusOk) :
    applyUntilRejected S E log calls =
      (some err, log ++ (calls.take (i + 1)).map Prod.fst) := by
  induction calls generalizing log i with
  | nil => simp at hi
  | cons p rest ih =>
    obtain ⟨c0, err0⟩ := p
    cases i with
    | zero =>
      simp only [List.getElem?_cons_zero, Option.some.injEq, Prod.mk.injEq] at hi
      obtain ⟨rfl, rfl⟩ := hi
      simp only [List.take_succ_cons, List.take_zero, List.map_cons, List.map_nil] at hrej
      simp only [applyUntilRejected, hrej, if_true, ne_eq, not_false_eq_true,
        List.take_succ_cons, List.take_zero, List.map_cons, List.map_nil]
    | succ i =>
      have h0 := hbefore 0 (Nat.succ_pos i)
      simp only [Nat.zero_add, List.take_succ_cons, List.take_zero, List.map_cons,
        List.map_nil] at h0
      simp only [applyUntilRejected, h0, ne_eq, not_true_eq_false, if_false]
      rw [ih (log ++ [c0]) i (by simpa using hi)
        (fun j hj => by
          have := hbefore (j + 1) (Nat.succ_lt_succ hj)
          simpa [List.take_succ_cons] using this)
        (by simpa [List.take_succ_cons] using hrej)]
      simp [List.take_succ_cons]

theorem applyUntilRejected_none (S : HighsStatus) (E : Engine F)
    (calls : List (EngineCall F × SolveError F)) (log : List (EngineCall F))
    (h : (applyUntilRejected S E log calls).1 = none) :
    applyUntilRejected S E log calls = (none, log ++ calls.map Prod.fst) ∧
    ∀ j < calls.length,
      E.status (log ++ (calls.take (j + 1)).map Prod.fst) = S.kHighsStatusOk := by
  induction calls generalizing log with
  | nil => exact ⟨by simp [applyUntilRejected], fun j hj => absurd hj (Nat.not_lt_zero j)⟩
  | cons p rest ih =>
    obtain ⟨c0, err0⟩ := p
    by_cases h0 : E.status (log ++ [c0]) = S.kHighsStatusOk
    · simp only [applyUntilRejected, h0, ne_eq, not_true_eq_false, if_false] at h ⊢
      obtain ⟨h1, h2⟩ := ih _ h
      refine ⟨by simpa using h1, fun j hj => ?_⟩
      cases j with
      | zero => simpa using h0
      | succ j =>
        have := h2 j (Nat.lt_of_succ_lt_succ hj)
        simpa [List.take_succ_cons] using this
    · simp [applyUntilRejected, h0] at h

theorem andThen_fst_none (r : Step F) (f : List (EngineCall F) → Step F)
    (h : (r.andThen f).1 = none) : r.1 = none := by
  obtain ⟨e, log⟩ := r
  cases e with
  | none => rfl
  | some e => exact h

theorem addrOfFirst_of_ne_nil {α : Type} (a : List α) (h : a ≠ []) :
    addrOfFirst a = some (Ptr.first a) := by
  cases a with
  | nil => exact absurd rfl h
  | cons x xs => rfl

theorem ne_nil_of_length_pos_eq {α : Type} (a : List α) (n : Nat) (h : a.length = n)
    (hn : 0 < n) : a ≠ [] := by
  intro ha
  rw [ha] at h
  exact absurd h.symm (Nat.pos_iff_ne_zero.mp hn)

theorem termCount_pos (cs : List (Constraint F)) (hne : cs ≠ [])
    (h : ∀ c ∈ cs, 0 < c.terms.length) : 0 < termCount cs := by
  cases cs with
  | nil => exact absurd rfl hne
  | cons c cs =>
    have hc := h c (List.mem_cons_self _ _)
    simp only [termCount, List.map_cons, List.sum_cons]
    omega

theorem constraintsWithTerms_terms_pos (cs : List (Constraint F)) :
    ∀ c ∈ constraintsWithTerms cs, 0 < c.terms.length := by
  intro c hc
  simp only [constraintsWithTerms, List.mem_filter, decide_eq_true_eq] at hc
  exact hc.2

theorem length_flatMap_columnTerms {β : Type}
    (ord : GoMap (QuadraticTerm F) → GoMap (QuadraticTerm F))
    (qTerms : List (QuadraticTerm F)) (n : Nat) (f : QuadraticTerm F → β) :
    ((List.range n).flatMap (fun i =>
      (columnTerms ord (groupQuadraticTerms qTerms) i).map f)).length =
      (emittedPairs ord qTerms n).length := by
  rw [length_emittedPairs]
  generalize List.range n = cols
  induction cols with
  | nil => rfl
  | cons c cols ih => simp [List.flatMap_cons, ih]

theorem emittedPairs_length_pos (ord : GoMap (QuadraticTerm F) → GoMap (QuadraticTerm F))
    (hord : ∀ m, (ord m).Perm m) (qTerms : List (QuadraticTerm F)) (n : Nat)
    (hrange : ∀ t ∈ qTerms, t.var1.index < n) (hne : 0 < qTerms.length) :
    0 < (emittedPairs ord qTerms n).length := by
  cases qTerms with
  | nil => exact absurd hne (Nat.lt_irrefl 0)
  | cons t ts =>
    have hmem : indexPair t ∈ emittedPairs ord (t :: ts) n :=
      subset_emittedPairs ord hord (t :: ts) n hrange (by simp)
    exact List.length_pos_of_mem hmem

/-- The buffers built by `newHighsInput` for a model whose variables and terms
are in range: the column arrays have one element per variable, the row arrays
are non-empty when a row is kept, and the Hessian arrays are non-empty when
there is a quadratic term. -/
theorem newHighsInput_buffers [Zero F] [Neg F] [Mul F] [OfNat F 2] (K : HighsConstants)
    (ord : GoMap (QuadraticTerm F) → GoMap (QuadraticTerm F))
    (hord : ∀ m, (ord m).Perm m)
    (model : Model F) (infinity : F) (start : Nat)
    (hv : ∀ v ∈ model.vars, v.index < model.vars.length)
    (ht : ∀ t ∈ model.objective.terms, t.var.index < model.vars.length)
    (hquad : ∀ t ∈ model.objective.quadraticTerms, t.var1.index < model.vars.length) :
    ∃ input, newHighsInput K ord model infinity start = some input ∧
      input.numColumns = model.vars.length ∧
      input.isIntegerProblem = anyInteger K model.vars ∧
      input.columnCosts.length = model.vars.length ∧
      input.columnLowerBound.length = model.vars.length ∧
      input.columnUpperBound.length = model.vars.length ∧
      input.columnIntegrality.length = model.vars.length ∧
      (0 < input.numRows →
        input.rowLowerBound ≠ [] ∧ input.rowUpperBound ≠ [] ∧
        input.rowConstraintMatrixBegins ≠ [] ∧ input.rowConstraintMatrixIndices ≠ [] ∧
        input.rowConstraintMatrixValues ≠ []) ∧
      (input.isQuadraticProblem = true →
        input.hessianMatrixBegins ≠ [] ∧ input.hessianMatrixIndices ≠ [] ∧
        input.hessianMatrixValues ≠ []) := by
  refine ⟨_, newHighsInput_eq K ord model infinity start hv ht, rfl, rfl, ?_, ?_, ?_, ?_,
    ?_, ?_⟩
  · simp [length_scatter]
  · simp [length_scatter]
  · simp [length_scatter]
  · simp [length_scatter]
  · intro hrows
    have hrows : 0 < (constraintsWithTerms model.constraints).length := hrows
    have hne : constraintsWithTerms model.constraints ≠ [] :=
      List.ne_nil_of_length_pos hrows
    have hcount := termCount_pos _ hne (constraintsWithTerms_terms_pos model.constraints)
    refine ⟨?_, ?_, ?_, ?_, ?_⟩
    · exact ne_nil_of_length_pos_eq _ _ (List.length_map _ _) hrows
    · exact ne_nil_of_length_pos_eq _ _ (List.length_map _ _) hrows
    · exact ne_nil_of_length_pos_eq _ _ (length_csrBegins _ _) hrows
    · exact ne_nil_of_length_pos_eq _ _ (length_flatIndices _) hcount
    · exact ne_nil_of_length_pos_eq _ _ (length_flatValues _) hcount
  · intro hq
    have hq : 0 < model.objective.quadraticTerms.length := by simpa using hq
    have hpos := emittedPairs_length_pos ord hord _ _ hquad hq
    refine ⟨?_, ?_, ?_⟩
    · exact List.append_ne_nil_of_right_ne_nil _ (List.cons_ne_nil _ _)
    · exact ne_nil_of_length_pos_eq _ _ (length_flatMap_columnTerms ord _ _ _) hpos
    · exact ne_nil_of_length_pos_eq _ _ (length_flatMap_columnTerms ord _ _ _) hpos

/-- When every array read under a guard is non-empty, the pointer preparation of
`solve` does not panic and yields the guarded arguments. -/
theorem passModelArgs_eq (input : highsInput F)
    (hrows : 0 < input.numRows →
      input.rowLowerBound ≠ [] ∧ input.rowUpperBound ≠ [] ∧
      input.rowConstraintMatrixBegins ≠ [] ∧ input.rowConstraintMatrixIndices ≠ [] ∧
      input.rowConstraintMatrixValues ≠ [])
    (hquad : input.isQuadraticProblem = true →
      input.hessianMatrixBegins ≠ [] ∧ input.hessianMatrixIndices ≠ [] ∧
      input.hessianMatrixValues ≠ [])
    (hcols : 0 < input.numColumns →
      input.columnCosts ≠ [] ∧ input.columnLowerBound ≠ [] ∧ input.columnUpperBound ≠ [])
    (hint : input.isIntegerProblem = true → input.columnIntegrality ≠ []) :
    passModelArgs input = some (guardedArgs input) := by
  unfold passModelArgs guardedArgs
  by_cases h1 : input.numRows > 0 <;> by_cases h2 : input.isQuadraticProblem = true <;>
    by_cases h3 : input.numColumns > 0 <;> by_cases h4 : input.isIntegerProblem = true
  all_goals
    simp only [h1, h2, h3, h4, if_true, if_false, Bool.false_eq_true]
    try (obtain ⟨r1, r2, r3, r4, r5⟩ := hrows h1
         rw [addrOfFirst_of_ne_nil _ r1, addrOfFirst_of_ne_nil _ r2,
           addrOfFirst_of_ne_nil _ r3, addrOfFirst_of_ne_nil _ r4,
           addrOfFirst_of_ne_nil _ r5])
    try (obtain ⟨q1, q2, q3⟩ := hquad h2
         rw [addrOfFirst_of_ne_nil _ q1, addrOfFirst_of_ne_nil _ q2,
           addrOfFirst_of_ne_nil _ q3])
    try (obtain ⟨c1, c2, c3⟩ := hcols h3
         rw [addrOfFirst_of_ne_nil _ c1, addrOfFirst_of_ne_nil _ c2,
           addrOfFirst_of_ne_nil _ c3])
    try rw [addrOfFirst_of_ne_nil _ (hint h4)]
    rfl

/-- The function `solve` when the pointer preparation succeeds and there is at
least one column: neither of its first-element accesses panics. -/
theorem solve_eq [Zero F] (S : HighsStatus) (E : Engine F) (log : List (EngineCall F))
    (input : highsInput F) (finish : Nat) (args : PassModelArgs F)
    (hargs : passModelArgs input = some args) (hcols : 0 < input.numColumns) :
    solve S E log input finish =
      if E.status (log ++ [EngineCall.passModel args]) ≠ S.kHighsStatusOk then
        (Outcome.returned (some (highsSolution.ofStatus statusUnknown))
          (some SolveError.errPassing), log ++ [EngineCall.passModel args])
      else if ¬ (E.status (log ++ [EngineCall.passModel args] ++ [EngineCall.run])
            = S.kHighsStatusOk ∨
          E.status (log ++ [EngineCall.passModel args] ++ [EngineCall.run])
            = S.kHighsStatusWarning) then
        (Outcome.returned (some (highsSolution.ofStatus statusUnknown)) none,
          log ++ [EngineCall.passModel args] ++ [EngineCall.run])
      else if E.status (log ++ [EngineCall.passModel args] ++ [EngineCall.run] ++
          [EngineCall.getModelStatus] ++
          [EngineCall.getSolution (decide (input.numRows > 0))]) ≠ S.kHighsStatusOk then
        (Outcome.returned (some (highsSolution.ofStatus statusUnknown))
          (some SolveError.errGetSolution),
          log ++ [EngineCall.passModel args] ++ [EngineCall.run] ++
            [EngineCall.getModelStatus] ++
            [EngineCall.getSolution (decide (input.numRows > 0))])
      else
        (Outcome.returned
          (some { objectiveValue :=
                    E.objectiveValue (log ++ [EngineCall.passModel args] ++
                      [EngineCall.run] ++ [EngineCall.getModelStatus] ++
                      [EngineCall.getSolution (decide (input.numRows > 0))] ++
                      [EngineCall.getObjectiveValue]),
                  runtime := (finish : Int) - (input.start : Int),
                  solutionStatus :=
                    E.modelStatus (log ++ [EngineCall.passModel args] ++
                      [EngineCall.run] ++ [EngineCall.getModelStatus]),
                  values :=
                    (List.range input.numColumns).map
                      (E.columnValue (log ++ [EngineCall.passModel args] ++
                        [EngineCall.run] ++ [EngineCall.getModelStatus] ++
                        [EngineCall.getSolution (decide (input.numRows > 0))])) }) none,
          log ++ [EngineCall.passModel args] ++ [EngineCall.run] ++
            [EngineCall.getModelStatus] ++
            [EngineCall.getSolution (decide (input.numRows > 0))] ++
            [EngineCall.getObjectiveValue]) := by
  obtain ⟨k, hk⟩ : ∃ k, input.numColumns = k + 1 := ⟨input.numColumns - 1, by omega⟩
  unfold solve
  rw [hargs]
  simp only [hk, List.replicate_succ, addrOfFirst]

theorem solve_ne_panic [Zero F] (S : HighsStatus) (E : Engine F)
    (log : List (EngineCall F)) (input : highsInput F) (finish : Nat)
    (args : PassModelArgs F) (hargs : passModelArgs input = some args)
    (hcols : 0 < input.numColumns) :
    (solve S E log input finish).1 ≠ Outcome.panic := by
  rw [solve_eq S E log input finish args hargs hcols]
  split_ifs <;> exact fun h => Outcome.noConfusion h

/-- What `Solve` does for a model with at least one variable when the handle is
created, the input is built, the options are accepted and the model is not a
mixed-integer quadratic program: it runs `solve` and releases the handle. -/
theorem Solve_eq_solve [Zero F] [Neg F] [Mul F] [OfNat F 2] (K : HighsConstants)
    (S : HighsStatus) (L : Library F)
    (ord : GoMap (QuadraticTerm F) → GoMap (QuadraticTerm F)) (E : Engine F)
    (model : Model F) (options : SolveOptions F) (start finish : Nat)
    (input : highsInput F)
    (hne : model.vars.length ≠ 0) (hcreate : E.createOk = true)
    (hinput : newHighsInput K ord model E.infinity start = some input)
    (haccept : (handleOptions S L E [EngineCall.create, EngineCall.getInfinity] input
      options).1 = none)
    (hmiqp : (L.isQuadratic model.objective && input.isIntegerProblem) = false) :
    Solve K S L ord E model options start finish =
      ((solve S E (handleOptions S L E [EngineCall.create, EngineCall.getInfinity] input
          options).2 input finish).1,
       (solve S E (handleOptions S L E [EngineCall.create, EngineCall.getInfinity] input
          options).2 input finish).2 ++ [EngineCall.destroy]) := by
  have hh : handleOptions S L E [EngineCall.create, EngineCall.getInfinity] input options =
      (none, (handleOptions S L E [EngineCall.create, EngineCall.getInfinity] input
        options).2) := Prod.ext haccept rfl
  unfold Solve
  simp only [hne, if_false, hcreate, Bool.true_eq_false]
  unfold solveWithHandle
  simp only [List.singleton_append, hinput]
  rw [hh]
  simp only [hmiqp, Bool.false_eq_true, if_false]

/-- The quadratic-term hypothesis of the buffer lemmas cannot be dropped: for a
model whose only quadratic term is over a variable outside the model,
`newHighsInput` marks the problem quadratic and emits no Hessian entry, and
`solve` panics on the first element of the empty index array. -/
theorem solve_foreign_quadratic_term_panics :
    0 < exForeignModel.vars.length ∧ DenseIndices exForeignModel ∧
    ∃ input, newHighsInput exConstants id exForeignModel 1000 0 = some input ∧
      input.isQuadraticProblem = true ∧ input.hessianMatrixIndices = [] ∧
      solve exStatus exEngine [] input 5 = (Outcome.panic, []) :=
  ⟨by decide, by unfold DenseIndices; decide, _, rfl, rfl, rfl, rfl⟩

theorem cInt_of_fits (value : Int) (hlow : -2147483648 ≤ value)
    (hhigh : value < 2147483648) : cInt value = value := by
  unfold cInt
  omega

theorem cInt_range (value : Int) : -2147483648 ≤ cInt value ∧ cInt value < 2147483648 := by
  unfold cInt
  omega

end Lemmas

/-! ## The claims -/

section Claims

variable {F : Type}

/-- Claim C1: the CSR layout built by `prepareConstraintMatrix`: for an input whose
`numRows` is the number of constraints and whose `numNonZeros` is the sum of
their term counts, the function returns; both flat arrays have length
`numNonZeros`; the begin offset of row `i` is the number of terms of the
constraints before `i`; and the `k`-th term of constraint `i` is stored at
position `begins[i] + k` with its variable index and its coefficient, whatever
the coefficient (zero included). -/
theorem prepareConstraintMatrix_csr_layout [Zero F] [Neg F] (input : highsInput F)
    (cs : List (Constraint F)) (infinity : F)
    (hrows : input.numRows = cs.length)
    (hnz : input.numNonZeros = (cs.map (fun c => c.terms.length)).sum) :
    ∃ out, prepareConstraintMatrix input cs infinity = some out ∧
      out.numNonZeros = input.numNonZeros ∧
      out.rowConstraintMatrixIndices.length = input.numNonZeros ∧
      out.rowConstraintMatrixValues.length = input.numNonZeros ∧
      ∀ (i : Nat) (c : Constraint F), cs[i]? = some c →
        out.rowConstraintMatrixBegins[i]?
          = some (((cs.take i).map (fun c => c.terms.length)).sum) ∧
        ∀ (k : Nat) (t : Term F), c.terms[k]? = some t →
          out.rowConstraintMatrixIndices[((cs.take i).map (fun c => c.terms.length)).sum + k]?
            = some t.var.index ∧
          out.rowConstraintMatrixValues[((cs.take i).map (fun c => c.terms.length)).sum + k]?
            = some t.coefficient := by
  refine ⟨_, prepareConstraintMatrix_eq input cs infinity hrows hnz, rfl, ?_, ?_, ?_⟩
  · simp [length_flatIndices, hnz, termCount]
  · simp [length_flatValues, hnz, termCount]
  · intro i c hc
    have hi : i < cs.length := by
      rcases List.getElem?_eq_some_iff.mp hc with ⟨h, _⟩
      exact h
    refine ⟨?_, ?_⟩
    · show (csrBegins 0 cs)[i]? = _
      rw [csrBegins, beginOffsets_getElem? _ _ _ (by simpa using hi)]
      simp [List.map_take]
    · intro k t ht
      have hk : k < c.terms.length := by
        rcases List.getElem?_eq_some_iff.mp ht with ⟨h, _⟩
        exact h
      constructor
      · show (flatIndices cs)[_]? = _
        have := flatMap_getElem? (fun c : Constraint F => c.terms.map (fun t => t.var.index))
          cs i k c hc (by simpa using hk)
        simp only [List.length_map] at this
        rw [flatIndices, this]
        simp [ht]
      · show (flatValues cs)[_]? = _
        have := flatMap_getElem? (fun c : Constraint F => c.terms.map (fun t => t.coefficient))
          cs i k c hc (by simpa using hk)
        simp only [List.length_map] at this
        rw [flatValues, this]
        simp [ht]

/-- Witness for C1: the example constraints, the first with a zero
coefficient. -/
theorem prepareConstraintMatrix_csr_layout_witness :
    exInput.numRows = exConstraints.length ∧
    exInput.numNonZeros = (exConstraints.map (fun c => c.terms.length)).sum ∧
    ∃ out, prepareConstraintMatrix exInput exConstraints 1000 = some out ∧
      out.rowConstraintMatrixIndices.length = exInput.numNonZeros ∧
      out.rowConstraintMatrixValues.length = exInput.numNonZeros :=
  ⟨by decide, by decide,
    (prepareConstraintMatrix_csr_layout exInput exConstraints 1000
      (by decide) (by decide)).imp fun _ h => ⟨h.1, h.2.2.1, h.2.2.2.1⟩⟩

/-- Counterexample for C2: for one constraint with one term the begin array is
`[0]`, so its last value is `0`, while `numNonZeros` and the number of appended
pairs are `1`. -/
theorem prepareConstraintMatrix_last_begin_counterexample :
    ∃ out, prepareConstraintMatrix exInputOneRow
        [{ terms := [⟨exY, 2⟩], sense := Sense.GreaterThanOrEqual, rightHandSide := 1 }]
        1000 = some out ∧
      out.rowConstraintMatrixBegins = [0] ∧
      out.rowConstraintMatrixBegins.getLast? = some 0 ∧
      out.rowConstraintMatrixIndices = [1] ∧
      out.rowConstraintMatrixValues = [2] ∧
      out.numNonZeros = 1 :=
  ⟨_, rfl, rfl, rfl, rfl, rfl, rfl⟩

/-- Claim C2, amended: for a non-empty list of constraints,
`rowConstraintMatrixBegins` is non-decreasing, `numNonZeros` is the length of
both flat arrays (the count of appended pairs), and the last begin offset is
the start of the last row: adding the last constraint's term count to it gives
`numNonZeros`. -/
theorem prepareConstraintMatrix_begins_sorted [Zero F] [Neg F] (input : highsInput F)
    (cs : List (Constraint F)) (infinity : F) (hne : cs ≠ [])
    (hrows : input.numRows = cs.length)
    (hnz : input.numNonZeros = (cs.map (fun c => c.terms.length)).sum) :
    ∃ out, prepareConstraintMatrix input cs infinity = some out ∧
      out.rowConstraintMatrixBegins.Pairwise (fun a b => a ≤ b) ∧
      out.numNonZeros = out.rowConstraintMatrixIndices.length ∧
      out.numNonZeros = out.rowConstraintMatrixValues.length ∧
      ∃ last b, cs.getLast? = some last ∧
        out.rowConstraintMatrixBegins.getLast? = some b ∧
        b + last.terms.length = out.numNonZeros := by
  refine ⟨_, prepareConstraintMatrix_eq input cs infinity hrows hnz, ?_, ?_, ?_, ?_⟩
  · exact beginOffsets_pairwise _ _
  · simp [length_flatIndices, hnz, termCount]
  · simp [length_flatValues, hnz, termCount]
  · rcases List.eq_nil_or_concat cs with h | ⟨init, last, h⟩
    · exact absurd h hne
    · rw [List.concat_eq_append] at h
      subst h
      refine ⟨last, (init.map (fun c => c.terms.length)).sum, by simp, ?_, ?_⟩
      · show (csrBegins 0 (init ++ [last])).getLast? = _
        simp [csrBegins, beginOffsets_append, beginOffsets]
      · show _ = input.numNonZeros
        simp [hnz]

/-- Witness for C2, amended: the example constraints. -/
theorem prepareConstraintMatrix_begins_sorted_witness :
    exConstraints ≠ [] ∧
    exInput.numRows = exConstraints.length ∧
    exInput.numNonZeros = (exConstraints.map (fun c => c.terms.length)).sum ∧
    ∃ out, prepareConstraintMatrix exInput exConstraints 1000 = some out ∧
      out.rowConstraintMatrixBegins.Pairwise (fun a b => a ≤ b) :=
  ⟨by decide, by decide, by decide,
    (prepareConstraintMatrix_begins_sorted exInput exConstraints 1000
      (by decide) (by decide) (by decide)).imp fun _ h => ⟨h.1, h.2.1⟩⟩

/-- Claim C3: `newHighsInput` returns with `numRows` the number of model
constraints that have at least one term; the rows are the kept constraints in
their original relative order (the row bounds, the begin offsets and the flat
arrays are those of the filtered list, row by row); and `rowLowerBound`,
`rowUpperBound` and `rowConstraintMatrixBegins` have length `numRows`. The
hypotheses say that the
variables, and the variables of the objective terms, have an index below the
number of variables. -/
theorem newHighsInput_rows [Zero F] [Neg F] [Mul F] [OfNat F 2] (K : HighsConstants)
    (ord : GoMap (QuadraticTerm F) → GoMap (QuadraticTerm F))
    (model : Model F) (infinity : F) (start : Nat)
    (hv : ∀ v ∈ model.vars, v.index < model.vars.length)
    (ht : ∀ t ∈ model.objective.terms, t.var.index < model.vars.length) :
    ∃ out, newHighsInput K ord model infinity start = some out ∧
      out.numRows = model.constraints.countP (fun c => decide (c.terms.length > 0)) ∧
      out.rowLowerBound.length = out.numRows ∧
      out.rowUpperBound.length = out.numRows ∧
      out.rowConstraintMatrixBegins.length = out.numRows ∧
      out.rowLowerBound =
        (model.constraints.filter (fun c => decide (c.terms.length > 0))).map
          (rowLowerOf infinity) ∧
      out.rowUpperBound =
        (model.constraints.filter (fun c => decide (c.terms.length > 0))).map
          (rowUpperOf infinity) ∧
      out.rowConstraintMatrixBegins =
        csrBegins 0 (model.constraints.filter (fun c => decide (c.terms.length > 0))) ∧
      out.rowConstraintMatrixIndices =
        flatIndices (model.constraints.filter (fun c => decide (c.terms.length > 0))) ∧
      out.rowConstraintMatrixValues =
        flatValues (model.constraints.filter (fun c => decide (c.terms.length > 0))) := by
  refine ⟨_, newHighsInput_eq K ord model infinity start hv ht, ?_, ?_, ?_, ?_,
    rfl, rfl, rfl, rfl, rfl⟩
  · simp [constraintsWithTerms, List.countP_eq_length_filter]
  · simp
  · simp
  · simp [length_csrBegins]

/-- Witness for C3: the example model, whose first constraint has no term. -/
theorem newHighsInput_rows_witness :
    (∀ v ∈ exModel.vars, v.index < exModel.vars.length) ∧
    (∀ t ∈ exModel.objective.terms, t.var.index < exModel.vars.length) ∧
    ∃ out, newHighsInput exConstants id exModel 1000 0 = some out ∧
      out.numRows = exModel.constraints.countP (fun c => decide (c.terms.length > 0)) :=
  ⟨by decide, by decide,
    (newHighsInput_rows exConstants id exModel 1000 0 (by decide) (by decide)).imp
      fun _ h => ⟨h.1, h.2.1⟩⟩

/-- Claim C4: the bounds of row `i`, built from a constraint with sense `s` and
right-hand side `rhs`: `(-infinity, rhs)` for `≤`, `(rhs, rhs)` for `=` and
`(rhs, infinity)` for `≥`, with `infinity` the engine-supplied value. -/
theorem prepareConstraintMatrix_row_bounds [Zero F] [Neg F] (input : highsInput F)
    (cs : List (Constraint F)) (infinity : F)
    (hrows : input.numRows = cs.length)
    (hnz : input.numNonZeros = (cs.map (fun c => c.terms.length)).sum) :
    ∃ out, prepareConstraintMatrix input cs infinity = some out ∧
      ∀ (i : Nat) (c : Constraint F), cs[i]? = some c →
        (c.sense = Sense.LessThanOrEqual →
          out.rowLowerBound[i]? = some (-infinity) ∧
          out.rowUpperBound[i]? = some c.rightHandSide) ∧
        (c.sense = Sense.Equal →
          out.rowLowerBound[i]? = some c.rightHandSide ∧
          out.rowUpperBound[i]? = some c.rightHandSide) ∧
        (c.sense = Sense.GreaterThanOrEqual →
          out.rowLowerBound[i]? = some c.rightHandSide ∧
          out.rowUpperBound[i]? = some infinity) := by
  refine ⟨_, prepareConstraintMatrix_eq input cs infinity hrows hnz, ?_⟩
  intro i c hc
  have hl : (cs.map (rowLowerOf infinity))[i]? = some (rowLowerOf infinity c) := by
    simp [hc]
  have hu : (cs.map (rowUpperOf infinity))[i]? = some (rowUpperOf infinity c) := by
    simp [hc]
  refine ⟨fun hs => ?_, fun hs => ?_, fun hs => ?_⟩ <;>
    (refine ⟨?_, ?_⟩
     · show (cs.map (rowLowerOf infinity))[i]? = _
       rw [hl]; simp [rowLowerOf, hs]
     · show (cs.map (rowUpperOf infinity))[i]? = _
       rw [hu]; simp [rowUpperOf, hs])

/-- Witness for C4: the example constraints. -/
theorem prepareConstraintMatrix_row_bounds_witness :
    exInput.numRows = exConstraints.length ∧
    exInput.numNonZeros = (exConstraints.map (fun c => c.terms.length)).sum ∧
    ∃ out, prepareConstraintMatrix exInput exConstraints 1000 = some out ∧
      out.rowLowerBound[0]? = some (-1000) ∧ out.rowUpperBound[0]? = some 9 :=
  ⟨by decide, by decide,
    (prepareConstraintMatrix_row_bounds exInput exConstraints 1000
      (by decide) (by decide)).imp fun _ h =>
        ⟨h.1, (h.2 0 _ rfl).1 rfl⟩⟩

/-- Claim C5: for a model with variable indices exactly `0 .. n-1`,
`prepareColumns` returns with the four column arrays of length
`n = numColumns`, and for each variable the lower and upper bound are copied
unchanged to its index and the integrality there is the integer type when the
variable is boolean or integer, the continuous type otherwise. -/
theorem prepareColumns_columns [Zero F] (K : HighsConstants) (input : highsInput F)
    (model : Model F) (cs : List (Constraint F)) (infinity : F)
    (hdense : DenseIndices model)
    (hobj : ∀ t ∈ model.objective.terms, t.var.index < model.vars.length)
    (hn : input.numColumns = model.vars.length) :
    ∃ out, prepareColumns K input model cs infinity = some out ∧
      out.numColumns = model.vars.length ∧
      out.columnCosts.length = model.vars.length ∧
      out.columnLowerBound.length = model.vars.length ∧
      out.columnUpperBound.length = model.vars.length ∧
      out.columnIntegrality.length = model.vars.length ∧
      ∀ v ∈ model.vars,
        out.columnLowerBound[v.index]? = some v.lowerBound ∧
        out.columnUpperBound[v.index]? = some v.upperBound ∧
        out.columnIntegrality[v.index]? =
          some (if v.isBool || v.isInt then K.kHighsVarTypeInteger
                else K.kHighsVarTypeContinuous) := by
  refine ⟨_, prepareColumns_eq K input model cs infinity
    (fun v hv => hn ▸ hdense.lt v hv) (fun t ht => hn ▸ hobj t ht), hn, ?_, ?_, ?_, ?_, ?_⟩
  · simp [length_scatter, hn]
  · simp [length_scatter, hn]
  · simp [length_scatter, hn]
  · simp [length_scatter, hn]
  · intro v hv
    have hlt := hdense.lt v hv
    refine ⟨?_, ?_, ?_⟩
    · exact scatter_getElem?_of_nodup (fun v : Var F => v.index) (fun v => v.lowerBound)
        model.vars hdense.nodup v hv _ (by simpa [hn] using hlt)
    · exact scatter_getElem?_of_nodup (fun v : Var F => v.index) (fun v => v.upperBound)
        model.vars hdense.nodup v hv _ (by simpa [hn] using hlt)
    · exact scatter_getElem?_of_nodup (fun v : Var F => v.index)
        (fun v => mapVarTypeToIntegrality K v)
        model.vars hdense.nodup v hv _ (by simpa [hn] using hlt)

/-- Witness for C5: the example model. -/
theorem prepareColumns_columns_witness :
    DenseIndices exModel ∧
    (∀ t ∈ exModel.objective.terms, t.var.index < exModel.vars.length) ∧
    exInput.numColumns = exModel.vars.length ∧
    ∃ out, prepareColumns exConstants exInput exModel exConstraints 1000 = some out ∧
      out.columnLowerBound.length = exModel.vars.length :=
  ⟨by unfold DenseIndices; decide, by decide, by decide,
    (prepareColumns_columns exConstants exInput exModel exConstraints 1000
      (by unfold DenseIndices; decide) (by decide) (by decide)).imp fun _ h =>
        ⟨h.1, h.2.2.2.1⟩⟩

/-- Claim C6: for a model with dense variable indices and any list of linear
objective terms, `columnCosts[i]` is the coefficient of the last objective term
that references variable `i`, and `0` when none does. -/
theorem prepareColumns_costs [Zero F] (K : HighsConstants) (input : highsInput F)
    (model : Model F) (cs : List (Constraint F)) (infinity : F)
    (hdense : DenseIndices model)
    (hobj : ∀ t ∈ model.objective.terms, t.var.index < model.vars.length)
    (hn : input.numColumns = model.vars.length) :
    ∃ out, prepareColumns K input model cs infinity = some out ∧
      out.columnCosts.length = model.vars.length ∧
      ∀ i, i < model.vars.length →
        out.columnCosts[i]? = some (lastCoefficient model.objective.terms i) := by
  refine ⟨_, prepareColumns_eq K input model cs infinity
    (fun v hv => hn ▸ hdense.lt v hv) (fun t ht => hn ▸ hobj t ht), ?_, ?_⟩
  · simp [length_scatter, hn]
  · intro i hi
    show (scatter _ _)[i]? = _
    rw [scatter_getElem?, List.filter_map, List.getLast?_map, lastCoefficient]
    have hfun : ((fun w : Nat × F => decide (w.1 = i)) ∘ fun t : Term F => (t.var.index, t.coefficient))
        = fun t : Term F => decide (t.var.index = i) := rfl
    rw [hfun]
    cases (model.objective.terms.filter (fun t => decide (t.var.index = i))).getLast? with
    | none =>
      simp only [Option.map_none']
      exact scatter_const_getElem? _ _ _ _ _ (hn ▸ hi)
    | some t => simp [length_scatter, hn, hi]

/-- Witness for C6: the example model, whose objective names `y` twice. -/
theorem prepareColumns_costs_witness :
    DenseIndices exModel ∧
    (∀ t ∈ exModel.objective.terms, t.var.index < exModel.vars.length) ∧
    exInput.numColumns = exModel.vars.length ∧
    ∃ out, prepareColumns exConstants exInput exModel exConstraints 1000 = some out ∧
      out.columnCosts[1]? = some (lastCoefficient exModel.objective.terms 1) :=
  ⟨by unfold DenseIndices; decide, by decide, by decide,
    (prepareColumns_costs exConstants exInput exModel exConstraints 1000
      (by unfold DenseIndices; decide) (by decide) (by decide)).imp fun _ h =>
        ⟨h.1, h.2.2 1 (by decide)⟩⟩

/-- Claim C7: for quadratic terms over variables with indices below
`numColumns`, `prepareHessian` stores, for each ordered pair
`(c, r) = (Var1 index, Var2 index)` that occurs in the list, an entry with row
index `r` in column `c`; an entry `(r, v)` is in column `c` exactly when some
term has the pair `(c, r)` and `v` comes from the last such term in input
order, its coefficient times 2 when `r = c` and its coefficient unchanged
otherwise; a column holds no row index twice; and the stored entries are those
of the columns and no others. -/
theorem prepareHessian_entries [Mul F] [OfNat F 2]
    (ord : GoMap (QuadraticTerm F) → GoMap (QuadraticTerm F))
    (hord : ∀ m, (ord m).Perm m) (input : highsInput F) (model : Model F)
    (hrange : ∀ t ∈ model.objective.quadraticTerms,
      t.var1.index < input.numColumns ∧ t.var2.index < input.numColumns) :
    (∀ t ∈ model.objective.quadraticTerms,
      ∃ v, (t.var2.index, v) ∈ hessianColumn (prepareHessian ord input model) t.var1.index) ∧
    (∀ c r v, c < input.numColumns →
      ((r, v) ∈ hessianColumn (prepareHessian ord input model) c ↔
        ∃ t, lastQuadraticTerm model.objective.quadraticTerms c r = some t ∧
          v = if r = c then t.coefficient * 2 else t.coefficient)) ∧
    (∀ c, c < input.numColumns →
      ((hessianColumn (prepareHessian ord input model) c).map Prod.fst).Nodup) ∧
    (prepareHessian ord input model).hessianMatrixIndices.zip
        (prepareHessian ord input model).hessianMatrixValues
      = (List.range input.numColumns).flatMap
          (hessianColumn (prepareHessian ord input model)) ∧
    (prepareHessian ord input model).hessianMatrixIndices.length
      = (prepareHessian ord input model).hessianMatrixValues.length := by
  have hiff : ∀ c r v, c < input.numColumns →
      ((r, v) ∈ hessianColumn (prepareHessian ord input model) c ↔
        ∃ t, lastQuadraticTerm model.objective.quadraticTerms c r = some t ∧
          v = if r = c then t.coefficient * 2 else t.coefficient) := by
    intro c r v hc
    rw [hessianColumn_prepareHessian ord hord input model c hc]
    simp only [List.mem_map, Prod.mk.injEq]
    constructor
    · rintro ⟨t, ht, hr, hv⟩
      obtain ⟨r', hr'⟩ := (mem_columnTerms ord hord _ c t).mp ht
      obtain ⟨_, h1, h2⟩ := lastQuadraticTerm_spec hr'
      have hrr : r' = r := by rw [← h2, hr]
      subst hrr
      refine ⟨t, hr', ?_⟩
      rw [← hv, hessianValue, h1, h2]
      by_cases h : c = r'
      · simp [h]
      · simp [h, Ne.symm h]
    · rintro ⟨t, ht, hv⟩
      obtain ⟨_, h1, h2⟩ := lastQuadraticTerm_spec ht
      refine ⟨t, (mem_columnTerms ord hord _ c t).mpr ⟨r, ht⟩, h2, ?_⟩
      rw [hv, hessianValue, h1, h2]
      by_cases h : c = r
      · simp [h]
      · simp [h, Ne.symm h]
  refine ⟨?_, hiff, ?_, ?_, ?_⟩
  · intro t ht
    obtain ⟨u, hu⟩ := lastQuadraticTerm_isSome ht
    exact ⟨_, (hiff _ _ _ (hrange t ht).1).mpr ⟨u, hu, rfl⟩⟩
  · intro c hc
    rw [hessianColumn_prepareHessian ord hord input model c hc, List.map_map]
    exact columnTerms_rows_nodup ord hord _ c
  · have hz : (prepareHessian ord input model).hessianMatrixIndices.zip
        (prepareHessian ord input model).hessianMatrixValues
        = (List.range input.numColumns).flatMap (fun i =>
            (columnTerms ord (groupQuadraticTerms model.objective.quadraticTerms) i).map
              (fun t => (t.var2.index, hessianValue t))) := by
      rw [prepareHessian_eq]
      exact zip_flatMap_map _ _ _ _
    rw [hz]
    apply flatMap_congr_mem
    intro c hc
    exact (hessianColumn_prepareHessian ord hord input model c (List.mem_range.mp hc)).symm
  · rw [length_hessianMatrixIndices, length_hessianMatrixValues]

/-- Witness for C7: the quadratic terms of the example model. -/
theorem prepareHessian_entries_witness :
    (∀ m : GoMap (QuadraticTerm Int), (id m).Perm m) ∧
    (∀ t ∈ exModel.objective.quadraticTerms,
      t.var1.index < exInput.numColumns ∧ t.var2.index < exInput.numColumns) ∧
    ((prepareHessian id exInput exModel).hessianMatrixIndices.zip
        (prepareHessian id exInput exModel).hessianMatrixValues
      = (List.range exInput.numColumns).flatMap
          (hessianColumn (prepareHessian id exInput exModel))) :=
  ⟨fun m => List.Perm.refl m, by decide,
    (prepareHessian_entries id (fun m => List.Perm.refl m) exInput exModel
      (by decide)).2.2.2.1⟩

/-- Claim C8: for every list of quadratic terms, the row indices stored in
`hessianMatrixIndices` between `hessianMatrixBegins[c]` and the next column's
begin offset are strictly increasing, for each column `c`. -/
theorem prepareHessian_rows_strictly_increasing [Mul F] [OfNat F 2]
    (ord : GoMap (QuadraticTerm F) → GoMap (QuadraticTerm F))
    (hord : ∀ m, (ord m).Perm m) (input : highsInput F) (model : Model F)
    (c : Nat) (hc : c < input.numColumns) :
    (hessianColumnRows (prepareHessian ord input model) c).Pairwise (fun a b => a < b) := by
  rw [hessianColumnRows_eq, hessianColumn_prepareHessian ord hord input model c hc,
    List.map_map]
  exact columnTerms_strictly_sorted ord hord _ c

/-- Witness for C8: column 0 of the example model. -/
theorem prepareHessian_rows_strictly_increasing_witness :
    (∀ m : GoMap (QuadraticTerm Int), (id m).Perm m) ∧ 0 < exInput.numColumns ∧
    (hessianColumnRows (prepareHessian id exInput exModel) 0).Pairwise (fun a b => a < b) :=
  ⟨fun m => List.Perm.refl m, by decide,
    prepareHessian_rows_strictly_increasing id (fun m => List.Perm.refl m) exInput exModel
      0 (by decide)⟩

/-- Claim C9: after `prepareHessian` the array `hessianMatrixBegins` has length
`numColumns + 1`, is non-decreasing over its whole length, and its last entry
is `numQuadraticNonZeros`. -/
theorem prepareHessian_begins [Mul F] [OfNat F 2]
    (ord : GoMap (QuadraticTerm F) → GoMap (QuadraticTerm F))
    (hord : ∀ m, (ord m).Perm m) (input : highsInput F) (model : Model F) :
    (prepareHessian ord input model).numColumns = input.numColumns ∧
    (prepareHessian ord input model).hessianMatrixBegins.length = input.numColumns + 1 ∧
    (prepareHessian ord input model).hessianMatrixBegins.Pairwise (fun a b => a ≤ b) ∧
    (prepareHessian ord input model).hessianMatrixBegins.getLast?
      = some (prepareHessian ord input model).numQuadraticNonZeros := by
  rw [prepareHessian_eq]
  refine ⟨rfl, ?_, ?_, ?_⟩
  · simp [length_beginOffsets]
  · show List.Pairwise _ (_ ++ _)
    rw [List.pairwise_append]
    refine ⟨beginOffsets_pairwise _ _, by simp, ?_⟩
    intro a ha b hb
    simp only [List.mem_singleton] at hb
    subst hb
    have h1 := beginOffsets_le _ _ a ha
    have h2 := length_emittedPairs_le ord hord model.objective.quadraticTerms input.numColumns
    rw [length_emittedPairs] at h2
    omega
  · show List.getLast? (_ ++ _) = _
    simp

/-- Witness for C9: the model with a repeated quadratic term. -/
theorem prepareHessian_begins_witness :
    (∀ m : GoMap (QuadraticTerm Int), (id m).Perm m) ∧
    (prepareHessian id exInputOneColumn exDupModel).hessianMatrixBegins.getLast?
      = some (prepareHessian id exInputOneColumn exDupModel).numQuadraticNonZeros :=
  ⟨fun m => List.Perm.refl m,
    (prepareHessian_begins id (fun m => List.Perm.refl m) exInputOneColumn exDupModel).2.2.2⟩

/-- Counterexample for C10: for the terms `1 x x` and `2 x x` over one variable
a single entry is stored (row 0, value `2 * 2`), so both arrays have length 1,
while `numQuadraticNonZeros` and the final begin offset are 2. -/
theorem prepareHessian_lengths_counterexample :
    (prepareHessian id exInputOneColumn exDupModel).hessianMatrixIndices = [0] ∧
    (prepareHessian id exInputOneColumn exDupModel).hessianMatrixValues = [4] ∧
    (prepareHessian id exInputOneColumn exDupModel).hessianMatrixBegins = [0, 2] ∧
    (prepareHessian id exInputOneColumn exDupModel).numQuadraticNonZeros = 2 :=
  ⟨by decide, by decide, by decide, by decide⟩

/-- Claim C10, amended: for quadratic terms whose first index is below
`numColumns` and of which no two have the same ordered pair
`(Var1 index, Var2 index)`, the arrays `hessianMatrixIndices` and
`hessianMatrixValues` both have length `numQuadraticNonZeros`, the value of the
final sentinel begin offset. -/
theorem prepareHessian_lengths [Mul F] [OfNat F 2]
    (ord : GoMap (QuadraticTerm F) → GoMap (QuadraticTerm F))
    (hord : ∀ m, (ord m).Perm m) (input : highsInput F) (model : Model F)
    (hrange : ∀ t ∈ model.objective.quadraticTerms, t.var1.index < input.numColumns)
    (hnodup : (model.objective.quadraticTerms.map indexPair).Nodup) :
    (prepareHessian ord input model).hessianMatrixIndices.length
      = (prepareHessian ord input model).numQuadraticNonZeros ∧
    (prepareHessian ord input model).hessianMatrixValues.length
      = (prepareHessian ord input model).numQuadraticNonZeros ∧
    (prepareHessian ord input model).hessianMatrixBegins.getLast?
      = some (prepareHessian ord input model).hessianMatrixIndices.length := by
  have hq : (prepareHessian ord input model).numQuadraticNonZeros
      = model.objective.quadraticTerms.length := by
    rw [prepareHessian_eq]
  have hl := length_emittedPairs_eq ord hord model.objective.quadraticTerms
    input.numColumns hrange hnodup
  refine ⟨?_, ?_, ?_⟩
  · rw [length_hessianMatrixIndices, hq, hl]
  · rw [length_hessianMatrixValues, hq, hl]
  · rw [length_hessianMatrixIndices, hl, prepareHessian_eq]
    show List.getLast? (_ ++ _) = _
    simp

/-- Witness for C10, amended: the quadratic terms of the example model. -/
theorem prepareHessian_lengths_witness :
    (∀ m : GoMap (QuadraticTerm Int), (id m).Perm m) ∧
    (∀ t ∈ exModel.objective.quadraticTerms, t.var1.index < exInput.numColumns) ∧
    (exModel.objective.quadraticTerms.map indexPair).Nodup ∧
    (prepareHessian id exInput exModel).hessianMatrixIndices.length
      = (prepareHessian id exInput exModel).numQuadraticNonZeros :=
  ⟨fun m => List.Perm.refl m, by decide, by decide,
    (prepareHessian_lengths id (fun m => List.Perm.refl m) exInput exModel
      (by decide) (by decide)).1⟩

/-- Counterexample for C11: for the example model, whose quadratic terms
include `2 x y` with `x` of index 0 and `y` of index 1, column 0 holds the
entry with row index 1, which is greater than the column index. -/
theorem prepareHessian_row_above_column_counterexample :
    hessianColumn (prepareHessian id exInput exModel) 0 = [(0, 2), (1, 2)] ∧
    (1, 2) ∈ hessianColumn (prepareHessian id exInput exModel) 0 ∧ ¬ (1 ≤ 0) := by
  decide

/-- Claim C11, amended: every entry in column `c` has as row index the second
index of a quadratic term whose first index is `c`; the builder keeps the
order of a term's two variables. Hence every row index in column `c` is at
most `c` when each term has its second index at most its first, and at least
`c` when each term has its first index at most its second. -/
theorem prepareHessian_triangular [Mul F] [OfNat F 2]
    (ord : GoMap (QuadraticTerm F) → GoMap (QuadraticTerm F))
    (hord : ∀ m, (ord m).Perm m) (input : highsInput F) (model : Model F) :
    (∀ c r v, c < input.numColumns →
      (r, v) ∈ hessianColumn (prepareHessian ord input model) c →
      ∃ t ∈ model.objective.quadraticTerms, t.var1.index = c ∧ t.var2.index = r) ∧
    ((∀ t ∈ model.objective.quadraticTerms, t.var2.index ≤ t.var1.index) →
      ∀ c r v, c < input.numColumns →
        (r, v) ∈ hessianColumn (prepareHessian ord input model) c → r ≤ c) ∧
    ((∀ t ∈ model.objective.quadraticTerms, t.var1.index ≤ t.var2.index) →
      ∀ c r v, c < input.numColumns →
        (r, v) ∈ hessianColumn (prepareHessian ord input model) c → c ≤ r) := by
  refine ⟨fun c r v hc h => mem_hessianColumn_term ord hord input model c r v hc h, ?_, ?_⟩
  · intro hle c r v hc h
    obtain ⟨t, ht, h1, h2⟩ := mem_hessianColumn_term ord hord input model c r v hc h
    have := hle t ht
    omega
  · intro hle c r v hc h
    obtain ⟨t, ht, h1, h2⟩ := mem_hessianColumn_term ord hord input model c r v hc h
    have := hle t ht
    omega

/-- Witness for C11, amended: the example model, whose terms have their first
index at most their second. -/
theorem prepareHessian_triangular_witness :
    (∀ m : GoMap (QuadraticTerm Int), (id m).Perm m) ∧
    (∀ t ∈ exModel.objective.quadraticTerms, t.var1.index ≤ t.var2.index) ∧
    (∀ c r v, c < exInput.numColumns →
      (r, v) ∈ hessianColumn (prepareHessian id exInput exModel) c → c ≤ r) :=
  ⟨fun m => List.Perm.refl m, by decide,
    (prepareHessian_triangular id (fun m => List.Perm.refl m) exInput exModel).2.2
      (by decide)⟩

/-- Claim C12: the assembled input does not depend on the order in which the
grouping map is enumerated: for any two enumeration orders `prepareHessian`
and `newHighsInput` give the same result; and two builds of the same model
with the same infinity value, at different times and with different
enumeration orders, give inputs that differ in the time stamp only. -/
theorem newHighsInput_deterministic [Zero F] [Neg F] [Mul F] [OfNat F 2]
    (K : HighsConstants)
    (ord₁ ord₂ : GoMap (QuadraticTerm F) → GoMap (QuadraticTerm F))
    (h₁ : ∀ m, (ord₁ m).Perm m) (h₂ : ∀ m, (ord₂ m).Perm m)
    (model : Model F) (infinity : F) :
    (∀ input, prepareHessian ord₁ input model = prepareHessian ord₂ input model) ∧
    (∀ start,
      newHighsInput K ord₁ model infinity start = newHighsInput K ord₂ model infinity start) ∧
    ((∀ v ∈ model.vars, v.index < model.vars.length) →
      (∀ t ∈ model.objective.terms, t.var.index < model.vars.length) →
      ∀ start₁ start₂, ∃ out,
        newHighsInput K ord₁ model infinity start₁ = some (withStart start₁ out) ∧
        newHighsInput K ord₂ model infinity start₂ = some (withStart start₂ out)) := by
  refine ⟨fun input => prepareHessian_ord_irrelevant ord₁ ord₂ h₁ h₂ input model,
    fun start => newHighsInput_ord_irrelevant K ord₁ ord₂ h₁ h₂ model infinity start, ?_⟩
  intro hv ht s₁ s₂
  obtain ⟨out, hout, -⟩ := newHighsInput_some K ord₁ model infinity 0 hv ht
  refine ⟨out, ?_, ?_⟩
  · rw [newHighsInput_withStart K ord₁ model infinity s₁ hv ht, hout]
    rfl
  · rw [← newHighsInput_ord_irrelevant K ord₁ ord₂ h₁ h₂,
      newHighsInput_withStart K ord₁ model infinity s₂ hv ht, hout]
    rfl

/-- Witness for C12: the example model, enumerated in map order and in
reverse. -/
theorem newHighsInput_deterministic_witness :
    (∀ m : GoMap (QuadraticTerm Int), (id m).Perm m) ∧
    (∀ m : GoMap (QuadraticTerm Int), (List.reverse m).Perm m) ∧
    newHighsInput exConstants id exModel 1000 0
      = newHighsInput exConstants List.reverse exModel 1000 0 :=
  ⟨fun m => List.Perm.refl m, fun m => List.reverse_perm m,
    (newHighsInput_deterministic exConstants id List.reverse (fun m => List.Perm.refl m)
      (fun m => List.reverse_perm m) exModel 1000).2.1 0⟩

/-- Claim C13: for every status code `s` of a `highsSolution`, `IsOptimal` and
`HasValues` hold exactly for `optimal` (7), `IsInfeasible` exactly for
`infeasible` (8) and `unboundedOrInfeasible` (9), `IsUnbounded` exactly for
`unbounded` (10) and `unboundedOrInfeasible` (9), `IsTimeOut` exactly for
`timeLimit` (13); for every other code, `statusUnknown` (15) included,
`HasValues` is false and no predicate is true. -/
theorem highsSolution_predicates (l : highsSolution F) :
    (l.IsOptimal = true ↔ l.solutionStatus = 7) ∧
    (l.HasValues = true ↔ l.solutionStatus = 7) ∧
    (l.IsInfeasible = true ↔ l.solutionStatus = 8 ∨ l.solutionStatus = 9) ∧
    (l.IsUnbounded = true ↔ l.solutionStatus = 10 ∨ l.solutionStatus = 9) ∧
    (l.IsTimeOut = true ↔ l.solutionStatus = 13) ∧
    (l.solutionStatus ≠ 7 ∧ l.solutionStatus ≠ 8 ∧ l.solutionStatus ≠ 9 ∧
        l.solutionStatus ≠ 10 ∧ l.solutionStatus ≠ 13 →
      l.HasValues = false ∧ l.IsOptimal = false ∧ l.IsInfeasible = false ∧
        l.IsUnbounded = false ∧ l.IsTimeOut = false) ∧
    (l.solutionStatus = 15 →
      l.HasValues = false ∧ l.IsOptimal = false ∧ l.IsInfeasible = false ∧
        l.IsUnbounded = false ∧ l.IsTimeOut = false) := by
  simp only [highsSolution.IsOptimal, highsSolution.HasValues, hasValues,
    highsSolution.IsInfeasible, highsSolution.IsUnbounded, highsSolution.IsTimeOut,
    optimal, infeasible, unboundedOrInfeasible, unbounded, timeLimit,
    decide_eq_true_eq, Bool.or_eq_true, decide_eq_false_iff_not, Bool.or_eq_false_iff]
  refine ⟨trivial, trivial, trivial, trivial, trivial, ?_, ?_⟩
  · rintro ⟨h7, h8, h9, h10, h13⟩
    exact ⟨h7, h7, ⟨h8, h9⟩, ⟨h10, h9⟩, h13⟩
  · intro h
    rw [h]
    decide

/-- Counterexample for C14: for the status `unboundedOrInfeasible` (9) both
`IsInfeasible` and `IsUnbounded` hold, two of the five conditions. -/
theorem highsSolution_two_conditions_counterexample :
    (highsSolution.ofStatus 9 : highsSolution Int).IsInfeasible = true ∧
    (highsSolution.ofStatus 9 : highsSolution Int).IsUnbounded = true ∧
    (highsSolution.ofStatus 9 : highsSolution Int).conditions.count true = 2 := by
  decide

/-- Claim C14, amended: of the five conditions `IsOptimal`, `IsInfeasible`,
`IsUnbounded`, `IsTimeOut` and unknown-with-no-values, exactly one holds for
every status code other than `unboundedOrInfeasible` (9), and exactly two,
`IsInfeasible` and `IsUnbounded`, hold for 9. -/
theorem highsSolution_conditions (l : highsSolution F) :
    l.conditions.count true = (if l.solutionStatus = 9 then 2 else 1) ∧
    (l.solutionStatus = 9 → l.conditions = [false, true, true, false, false]) := by
  simp only [highsSolution.conditions, highsSolution.unknownNoValues,
    highsSolution.IsOptimal, highsSolution.HasValues, hasValues,
    highsSolution.IsInfeasible, highsSolution.IsUnbounded, highsSolution.IsTimeOut,
    optimal, infeasible, unboundedOrInfeasible, unbounded, timeLimit]
  by_cases h7 : l.solutionStatus = 7
  · simp [h7]
  by_cases h8 : l.solutionStatus = 8
  · simp [h8]
  by_cases h9 : l.solutionStatus = 9
  · simp [h9]
  by_cases h10 : l.solutionStatus = 10
  · simp [h10]
  by_cases h13 : l.solutionStatus = 13
  · simp [h13]
  simp [h7, h8, h9, h10, h13]

/-- Counterexample for C15: with a negative index the guard
`index >= len(values)` does not fire and the array is indexed with it, which
panics; no sentinel is returned. -/
theorem Value_negative_index_counterexample :
    highsSolution.Value (179769 : Int)
      { values := [5, 6], solutionStatus := 7, objectiveValue := 0, runtime := 0 } (-1)
      = none := by
  decide

/-- Claim C15, amended: for every variable whose index is not negative, `Value`
returns: the sentinel `math.MaxFloat64` when the index is at least
`len(values)`, and `values[index]` otherwise. -/
theorem Value_nonnegative_index (maxFloat64 : F) (l : highsSolution F) (i : Nat) :
    (l.values.length ≤ i → l.Value maxFloat64 (i : Int) = some maxFloat64) ∧
    (∀ h : i < l.values.length,
      l.Value maxFloat64 (i : Int) = some (l.values.get ⟨i, h⟩)) := by
  unfold highsSolution.Value indexSlice
  constructor
  · intro h
    have : ((l.values.length : Int) ≤ (i : Int)) := by exact_mod_cast h
    simp [this]
  · intro h
    have h1 : ¬ ((l.values.length : Int) ≤ (i : Int)) := by
      intro hle
      have : l.values.length ≤ i := by exact_mod_cast hle
      omega
    have h2 : ¬ ((i : Int) < 0) := by omega
    simp [h1, h2, List.getElem?_eq_getElem h]

/-- Claim C16: for a model with zero variables and any options, `Solve`
returns no error and a solution that is optimal with an empty values array, and
it makes no engine call at all. -/
theorem Solve_empty_model [Zero F] [Neg F] [Mul F] [OfNat F 2] (K : HighsConstants)
    (S : HighsStatus) (L : Library F)
    (ord : GoMap (QuadraticTerm F) → GoMap (QuadraticTerm F)) (E : Engine F)
    (model : Model F) (options : SolveOptions F) (start finish : Nat)
    (hvars : model.vars.length = 0) :
    ∃ solution, Solve K S L ord E model options start finish
        = (Outcome.returned (some solution) none, []) ∧
      solution.IsOptimal = true ∧ solution.values = [] := by
  refine ⟨highsSolution.ofStatus optimal, ?_, rfl, rfl⟩
  unfold Solve
  simp [hvars]

/-- Witness for C16: the example model without variables. -/
theorem Solve_empty_model_witness :
    exEmptyModel.vars.length = 0 ∧
    ∃ solution, Solve exConstants exStatus exLibrary id exEngine exEmptyModel exOptions 0 1
        = (Outcome.returned (some solution) none, []) ∧
      solution.IsOptimal = true ∧ solution.values = [] :=
  ⟨rfl, Solve_empty_model exConstants exStatus exLibrary id exEngine exEmptyModel exOptions
    0 1 rfl⟩

/-- Counterexample for C17: on the model of `TestHighsMIQP`, with an engine
that accepts every call `Solve` returns `errMiqpNotSupported` only after it has
created the handle, asked for the infinity value and set five options; and
with an engine that cannot create a handle it returns an unknown-status
solution and no error. -/
theorem Solve_miqp_counterexample :
    exLibrary.isQuadratic exMiqpModel.objective = true ∧
    (∃ v ∈ exMiqpModel.vars, v.isInt = true) ∧
    Solve exConstants exStatus exLibrary id exEngine exMiqpModel exOptions 0 1
      = (Outcome.returned none (some SolveError.errMiqpNotSupported),
         [EngineCall.create, EngineCall.getInfinity,
          EngineCall.setBoolOptionValue optionOutputFlag 0,
          EngineCall.setIntOptionValue optionLogDevLevel 0,
          EngineCall.setDoubleOptionValue optionTimeLimit 10,
          EngineCall.setDoubleOptionValue optionMipAbsGap 3,
          EngineCall.setDoubleOptionValue optionMipRelGap 4,
          EngineCall.destroy]) ∧
    Solve exConstants exStatus exLibrary id exEngineNoHandle exMiqpModel exOptions 0 1
      = (Outcome.returned (some (highsSolution.ofStatus statusUnknown)) none,
         [EngineCall.create]) := by
  refine ⟨by decide, by decide, by decide, by decide⟩

/-- Claim C17, amended: for a model whose objective is quadratic and which has
an integer or boolean variable (variable indices dense), `Solve` makes engine
calls before it rejects the model: it creates the handle, and when that fails
it returns an unknown-status solution and no error; otherwise it asks for the
infinity value and applies the options, by setter calls only, and then returns
exactly `errMiqpNotSupported` when every option was accepted, and the wrapped
option error when one was rejected; it makes no model-loading and no run call,
and releases the handle. -/
theorem Solve_miqp_rejected [Zero F] [Neg F] [Mul F] [OfNat F 2] (K : HighsConstants)
    (S : HighsStatus) (L : Library F)
    (ord : GoMap (QuadraticTerm F) → GoMap (QuadraticTerm F)) (E : Engine F)
    (model : Model F) (options : SolveOptions F) (start finish : Nat)
    (hdense : DenseIndices model)
    (hobj : ∀ t ∈ model.objective.terms, t.var.index < model.vars.length)
    (hq : L.isQuadratic model.objective = true)
    (hint : ∃ v ∈ model.vars, v.isBool = true ∨ v.isInt = true) :
    (E.createOk = false →
      Solve K S L ord E model options start finish =
        (Outcome.returned (some (highsSolution.ofStatus statusUnknown)) none,
         [EngineCall.create])) ∧
    (E.createOk = true →
      ∃ input added r,
        newHighsInput K ord model E.infinity start = some input ∧
        handleOptions S L E [EngineCall.create, EngineCall.getInfinity] input options
          = (r, [EngineCall.create, EngineCall.getInfinity] ++ added) ∧
        (∀ c ∈ added, c.isSetter = true) ∧
        (r = none →
          Solve K S L ord E model options start finish =
            (Outcome.returned none (some SolveError.errMiqpNotSupported),
             [EngineCall.create, EngineCall.getInfinity] ++ added
               ++ [EngineCall.destroy])) ∧
        (∀ err, r = some err →
          Solve K S L ord E model options start finish =
            (Outcome.returned none (some (SolveError.handlingOptions err)),
             [EngineCall.create, EngineCall.getInfinity] ++ added
               ++ [EngineCall.destroy]))) := by
  constructor
  · intro hcreate
    obtain ⟨v, hvm, _⟩ := hint
    have hne : model.vars.length ≠ 0 := by
      intro h0
      rw [List.length_eq_zero] at h0
      rw [h0] at hvm
      simp at hvm
    unfold Solve
    simp [hne, hcreate]
  · intro hcreate
    obtain ⟨input, added, r, hin, hopt, hset, hsolve⟩ :=
      Solve_miqp K S L ord E model options start finish hdense.lt hobj hq hint hcreate
    refine ⟨input, added, r, hin, hopt, hset, ?_, ?_⟩
    · intro hr
      rw [hsolve, hr]
    · intro err hr
      rw [hsolve, hr]

/-- Witness for C17, amended: the model of `TestHighsMIQP`. -/
theorem Solve_miqp_rejected_witness :
    DenseIndices exMiqpModel ∧
    (∀ t ∈ exMiqpModel.objective.terms, t.var.index < exMiqpModel.vars.length) ∧
    exLibrary.isQuadratic exMiqpModel.objective = true ∧
    (∃ v ∈ exMiqpModel.vars, v.isBool = true ∨ v.isInt = true) ∧
    (exEngineNoHandle.createOk = false →
      Solve exConstants exStatus exLibrary id exEngineNoHandle exMiqpModel exOptions 0 1 =
        (Outcome.returned (some (highsSolution.ofStatus statusUnknown)) none,
         [EngineCall.create])) :=
  ⟨by unfold DenseIndices; decide, by decide, by decide, by decide,
    (Solve_miqp_rejected exConstants exStatus exLibrary id exEngineNoHandle exMiqpModel
      exOptions 0 1 (by unfold DenseIndices; decide) (by decide) (by decide)
      (by decide)).1⟩

/-- Claim C18: for a model with a quadratic objective and at least one integer
or boolean variable, with dense variable indices, and for any options,
whenever the engine handle is created `Solve` returns a non-nil error (and a
nil solution) and calls neither `Highs_passModel` nor `Highs_run`. -/
theorem Solve_miqp_error [Zero F] [Neg F] [Mul F] [OfNat F 2] (K : HighsConstants)
    (S : HighsStatus) (L : Library F)
    (ord : GoMap (QuadraticTerm F) → GoMap (QuadraticTerm F)) (E : Engine F)
    (model : Model F) (options : SolveOptions F) (start finish : Nat)
    (hdense : DenseIndices model)
    (hobj : ∀ t ∈ model.objective.terms, t.var.index < model.vars.length)
    (hq : L.isQuadratic model.objective = true)
    (hint : ∃ v ∈ model.vars, v.isBool = true ∨ v.isInt = true)
    (hcreate : E.createOk = true) :
    ∃ err log,
      Solve K S L ord E model options start finish
        = (Outcome.returned none (some err), log) ∧
      ∀ c ∈ log, c ≠ EngineCall.run ∧ ∀ args, c ≠ EngineCall.passModel args := by
  obtain ⟨input, added, r, _, _, hset, hsolve⟩ :=
    Solve_miqp K S L ord E model options start finish hdense.lt hobj hq hint hcreate
  refine ⟨_, _, hsolve, ?_⟩
  intro c hc
  simp only [List.mem_append, List.mem_cons, List.mem_singleton, List.not_mem_nil,
    or_false] at hc
  rcases hc with ((rfl | rfl) | hc) | rfl
  · exact ⟨by simp, by simp⟩
  · exact ⟨by simp, by simp⟩
  · have := hset c hc
    constructor
    · rintro rfl
      simp [EngineCall.isSetter] at this
    · rintro args rfl
      simp [EngineCall.isSetter] at this
  · exact ⟨by simp, by simp⟩

/-- Witness for C18: the model of `TestHighsMIQP` and an engine that accepts
every call. -/
theorem Solve_miqp_error_witness :
    DenseIndices exMiqpModel ∧
    (∀ t ∈ exMiqpModel.objective.terms, t.var.index < exMiqpModel.vars.length) ∧
    exLibrary.isQuadratic exMiqpModel.objective = true ∧
    (∃ v ∈ exMiqpModel.vars, v.isBool = true ∨ v.isInt = true) ∧
    exEngine.createOk = true ∧
    ∃ err log,
      Solve exConstants exStatus exLibrary id exEngine exMiqpModel exOptions 0 1
        = (Outcome.returned none (some err), log) ∧
      ∀ c ∈ log, c ≠ EngineCall.run ∧ ∀ args, c ≠ EngineCall.passModel args :=
  ⟨by unfold DenseIndices; decide, by decide, by decide, by decide, by decide,
    Solve_miqp_error exConstants exStatus exLibrary id exEngine exMiqpModel exOptions 0 1
      (by unfold DenseIndices; decide) (by decide) (by decide) (by decide) (by decide)⟩

/-- Claim C19: `setOutputFlag` sends the engine `output_flag` and then
`log_dev_level` with the values that the verbosity determines: off gives
`(0, 0)`, low `(1, 0)`, medium `(1, 1)`, high `(1, 2)`. The hypothesis is that
the engine accepts the `output_flag` call, after which the second call is
made. -/
theorem setOutputFlag_pair (S : HighsStatus) (E : Engine F) (log : List (EngineCall F))
    (options : SolveOptions F)
    (haccept : ∀ value,
      E.status (log ++ [EngineCall.setBoolOptionValue optionOutputFlag value])
        = S.kHighsStatusOk) :
    (options.verbosity = Verbosity.Off →
      (setOutputFlag S E log options).2 =
        log ++ [EngineCall.setBoolOptionValue optionOutputFlag 0,
                EngineCall.setIntOptionValue optionLogDevLevel 0]) ∧
    (options.verbosity = Verbosity.Low →
      (setOutputFlag S E log options).2 =
        log ++ [EngineCall.setBoolOptionValue optionOutputFlag 1,
                EngineCall.setIntOptionValue optionLogDevLevel 0]) ∧
    (options.verbosity = Verbosity.Medium →
      (setOutputFlag S E log options).2 =
        log ++ [EngineCall.setBoolOptionValue optionOutputFlag 1,
                EngineCall.setIntOptionValue optionLogDevLevel 1]) ∧
    (options.verbosity = Verbosity.High →
      (setOutputFlag S E log options).2 =
        log ++ [EngineCall.setBoolOptionValue optionOutputFlag 1,
                EngineCall.setIntOptionValue optionLogDevLevel 2]) := by
  refine ⟨fun h => ?_, fun h => ?_, fun h => ?_, fun h => ?_⟩ <;>
    (unfold setOutputFlag
     simp only [h, haccept, ne_eq, not_true_eq_false, if_false, Step.snd_ite]
     simp)

/-- Witness for C19: the example engine, which accepts every call. -/
theorem setOutputFlag_pair_witness :
    (∀ value,
      exEngine.status ([] ++ [EngineCall.setBoolOptionValue optionOutputFlag value])
        = exStatus.kHighsStatusOk) ∧
    (exOptions.verbosity = Verbosity.Off →
      (setOutputFlag exStatus exEngine [] exOptions).2 =
        [] ++ [EngineCall.setBoolOptionValue optionOutputFlag 0,
               EngineCall.setIntOptionValue optionLogDevLevel 0]) :=
  ⟨fun _ => rfl, (setOutputFlag_pair exStatus exEngine [] exOptions (fun _ => rfl)).1⟩

/-- Claim C20: for a model with dense variable indices and any options, once
the two calls of `setOutputFlag` have succeeded, the next call of
`handleOptions` sets `time_limit` to the duration in seconds, whether or not
the problem is integer; when it is accepted, `mip_abs_gap` is set next and,
when that is accepted, `mip_rel_gap`, exactly when the model has a boolean or
integer variable, which is when `prepareColumns` sets `isIntegerProblem`; for
a model with only continuous variables the gap setters are skipped and the
control options follow `time_limit` directly. -/
theorem handleOptions_time_limit_and_gaps [Zero F] [Neg F] [Mul F] [OfNat F 2]
    (K : HighsConstants) (S : HighsStatus) (L : Library F)
    (ord : GoMap (QuadraticTerm F) → GoMap (QuadraticTerm F)) (E : Engine F)
    (model : Model F) (options : SolveOptions F) (start : Nat)
    (log log1 : List (EngineCall F))
    (hdense : DenseIndices model)
    (hobj : ∀ t ∈ model.objective.terms, t.var.index < model.vars.length)
    (hK : K.kHighsVarTypeContinuous ≠ K.kHighsVarTypeInteger)
    (hflag : setOutputFlag S E log options = (none, log1)) :
    ∃ input, newHighsInput K ord model E.infinity start = some input ∧
      (input.isIntegerProblem = true ↔ ∃ v ∈ model.vars, v.isBool = true ∨ v.isInt = true) ∧
      (∃ r rest, handleOptions S L E log input options =
        (r, log1 ++ [EngineCall.setDoubleOptionValue optionTimeLimit
          (L.durationSeconds options.duration)] ++ rest)) ∧
      (E.status (log1 ++ [EngineCall.setDoubleOptionValue optionTimeLimit
          (L.durationSeconds options.duration)]) = S.kHighsStatusOk →
        ((∃ v ∈ model.vars, v.isBool = true ∨ v.isInt = true) →
          (∃ r rest, handleOptions S L E log input options =
            (r, log1 ++ [EngineCall.setDoubleOptionValue optionTimeLimit
                  (L.durationSeconds options.duration),
                EngineCall.setDoubleOptionValue optionMipAbsGap options.mipGapAbsolute]
              ++ rest)) ∧
          (E.status (log1 ++ [EngineCall.setDoubleOptionValue optionTimeLimit
                  (L.durationSeconds options.duration),
                EngineCall.setDoubleOptionValue optionMipAbsGap options.mipGapAbsolute])
              = S.kHighsStatusOk →
            ∃ r rest, handleOptions S L E log input options =
              (r, log1 ++ [EngineCall.setDoubleOptionValue optionTimeLimit
                    (L.durationSeconds options.duration),
                  EngineCall.setDoubleOptionValue optionMipAbsGap options.mipGapAbsolute,
                  EngineCall.setDoubleOptionValue optionMipRelGap options.mipGapRelative]
                ++ rest))) ∧
        ((∀ v ∈ model.vars, v.isBool = false ∧ v.isInt = false) →
          handleOptions S L E log input options =
            handleControlOptions S E
              (log1 ++ [EngineCall.setDoubleOptionValue optionTimeLimit
                (L.durationSeconds options.duration)]) options)) := by
  obtain ⟨input, hin, hip, -⟩ := newHighsInput_some K ord model E.infinity start hdense.lt hobj
  have hiff : input.isIntegerProblem = true ↔
      ∃ v ∈ model.vars, v.isBool = true ∨ v.isInt = true := by
    rw [hip]
    exact anyInteger_iff K hK model.vars
  refine ⟨input, hin, hiff, ?_, ?_⟩
  · have h : handleOptions S L E log input options =
        (setDoubleOption S E log1 optionTimeLimit (L.durationSeconds options.duration)).andThen
          fun log =>
          (if input.isIntegerProblem then
            (setDoubleOption S E log optionMipAbsGap options.mipGapAbsolute).andThen fun log =>
            setDoubleOption S E log optionMipRelGap options.mipGapRelative
           else (none, log)).andThen fun log =>
          handleControlOptions S E log options := by
      unfold handleOptions
      rw [hflag, Step.andThen_none]
    rw [h]
    exact Step.andThen_extends _ _ _
      (by rw [setDoubleOption_eq]; exact SetterCalls.refl _)
      (fun mid => setterCalls_after_time_limit S E input options mid)
  · intro htime
    rw [handleOptions_after_time_limit S L E log log1 input options hflag htime]
    constructor
    · intro hint
      rw [hiff.mpr hint]
      simp only [if_true]
      constructor
      · obtain ⟨e, rest, he⟩ := Step.andThen_extends
          (log1 ++ [EngineCall.setDoubleOptionValue optionTimeLimit
              (L.durationSeconds options.duration)] ++
            [EngineCall.setDoubleOptionValue optionMipAbsGap options.mipGapAbsolute])
          ((setDoubleOption S E
              (log1 ++ [EngineCall.setDoubleOptionValue optionTimeLimit
                (L.durationSeconds options.duration)])
              optionMipAbsGap options.mipGapAbsolute).andThen fun log =>
            setDoubleOption S E log optionMipRelGap options.mipGapRelative)
          (fun log => handleControlOptions S E log options)
          (SetterCalls.andThen (by rw [setDoubleOption_eq]; exact SetterCalls.refl _)
            (fun mid => setterCalls_setDoubleOption _ _ _ _ _))
          (fun mid => setterCalls_handleControlOptions S E mid options)
        exact ⟨e, rest, by rw [he]; simp⟩
      · intro hs
        have hs' : E.status (log1 ++ [EngineCall.setDoubleOptionValue optionTimeLimit
            (L.durationSeconds options.duration)] ++
            [EngineCall.setDoubleOptionValue optionMipAbsGap options.mipGapAbsolute])
            = S.kHighsStatusOk := by simpa using hs
        rw [setDoubleOption_eq, hs']
        simp only [ne_eq, not_true_eq_false, if_false, Step.andThen_none]
        obtain ⟨e, rest, he⟩ := Step.andThen_extends
          (log1 ++ [EngineCall.setDoubleOptionValue optionTimeLimit
              (L.durationSeconds options.duration)] ++
            [EngineCall.setDoubleOptionValue optionMipAbsGap options.mipGapAbsolute] ++
            [EngineCall.setDoubleOptionValue optionMipRelGap options.mipGapRelative])
          (setDoubleOption S E
              (log1 ++ [EngineCall.setDoubleOptionValue optionTimeLimit
                (L.durationSeconds options.duration)] ++
                [EngineCall.setDoubleOptionValue optionMipAbsGap options.mipGapAbsolute])
              optionMipRelGap options.mipGapRelative)
          (fun log => handleControlOptions S E log options)
          (by rw [setDoubleOption_eq]; exact SetterCalls.refl _)
          (fun mid => setterCalls_handleControlOptions S E mid options)
        exact ⟨e, rest, by rw [he]; simp⟩
    · intro hcont
      have hnot : input.isIntegerProblem = false := by
        rw [Bool.eq_false_iff]
        intro h
        obtain ⟨v, hv, hvi⟩ := hiff.mp h
        rcases hvi with h1 | h1
        · rw [(hcont v hv).1] at h1; exact Bool.noConfusion h1
        · rw [(hcont v hv).2] at h1; exact Bool.noConfusion h1
      simp [hnot, Step.andThen_none]

/-- Witness for C20: the example model, which has a boolean variable, and the
example engine, which accepts every call. -/
theorem handleOptions_time_limit_and_gaps_witness :
    DenseIndices exModel ∧
    (∀ t ∈ exModel.objective.terms, t.var.index < exModel.vars.length) ∧
    exConstants.kHighsVarTypeContinuous ≠ exConstants.kHighsVarTypeInteger ∧
    setOutputFlag exStatus exEngine [] exOptions =
      (none, [EngineCall.setBoolOptionValue optionOutputFlag 0,
              EngineCall.setIntOptionValue optionLogDevLevel 0]) ∧
    ∃ input, newHighsInput exConstants id exModel exEngine.infinity 0 = some input ∧
      (input.isIntegerProblem = true ↔
        ∃ v ∈ exModel.vars, v.isBool = true ∨ v.isInt = true) :=
  ⟨by unfold DenseIndices; decide, by decide, by decide, by decide,
    (handleOptions_time_limit_and_gaps exConstants exStatus exLibrary id exEngine exModel
      exOptions 0 []
      [EngineCall.setBoolOptionValue optionOutputFlag 0,
       EngineCall.setIntOptionValue optionLogDevLevel 0]
      (by unfold DenseIndices; decide) (by decide) (by decide)
      (by decide)).imp fun _ h => ⟨h.1, h.2.1⟩⟩

/-- Claim C21: `handleOptions` makes its setter calls in the application order
`plannedCalls` and stops at the first one that the engine rejects. If the call
at position `i` is the first rejected one, the result is the error of that
option and the log holds the calls up to that one and none of those that
follow. The result is nil only when every call of the application order was
made and accepted. -/
theorem handleOptions_first_rejected (S : HighsStatus) (L : Library F) (E : Engine F)
    (log : List (EngineCall F)) (input : highsInput F) (options : SolveOptions F) :
    (∀ (i : Nat) (c : EngineCall F) (err : SolveError F),
      (plannedCalls L input options)[i]? = some (c, err) →
      (∀ j < i,
        E.status (log ++ ((plannedCalls L input options).take (j + 1)).map Prod.fst) =
          S.kHighsStatusOk) →
      E.status (log ++ ((plannedCalls L input options).take (i + 1)).map Prod.fst) ≠
        S.kHighsStatusOk →
      handleOptions S L E log input options =
        (some err, log ++ ((plannedCalls L input options).take (i + 1)).map Prod.fst)) ∧
    ((handleOptions S L E log input options).1 = none →
      (handleOptions S L E log input options).2 =
        log ++ (plannedCalls L input options).map Prod.fst ∧
      ∀ j < (plannedCalls L input options).length,
        E.status (log ++ ((plannedCalls L input options).take (j + 1)).map Prod.fst) =
          S.kHighsStatusOk) := by
  rw [handleOptions_eq_apply]
  cases hc : options.controlToTyped with
  | error message =>
    have hp : plannedCalls L input options = plannedSetters L input options := by
      simp [plannedCalls, hc]
    rw [hp]
    refine ⟨fun i c err hi hbefore hrej => ?_, fun h => ?_⟩
    · rw [applyUntilRejected_first_rejected S E _ log i c err hi hbefore hrej]
      rfl
    · have h1 := andThen_fst_none _ _ h
      obtain ⟨h2, -⟩ := applyUntilRejected_none S E _ log h1
      rw [h2, Step.andThen_none] at h
      simp [handleControlOptions, hc] at h
  | ok c =>
    have hp : plannedCalls L input options =
        plannedSetters L input options ++ plannedControlSetters c := by
      simp [plannedCalls, hc]
    have hfun : (fun log => handleControlOptions S E log options) =
        fun log => applyUntilRejected S E log (plannedControlSetters c) :=
      funext fun log => handleControlOptions_eq_apply S E log options c hc
    rw [hfun, ← applyUntilRejected_append, ← hp]
    refine ⟨fun i c err hi hbefore hrej =>
      applyUntilRejected_first_rejected S E _ log i c err hi hbefore hrej, fun h => ?_⟩
    obtain ⟨h2, h3⟩ := applyUntilRejected_none S E _ log h
    exact ⟨by rw [h2], h3⟩

/-- Witness for C21: the int option `threads` is given the value `2^32 + 5`,
which reaches the engine as 5, and the engine rejects it. `handleOptions`
returns the error of that option, which names the value as given, after the
two calls of `setOutputFlag`, the time limit and the bool option, and it does
not apply the string option that follows. -/
theorem handleOptions_first_rejected_witness :
    handleOptions exStatus exLibrary exEngineRejectFive [] exInput exControlOptions =
      (some (SolveError.failedIntOption "threads" 4294967301),
       [EngineCall.setBoolOptionValue optionOutputFlag 0,
        EngineCall.setIntOptionValue optionLogDevLevel 0,
        EngineCall.setDoubleOptionValue optionTimeLimit 10,
        EngineCall.setBoolOptionValue "mip_detect_symmetry" 1,
        EngineCall.setIntOptionValue "threads" 5]) :=
  (handleOptions_first_rejected exStatus exLibrary exEngineRejectFive [] exInput
    exControlOptions).1 4 (EngineCall.setIntOptionValue "threads" 5)
    (SolveError.failedIntOption "threads" 4294967301) rfl (by decide) (by decide)

/-- Claim C23: for a model with at least one variable, dense variable indices
and terms over its own variables, `newHighsInput` builds an input on which no
first-element access of `solve` panics. When `numRows > 0` the five row arrays
are non-empty; when `isQuadraticProblem` the three Hessian arrays are
non-empty; when `isIntegerProblem` the integrality array is non-empty; there
is at least one column and the three column arrays are non-empty. The
arguments passed to the engine are the guarded ones, a pointer being null when
its guard is false. The buffers `columnValues` and `columnDuals` have length
`numColumns > 0`, and `solve` does not panic whatever the engine answers. -/
theorem solve_first_element_accesses [Zero F] [Neg F] [Mul F] [OfNat F 2]
    (K : HighsConstants) (ord : GoMap (QuadraticTerm F) → GoMap (QuadraticTerm F))
    (model : Model F) (infinity : F) (start : Nat)
    (hord : ∀ m, (ord m).Perm m)
    (hvars : 0 < model.vars.length)
    (hdense : DenseIndices model)
    (hobj : ∀ t ∈ model.objective.terms, t.var.index < model.vars.length)
    (hquad : ∀ t ∈ model.objective.quadraticTerms, t.var1.index < model.vars.length) :
    ∃ input, newHighsInput K ord model infinity start = some input ∧
      (0 < input.numRows →
        input.rowLowerBound ≠ [] ∧ input.rowUpperBound ≠ [] ∧
        input.rowConstraintMatrixBegins ≠ [] ∧ input.rowConstraintMatrixIndices ≠ [] ∧
        input.rowConstraintMatrixValues ≠ []) ∧
      (input.isQuadraticProblem = true →
        input.hessianMatrixBegins ≠ [] ∧ input.hessianMatrixIndices ≠ [] ∧
        input.hessianMatrixValues ≠ []) ∧
      (input.isIntegerProblem = true → input.columnIntegrality ≠ []) ∧
      (0 < input.numColumns ∧ input.columnCosts ≠ [] ∧ input.columnLowerBound ≠ [] ∧
        input.columnUpperBound ≠ []) ∧
      passModelArgs input = some (guardedArgs input) ∧
      (List.replicate input.numColumns (0 : F)).length = input.numColumns ∧
      addrOfFirst (List.replicate input.numColumns (0 : F)) =
        some (Ptr.first (List.replicate input.numColumns 0)) ∧
      ∀ (S : HighsStatus) (E : Engine F) (log : List (EngineCall F)) (finish : Nat),
        (solve S E log input finish).1 ≠ Outcome.panic := by
  obtain ⟨input, hinput, hn, -, h1, h2, h3, h4, hrows, hq⟩ :=
    newHighsInput_buffers K ord hord model infinity start hdense.lt hobj hquad
  have hcols : 0 < input.numColumns := by rw [hn]; exact hvars
  have hc : input.columnCosts ≠ [] ∧ input.columnLowerBound ≠ [] ∧
      input.columnUpperBound ≠ [] :=
    ⟨ne_nil_of_length_pos_eq _ _ h1 hvars, ne_nil_of_length_pos_eq _ _ h2 hvars,
      ne_nil_of_length_pos_eq _ _ h3 hvars⟩
  have hint : input.isIntegerProblem = true → input.columnIntegrality ≠ [] :=
    fun _ => ne_nil_of_length_pos_eq _ _ h4 hvars
  have hargs := passModelArgs_eq input hrows hq (fun _ => hc) hint
  refine ⟨input, hinput, hrows, hq, hint, ⟨hcols, hc⟩, hargs, List.length_replicate _ _,
    ?_, fun S E log finish => solve_ne_panic S E log input finish _ hargs hcols⟩
  exact addrOfFirst_of_ne_nil _
    (ne_nil_of_length_pos_eq _ _ (List.length_replicate _ _) hcols)

/-- Witness for C23: the example model, which has two variables, two kept rows,
a boolean variable and quadratic terms, so that every guard of `solve` is
true. -/
theorem solve_first_element_accesses_witness :
    (∀ m : GoMap (QuadraticTerm Int), (id m).Perm m) ∧
    0 < exModel.vars.length ∧ DenseIndices exModel ∧
    (∀ t ∈ exModel.objective.terms, t.var.index < exModel.vars.length) ∧
    (∀ t ∈ exModel.objective.quadraticTerms, t.var1.index < exModel.vars.length) ∧
    ∃ input, newHighsInput exConstants id exModel 1000 0 = some input ∧
      passModelArgs input = some (guardedArgs input) ∧
      ∀ (S : HighsStatus) (E : Engine Int) (log : List (EngineCall Int)) (finish : Nat),
        (solve S E log input finish).1 ≠ Outcome.panic :=
  ⟨fun m => List.Perm.refl m, by decide, by unfold DenseIndices; decide, by decide,
    by decide,
    (solve_first_element_accesses exConstants id exModel 1000 0
      (fun m => List.Perm.refl m) (by decide) (by unfold DenseIndices; decide) (by decide)
      (by decide)).imp fun _ h => ⟨h.1, h.2.2.2.2.2.1, h.2.2.2.2.2.2.2.2⟩⟩

/-- Claim C22: for a model with at least one variable, terms over its own
variables and dense indices, that is not a mixed-integer quadratic program and
whose options are accepted, `Solve` maps the engine failures to the solution
with unknown status. When the handle is not created the result is that
solution with nil error and `Highs_create` is the only call. With the handle
created: when the model load is rejected the result is that solution with
`errPassing`, and the load is followed by the release of the handle only, so
that `Highs_run` is never called; when the load is accepted and the run returns
neither ok nor warning the result is that solution with nil error; when the
run succeeds and the solution retrieval is rejected the result is that
solution with `errGetSolution`. The solution with unknown status has
`HasValues` false and no predicate true. -/
theorem Solve_engine_failures [Zero F] [Neg F] [Mul F] [OfNat F 2] (K : HighsConstants)
    (S : HighsStatus) (L : Library F)
    (ord : GoMap (QuadraticTerm F) → GoMap (QuadraticTerm F)) (E : Engine F)
    (model : Model F) (options : SolveOptions F) (start finish : Nat)
    (input : highsInput F)
    (hord : ∀ m, (ord m).Perm m)
    (hvars : 0 < model.vars.length)
    (hdense : DenseIndices model)
    (hobj : ∀ t ∈ model.objective.terms, t.var.index < model.vars.length)
    (hquad : ∀ t ∈ model.objective.quadraticTerms, t.var1.index < model.vars.length)
    (hK : K.kHighsVarTypeContinuous ≠ K.kHighsVarTypeInteger)
    (hmiqp : ¬ (L.isQuadratic model.objective = true ∧
      ∃ v ∈ model.vars, v.isBool = true ∨ v.isInt = true))
    (hinput : newHighsInput K ord model E.infinity start = some input)
    (haccept : (handleOptions S L E [EngineCall.create, EngineCall.getInfinity] input
      options).1 = none) :
    (E.createOk = false →
      Solve K S L ord E model options start finish =
        (Outcome.returned (some (highsSolution.ofStatus statusUnknown)) none,
         [EngineCall.create])) ∧
    (E.createOk = true →
      E.status (loadLog S L E input options) ≠ S.kHighsStatusOk →
      Solve K S L ord E model options start finish =
        (Outcome.returned (some (highsSolution.ofStatus statusUnknown))
          (some SolveError.errPassing),
         loadLog S L E input options ++ [EngineCall.destroy]) ∧
      EngineCall.run ∉ (Solve K S L ord E model options start finish).2) ∧
    (E.createOk = true →
      E.status (loadLog S L E input options) = S.kHighsStatusOk →
      ¬ (E.status (loadLog S L E input options ++ [EngineCall.run]) = S.kHighsStatusOk ∨
         E.status (loadLog S L E input options ++ [EngineCall.run])
           = S.kHighsStatusWarning) →
      Solve K S L ord E model options start finish =
        (Outcome.returned (some (highsSolution.ofStatus statusUnknown)) none,
         loadLog S L E input options ++ [EngineCall.run, EngineCall.destroy])) ∧
    (E.createOk = true →
      E.status (loadLog S L E input options) = S.kHighsStatusOk →
      (E.status (loadLog S L E input options ++ [EngineCall.run]) = S.kHighsStatusOk ∨
       E.status (loadLog S L E input options ++ [EngineCall.run])
         = S.kHighsStatusWarning) →
      E.status (loadLog S L E input options ++
        [EngineCall.run, EngineCall.getModelStatus,
         EngineCall.getSolution (decide (input.numRows > 0))]) ≠ S.kHighsStatusOk →
      Solve K S L ord E model options start finish =
        (Outcome.returned (some (highsSolution.ofStatus statusUnknown))
          (some SolveError.errGetSolution),
         loadLog S L E input options ++
          [EngineCall.run, EngineCall.getModelStatus,
           EngineCall.getSolution (decide (input.numRows > 0)), EngineCall.destroy])) ∧
    ((highsSolution.ofStatus statusUnknown : highsSolution F).HasValues = false ∧
     (highsSolution.ofStatus statusUnknown : highsSolution F).IsOptimal = false ∧
     (highsSolution.ofStatus statusUnknown : highsSolution F).IsInfeasible = false ∧
     (highsSolution.ofStatus statusUnknown : highsSolution F).IsUnbounded = false ∧
     (highsSolution.ofStatus statusUnknown : highsSolution F).IsTimeOut = false) := by
  have hne : model.vars.length ≠ 0 := Nat.pos_iff_ne_zero.mp hvars
  obtain ⟨input', hinput', hn, hip, h1, h2, h3, h4, hrows, hq⟩ :=
    newHighsInput_buffers K ord hord model E.infinity start hdense.lt hobj hquad
  obtain rfl : input' = input := Option.some.inj (hinput'.symm.trans hinput)
  have hcols : 0 < input'.numColumns := by rw [hn]; exact hvars
  have hargs : passModelArgs input' = some (guardedArgs input') :=
    passModelArgs_eq input' hrows hq
      (fun _ => ⟨ne_nil_of_length_pos_eq _ _ h1 hvars, ne_nil_of_length_pos_eq _ _ h2 hvars,
        ne_nil_of_length_pos_eq _ _ h3 hvars⟩)
      (fun _ => ne_nil_of_length_pos_eq _ _ h4 hvars)
  have hnot : (L.isQuadratic model.objective && input'.isIntegerProblem) = false := by
    rw [hip]
    cases hqd : L.isQuadratic model.objective with
    | false => rfl
    | true =>
      cases hai : anyInteger K model.vars with
      | false => rfl
      | true => exact absurd ⟨hqd, (anyInteger_iff K hK model.vars).mp hai⟩ hmiqp
  have hsolve := fun hcreate : E.createOk = true =>
    Solve_eq_solve K S L ord E model options start finish input' hne hcreate hinput haccept
      hnot
  have hbody := solve_eq S E
    (handleOptions S L E [EngineCall.create, EngineCall.getInfinity] input' options).2
    input' finish _ hargs hcols
  obtain ⟨added, hadded, hset⟩ :=
    setterCalls_handleOptions S L E [EngineCall.create, EngineCall.getInfinity] input'
      options
  refine ⟨fun hcreate => ?_, fun hcreate hpass => ?_, fun hcreate hpass hrun => ?_,
    fun hcreate hpass hrun hget => ?_, ?_⟩
  · unfold Solve
    simp only [hne, if_false, hcreate, if_true]
  · have hS : Solve K S L ord E model options start finish =
        (Outcome.returned (some (highsSolution.ofStatus statusUnknown))
          (some SolveError.errPassing),
         loadLog S L E input' options ++ [EngineCall.destroy]) := by
      rw [hsolve hcreate, hbody]
      unfold loadLog at hpass ⊢
      rw [if_pos hpass]
    refine ⟨hS, ?_⟩
    rw [hS]
    unfold loadLog
    rw [hadded]
    intro hmem
    simp only [List.mem_append, List.mem_cons, List.mem_singleton, List.not_mem_nil,
      or_false] at hmem
    rcases hmem with ((h | h) | h) | h
    · rcases h with h | h <;> exact EngineCall.noConfusion h
    · have := hset _ h
      simp [EngineCall.isSetter] at this
    · exact EngineCall.noConfusion h
    · exact EngineCall.noConfusion h
  · rw [hsolve hcreate, hbody]
    unfold loadLog at hpass hrun ⊢
    rw [if_neg (not_not.mpr hpass), if_pos hrun]
    simp
  · rw [hsolve hcreate, hbody]
    unfold loadLog at hpass hrun hget ⊢
    have hget' : E.status
        ((handleOptions S L E [EngineCall.create, EngineCall.getInfinity] input' options).2 ++
          [EngineCall.passModel (guardedArgs input')] ++ [EngineCall.run] ++
          [EngineCall.getModelStatus] ++
          [EngineCall.getSolution (decide (input'.numRows > 0))]) ≠ S.kHighsStatusOk := by
      simpa using hget
    rw [if_neg (not_not.mpr hpass), if_neg (not_not.mpr hrun), if_pos hget']
    simp
  · simp [highsSolution.ofStatus, highsSolution.HasValues, highsSolution.IsOptimal,
      highsSolution.IsInfeasible, highsSolution.IsUnbounded, highsSolution.IsTimeOut,
      hasValues, statusUnknown, optimal, infeasible, unbounded, unboundedOrInfeasible,
      timeLimit]

/-- Witness for C22: the example model with one continuous variable, the example
options and an engine that rejects the model load. The result is the solution
with unknown status and `errPassing`; the load is followed by the release of
the handle only. -/
theorem Solve_engine_failures_witness :
    (∀ m : GoMap (QuadraticTerm Int), (id m).Perm m) ∧
    0 < exLpModel.vars.length ∧ DenseIndices exLpModel ∧
    exConstants.kHighsVarTypeContinuous ≠ exConstants.kHighsVarTypeInteger ∧
    newHighsInput exConstants id exLpModel exEnginePassRejected.infinity 0
      = some exLpInput ∧
    (handleOptions exStatus exLibrary exEnginePassRejected
      [EngineCall.create, EngineCall.getInfinity] exLpInput exOptions).1 = none ∧
    exEnginePassRejected.createOk = true ∧
    exEnginePassRejected.status
      (loadLog exStatus exLibrary exEnginePassRejected exLpInput exOptions)
      ≠ exStatus.kHighsStatusOk ∧
    Solve exConstants exStatus exLibrary id exEnginePassRejected exLpModel exOptions 0 5 =
      (Outcome.returned (some (highsSolution.ofStatus statusUnknown))
        (some SolveError.errPassing),
       loadLog exStatus exLibrary exEnginePassRejected exLpInput exOptions ++
        [EngineCall.destroy]) :=
  ⟨fun m => List.Perm.refl m, by decide, by unfold DenseIndices; decide, by decide, rfl,
    rfl, rfl, by decide,
    ((Solve_engine_failures exConstants exStatus exLibrary id exEnginePassRejected exLpModel
      exOptions 0 5 exLpInput (fun m => List.Perm.refl m) (by decide)
      (by unfold DenseIndices; decide) (by decide) (by decide) (by decide) (by decide)
      rfl rfl).2.1 rfl (by decide)).1⟩

end Claims

end Highs
